import Mathlib

/-!
ASTManager: session store, byte-edit applier, node-edit layer, diff and validation

A shallow embedding of `src/ast_manager.cpp` (class `ASTManager`).

* A Godot `String` is a Lean `String`; `String::utf8()` is `utf8` below (the standard
  UTF-8 encoding) and `String::utf8(ptr, len)` is the decoder `Externals.from_utf8`.
* A `PackedByteArray` is a `List Nat` of byte values.
* `HashMap<String, FileState> open_files` is a function `String → Option FileState`;
  every operation takes the store and returns its result paired with the new store.
* A `TSTree *` is an `Option TSNode` (the root node), `nullptr` being `none`.
* The tree-sitter parser, the Godot decoder and `Vector::sort_custom` are not part of this
  repository; they are the fields of `Externals`.
* `int` values are `Int`; sizes and indices are `Nat`.
* The functions of Godot's `String` used by the node-edit layer (`find`, `substr`, `split`)
  are defined on the characters of the text; a result `-1` of `find` is `none`.
* The node queries of tree-sitter used by the node-kind check are the field of `TreeQueries`;
  the diff library is a parameter of `generate_diff`.
* `apply_node_edits` returns `none` where the code reads the root of a null tree.
-/

namespace ASTManager

/-! ## Syntax trees -/

/-- Row and column of a position in the source (`TSPoint`). -/
structure TSPoint where
  row : Nat
  column : Nat
deriving DecidableEq, Repr

/-- A syntax node with the primitives the manager reads from it: `ts_node_type`,
`ts_node_start_byte`, `ts_node_end_byte`, `ts_node_start_point`, `ts_node_end_point`,
`ts_node_is_error`, `ts_node_is_missing`, `ts_node_has_error` and the children. -/
inductive TSNode where
  | mk (type : String) (start_byte end_byte : Nat) (start_point end_point : TSPoint)
      (is_error is_missing has_error : Bool) (children : List TSNode)

/-- The kind of a node (`ts_node_type`). -/
def ts_node_type : TSNode → String
  | .mk k _ _ _ _ _ _ _ _ => k

/-- First byte of a node (`ts_node_start_byte`). -/
def ts_node_start_byte : TSNode → Nat
  | .mk _ s _ _ _ _ _ _ _ => s

/-- End byte of a node (`ts_node_end_byte`). -/
def ts_node_end_byte : TSNode → Nat
  | .mk _ _ e _ _ _ _ _ _ => e

/-- Start position of a node (`ts_node_start_point`). -/
def ts_node_start_point : TSNode → TSPoint
  | .mk _ _ _ p _ _ _ _ _ => p

/-- End position of a node (`ts_node_end_point`). -/
def ts_node_end_point : TSNode → TSPoint
  | .mk _ _ _ _ p _ _ _ _ => p

/-- Whether the node is an ERROR node (`ts_node_is_error`). -/
def ts_node_is_error : TSNode → Bool
  | .mk _ _ _ _ _ b _ _ _ => b

/-- Whether the node is a MISSING node (`ts_node_is_missing`). -/
def ts_node_is_missing : TSNode → Bool
  | .mk _ _ _ _ _ _ b _ _ => b

/-- Whether the subtree is flagged as containing an error (`ts_node_has_error`). -/
def ts_node_has_error : TSNode → Bool
  | .mk _ _ _ _ _ _ _ b _ => b

/-- The children of a node, `ts_node_child(node, 0 .. ts_node_child_count(node) - 1)`. -/
def ts_node_children : TSNode → List TSNode
  | .mk _ _ _ _ _ _ _ _ cs => cs

/-- One entry of the `error_ranges` array built by `collect_error_nodes`. -/
structure ErrorRange where
  start_byte : Nat
  end_byte : Nat
  start_row : Nat
  start_col : Nat
  end_row : Nat
  end_col : Nat
deriving DecidableEq, Repr

/-- The dictionary `collect_error_nodes` pushes for an error or missing node. -/
def error_range_of (n : TSNode) : ErrorRange :=
  { start_byte := ts_node_start_byte n
    end_byte := ts_node_end_byte n
    start_row := (ts_node_start_point n).row
    start_col := (ts_node_start_point n).column
    end_row := (ts_node_end_point n).row
    end_col := (ts_node_end_point n).column }

mutual
/-- `count_all_descendants`: one for the node plus the counts of all its children. -/
def count_all_descendants : TSNode → Nat
  | .mk _ _ _ _ _ _ _ _ cs => 1 + count_all_descendants_children cs
/-- The `for` loop of `count_all_descendants` over the children. -/
def count_all_descendants_children : List TSNode → Nat
  | [] => 0
  | c :: cs => count_all_descendants c + count_all_descendants_children cs
end

mutual
/-- `collect_error_nodes`: the entries appended to `errors` by the call on a node. -/
def collect_error_nodes : TSNode → List ErrorRange
  | .mk k s e sp ep is_err is_miss he cs =>
    (if is_err || is_miss then [error_range_of (.mk k s e sp ep is_err is_miss he cs)] else [])
      ++ collect_error_nodes_children cs
/-- The `for` loop of `collect_error_nodes` over the children. -/
def collect_error_nodes_children : List TSNode → List ErrorRange
  | [] => []
  | c :: cs => collect_error_nodes c ++ collect_error_nodes_children cs
end

/-! ## Text and bytes -/

/-- UTF-8 encoding of one character, as produced by `String::utf8()`. -/
def utf8_encode_char (c : Char) : List Nat :=
  let v := c.toNat
  if v ≤ 0x7f then [v]
  else if v ≤ 0x7ff then [0xc0 + v / 64, 0x80 + v % 64]
  else if v ≤ 0xffff then [0xe0 + v / 4096, 0x80 + v / 64 % 64, 0x80 + v % 64]
  else [0xf0 + v / 262144, 0x80 + v / 4096 % 64, 0x80 + v / 64 % 64, 0x80 + v % 64]

/-- The bytes of `s.utf8()`, `utf8.length()` of them. -/
def utf8 (s : String) : List Nat :=
  s.data.flatMap utf8_encode_char

/-! ## Edits -/

/-- One element of the `edits` array handed to `apply_text_edits`: a dictionary in which
each of the keys `start_byte`, `end_byte`, `new_text` may be absent. -/
structure EditDict where
  start_byte : Option Int
  end_byte : Option Int
  new_text : Option String
deriving DecidableEq, Repr

/-- The local struct `EditInfo` of `apply_text_edits`. -/
structure EditInfo where
  start_byte : Int
  end_byte : Int
  new_text : String
deriving DecidableEq, Repr

/-- The dictionary a caller builds for a byte-range edit. -/
def EditInfo.toDict (e : EditInfo) : EditDict :=
  { start_byte := some e.start_byte, end_byte := some e.end_byte, new_text := some e.new_text }

/-! ## External collaborators -/

/-- Everything `ASTManager` calls that is not defined in this repository. -/
structure Externals where
  /-- `ts_parser_parse_string(parser, nullptr, data, len)`: the root of the new tree, or
  `none` when the parser returns `nullptr`. -/
  parse : List Nat → Option TSNode
  /-- `String::utf8(ptr, len)`: decoding of a byte sequence into a `String`. -/
  from_utf8 : List Nat → String
  /-- `Vector<EditInfo>::sort_custom<EditInfoComparator>()`. -/
  sort_custom : List EditInfo → List EditInfo

/-- The contract of `sort_custom` for the comparator `a.start_byte < b.start_byte`: the result
is a rearrangement of the input in which no element has a smaller start than one before it. -/
structure SortsByStart (sort : List EditInfo → List EditInfo) : Prop where
  perm : ∀ l, (sort l).Perm l
  sorted : ∀ l, (sort l).Pairwise (fun a b => a.start_byte ≤ b.start_byte)

/-! ## The session store -/

/-- The struct `FileState`: the buffer and the tree of one open file. -/
structure FileState where
  source_bytes : List Nat
  tree : Option TSNode

/-- The member `open_files`. -/
abbrev Store := String → Option FileState

/-- `open_files.insert(key, value)` and assignment through `open_files[key]`. -/
def Store.insert (m : Store) (key : String) (value : FileState) : Store :=
  fun k => if k = key then some value else m k

/-- `open_files.erase(key)`. -/
def Store.erase (m : Store) (key : String) : Store :=
  fun k => if k = key then none else m k

/-- The dictionaries returned by `open_file` and `update_file`. -/
inductive ParseResult where
  /-- `{success: false, error, file_path?}`. -/
  | failure (error : String) (file_path : Option String)
  /-- `{success: true, file_path, has_error, node_count, error_count, error_ranges}`. -/
  | report (file_path : String) (has_error : Bool) (node_count : Nat) (error_count : Nat)
      (error_ranges : List ErrorRange)

/-- The `success` entry of a parse result. -/
def ParseResult.success : ParseResult → Bool
  | .failure _ _ => false
  | .report _ _ _ _ _ => true

/-- `make_parse_result_dict`. -/
def make_parse_result_dict (file_path : String) (tree : Option TSNode) : ParseResult :=
  match tree with
  | none => .failure "Failed to parse" (some file_path)
  | some root =>
    let has_error := ts_node_has_error root
    let error_ranges := if has_error then collect_error_nodes root else []
    .report file_path has_error (count_all_descendants root) error_ranges.length error_ranges

/-- `ASTManager::open_file`. -/
def open_file (x : Externals) (open_files : Store) (file_path content : String) :
    ParseResult × Store :=
  let code := utf8 content
  match x.parse code with
  | none => (.failure "Failed to create parse tree" (some file_path), open_files)
  | some tree =>
    (make_parse_result_dict file_path (some tree),
      open_files.insert file_path { source_bytes := code, tree := some tree })

/-- `ASTManager::close_file`. -/
def close_file (open_files : Store) (file_path : String) : Bool × Store :=
  match open_files file_path with
  | none => (false, open_files)
  | some _ => (true, open_files.erase file_path)

/-- `ASTManager::update_file`. The old tree is deleted and `state.tree` set to `nullptr`
before the new content is parsed. -/
def update_file (x : Externals) (open_files : Store) (file_path new_content : String) :
    ParseResult × Store :=
  match open_files file_path with
  | none => (.failure ("File not open: " ++ file_path) none, open_files)
  | some state =>
    let cleared : FileState := { state with tree := none }
    let code := utf8 new_content
    match x.parse code with
    | none =>
      (.failure "Failed to parse updated content" (some file_path),
        open_files.insert file_path cleared)
    | some tree =>
      (make_parse_result_dict file_path (some tree),
        open_files.insert file_path { source_bytes := code, tree := some tree })

/-- `ASTManager::is_file_open`. -/
def is_file_open (open_files : Store) (file_path : String) : Bool :=
  (open_files file_path).isSome

/-- `ASTManager::get_file_source`. -/
def get_file_source (x : Externals) (open_files : Store) (file_path : String) : String :=
  match open_files file_path with
  | none => ""
  | some state => x.from_utf8 state.source_bytes

/-- `ASTManager::get_node_text`. -/
def get_node_text (x : Externals) (open_files : Store) (file_path : String)
    (start_byte end_byte : Int) : String :=
  match open_files file_path with
  | none => ""
  | some state =>
    if start_byte < 0 ∨ end_byte < 0 ∨ start_byte > end_byte then ""
    else
      let start := start_byte.toNat
      let stop := end_byte.toNat
      if start ≥ state.source_bytes.length ∨ stop > state.source_bytes.length then ""
      else x.from_utf8 ((state.source_bytes.drop start).take (stop - start))

/-! ## The byte-edit applier -/

/-- The dictionary returned by `apply_text_edits` (and `apply_node_edits`); `old_source` is
only present in a dry run. -/
structure EditResult where
  success : Bool
  error : String
  new_source : String
  has_error : Bool
  error_count : Nat
  edits_applied : Nat
  old_source : Option String
deriving DecidableEq, Repr

/-- The conversion of the 64-bit integer of a dictionary entry to an `int` field: the value
is taken modulo `2^32` into the range from `-2^31` to `2^31 - 1`. -/
def to_int32 (v : Int) : Int :=
  (v + 2147483648) % 4294967296 - 2147483648

/-- The body of the validation loop of `apply_text_edits` for the edit at index `i`: the
entries of the dictionary are stored in the `int` fields of the `EditInfo`, and the range
checks are made on the stored values. -/
def validate_edit (source_length : Nat) (i : Nat) (d : EditDict) : Except String EditInfo :=
  match d.start_byte, d.end_byte, d.new_text with
  | some s, some e, some t =>
    let edit : EditInfo :=
      { start_byte := to_int32 s, end_byte := to_int32 e, new_text := t }
    if edit.start_byte < 0 then .error ("Edit " ++ toString i ++ " has negative start_byte")
    else if edit.end_byte < 0 then
      .error ("Edit " ++ toString i ++ " has negative end_byte")
    else if edit.start_byte > edit.end_byte then
      .error ("Edit " ++ toString i ++ " has start_byte > end_byte")
    else if edit.end_byte > (source_length : Int) then
      .error ("Edit " ++ toString i ++ " end_byte exceeds source length")
    else .ok edit
  | _, _, _ => .error ("Edit " ++ toString i ++ " missing required fields")

/-- The validation loop of `apply_text_edits` from index `i` on: the first error met, or
the filled `validated_edits`. -/
def validate_edits (source_length : Nat) : Nat → List EditDict → Except String (List EditInfo)
  | _, [] => .ok []
  | i, d :: ds =>
    match validate_edit source_length i d with
    | .error msg => .error msg
    | .ok e =>
      match validate_edits source_length (i + 1) ds with
      | .error msg => .error msg
      | .ok es => .ok (e :: es)

/-- `edits_overlap`: only the end of the first and the start of the second edit are compared. -/
def edits_overlap (_start1 end1 start2 _end2 : Int) : Bool :=
  decide (end1 > start2)

/-- The message of an overlap rejection. -/
def overlap_error (edit1 edit2 : EditInfo) : String :=
  "Edits overlap: edit at byte " ++ toString edit1.start_byte ++
    " and edit at byte " ++ toString edit2.start_byte

/-- The loop over neighbours of the sorted `validated_edits`: the first pair `(i, i + 1)` for
which `edits_overlap` holds. -/
def find_overlap : List EditInfo → Option (EditInfo × EditInfo)
  | edit1 :: edit2 :: rest =>
    if edits_overlap edit1.start_byte edit1.end_byte edit2.start_byte edit2.end_byte then
      some (edit1, edit2)
    else find_overlap (edit2 :: rest)
  | _ => none

/-- `apply_single_edit_to_bytes`: the bytes before `start_byte`, the bytes of `new_text`, the
bytes from `end_byte` on. -/
def apply_single_edit_to_bytes (original : List Nat) (start_byte end_byte : Int)
    (new_text : String) : List Nat :=
  original.take start_byte.toNat ++ utf8 new_text ++ original.drop end_byte.toNat

/-- The loop `for (i = size - 1; i >= 0; i--)` of `apply_text_edits`: the edits of the sorted
list are applied from the last to the first. -/
def apply_edits_to_bytes (source_bytes : List Nat) (sorted : List EditInfo) : List Nat :=
  sorted.foldr
    (fun edit modified_bytes =>
      apply_single_edit_to_bytes modified_bytes edit.start_byte edit.end_byte edit.new_text)
    source_bytes

/-- `ASTManager::apply_text_edits`. -/
def apply_text_edits (x : Externals) (open_files : Store) (file_path : String)
    (edits : List EditDict) (dry_run : Bool) : EditResult × Store :=
  let result : EditResult :=
    { success := false, error := "", new_source := "", has_error := false, error_count := 0,
      edits_applied := 0, old_source := none }
  match open_files file_path with
  | none => ({ result with error := "File not open: " ++ file_path }, open_files)
  | some state =>
    let source_length := state.source_bytes.length
    let result : EditResult :=
      if dry_run then { result with old_source := some (x.from_utf8 state.source_bytes) }
      else result
    match validate_edits source_length 0 edits with
    | .error msg => ({ result with error := msg }, open_files)
    | .ok validated_edits =>
      let sorted := x.sort_custom validated_edits
      match find_overlap sorted with
      | some (edit1, edit2) => ({ result with error := overlap_error edit1 edit2 }, open_files)
      | none =>
        let modified_bytes := apply_edits_to_bytes state.source_bytes sorted
        let result := { result with new_source := x.from_utf8 modified_bytes }
        match x.parse modified_bytes with
        | none => ({ result with error := "Failed to parse after edits" }, open_files)
        | some root =>
          let has_error := ts_node_has_error root
          let error_ranges := if has_error then collect_error_nodes root else []
          let result :=
            { result with has_error := has_error, error_count := error_ranges.length }
          let open_files :=
            if dry_run then open_files
            else open_files.insert file_path
              { source_bytes := modified_bytes, tree := some root }
          ({ result with success := true, edits_applied := edits.length }, open_files)

/-! ## Replay, after the specification -/

/-- Replay of a list of edits in ascending start order from offset `pos` of the original
buffer: the untouched bytes up to the start of the next edit, its replacement, and so on from
its end; after the last edit the rest of the buffer. -/
def replay_from (original : List Nat) : Nat → List EditInfo → List Nat
  | pos, [] => original.drop pos
  | pos, e :: es =>
    (original.drop pos).take (e.start_byte.toNat - pos) ++ utf8 e.new_text ++
      replay_from original e.end_byte.toNat es

/-- The buffer re-derived from the original and the sorted edit list. -/
def replay (original : List Nat) (sorted : List EditInfo) : List Nat :=
  replay_from original 0 sorted

/-! ## Instances used in the examples -/

/-- A root node without children spanning `n` bytes on one row. -/
def flat_root (n : Nat) (has_error : Bool) : TSNode :=
  .mk (if has_error then "ERROR" else "source") 0 n ⟨0, 0⟩ ⟨0, n⟩ has_error false has_error []

/-- An engine that produces a childless root for every buffer except those holding the byte
`'~'`, for which it returns no tree; a buffer holding the byte `'!'` gets an ERROR root. -/
def sample_parse (bytes : List Nat) : Option TSNode :=
  if bytes.contains 126 then none else some (flat_root bytes.length (bytes.contains 33))

/-- A decoder that is exact on ASCII input. -/
def ascii_from_utf8 (bytes : List Nat) : String :=
  String.mk (bytes.map Char.ofNat)

/-- A sorting routine meeting `SortsByStart`. -/
def sample_sort (l : List EditInfo) : List EditInfo :=
  l.insertionSort (fun a b => a.start_byte ≤ b.start_byte)

/-- The collaborators used in the examples. -/
def sample : Externals :=
  { parse := sample_parse, from_utf8 := ascii_from_utf8, sort_custom := sample_sort }

/-- The empty store of a freshly constructed manager. -/
def empty_store : Store := fun _ => none

/-- The buffer of the session used in the examples. -/
def sample_state : FileState :=
  { source_bytes := utf8 "hello world", tree := sample_parse (utf8 "hello world") }

/-- The store after `open_file("a.gd", "hello world")` on a fresh manager. -/
def sample_store : Store :=
  (open_file sample empty_store "a.gd" "hello world").2

/-- The session invariant: the tree stored for a file is the parse of its buffer. -/
def tree_matches_buffer (x : Externals) (open_files : Store) : Prop :=
  ∀ file_path state, open_files file_path = some state →
    state.tree = x.parse state.source_bytes

/-- The range conditions checked for each edit against a buffer of `source_length` bytes, for
an edit whose offsets are values of the `int` fields in which the code keeps them (below
`2^31`). -/
def EditInfo.in_range (e : EditInfo) (source_length : Nat) : Prop :=
  0 ≤ e.start_byte ∧ e.start_byte ≤ e.end_byte ∧ e.end_byte ≤ (source_length : Int) ∧
    e.end_byte < 2147483648

instance (e : EditInfo) (n : Nat) : Decidable (e.in_range n) := by
  unfold EditInfo.in_range; infer_instance

/-- Both offsets of the edit are values of an `int`: from `-2^31` to `2^31 - 1`. -/
def EditInfo.fits_int (e : EditInfo) : Prop :=
  -2147483648 ≤ e.start_byte ∧ e.start_byte < 2147483648 ∧
    -2147483648 ≤ e.end_byte ∧ e.end_byte < 2147483648

instance (e : EditInfo) : Decidable e.fits_int := by
  unfold EditInfo.fits_int; infer_instance

/-! ## Godot string functions used by the node-edit layer -/

/-- The comparison loop of `String::find` at one position: whether the characters of `what`
are read at the start of `text`. -/
def starts_with : List Char → List Char → Bool
  | _, [] => true
  | [], _ :: _ => false
  | c :: cs, w :: ws => c == w && starts_with cs ws

/-- The scanning loop of `String::find`: `text` is the text from position `i` on. -/
def find_loop (what : List Char) : List Char → Nat → Option Nat
  | [], _ => none
  | c :: cs, i => if starts_with (c :: cs) what then some i else find_loop what cs (i + 1)

/-- Godot's `String::find(what, p_from)` for `p_from ≥ 0`: the position of the first
occurrence of `what` at or after `p_from`; `none` stands for the result `-1`, which is also
the result when `what` or the string is empty. -/
def find (s what : String) (p_from : Nat) : Option Nat :=
  if what.length = 0 ∨ s.length = 0 then none
  else find_loop what.data (s.data.drop p_from) p_from

/-- Godot's `String::substr(p_from, p_chars)` for non-negative arguments. -/
def substr (s : String) (p_from p_chars : Nat) : String :=
  String.mk ((s.data.drop p_from).take p_chars)

/-- The pieces of a text between its newline characters, empty pieces included. -/
def split_newline_chars : List Char → List (List Char)
  | [] => [[]]
  | c :: cs =>
    if c = '\n' then [] :: split_newline_chars cs
    else
      match split_newline_chars cs with
      | [] => [[c]]
      | l :: ls => (c :: l) :: ls

/-- Godot's `String::split("\n", true)`. -/
def split_newline (s : String) : List String :=
  (split_newline_chars s.data).map String.mk

/-! ## Node queries of the grammar engine -/

/-- A node together with the chain of its `ts_node_parent`s, the nearest first and the root
last. -/
structure NodePath where
  node : TSNode
  ancestors : List TSNode

/-- The node queries of tree-sitter used by the node-kind check. -/
structure TreeQueries where
  /-- `ts_node_descendant_for_byte_range(root, start, end)`, with the parents of the node
  found. -/
  descendant_for_byte_range : TSNode → Nat → Nat → NodePath

/-! ## The node-edit layer -/

/-- One element of the `edits` array handed to `apply_node_edits`: a dictionary in which each
of the keys `old_text`, `new_text`, `node_kind` may be absent. -/
structure NodeEditDict where
  old_text : Option String
  new_text : Option String
  node_kind : Option String
deriving DecidableEq, Repr

/-- The `options` dictionary of `apply_node_edits`; an absent key is `none`. -/
structure NodeEditOptions where
  dry_run : Option Bool
  auto_indent : Option Bool
  fail_on_parse_error : Option Bool
deriving DecidableEq, Repr

/-- The local struct `MatchInfo` of `apply_node_edits`; offsets count characters. -/
structure MatchInfo where
  edit_index : Nat
  match_start : Nat
  match_end : Nat
  old_text : String
  new_text : String
  node_kind : String
deriving DecidableEq, Repr

/-- The loop `while (source.find(old_text, search_pos) != -1)` counting further matches; it
is run below with as many rounds as the source has characters. -/
def count_matches (source old_text : String) : Nat → Nat → Nat → Nat
  | 0, _, match_count => match_count
  | fuel + 1, search_pos, match_count =>
    match find source old_text search_pos with
    | none => match_count
    | some p => count_matches source old_text fuel (p + 1) (match_count + 1)

/-- The loop over `current = ts_node_parent(current)` starting at the covering node: whether
a node of the kind is met before the null node. -/
def kind_found (node_kind : String) (covering : NodePath) : Bool :=
  (covering.node :: covering.ancestors).any (fun current => ts_node_type current == node_kind)

/-- The body of the resolution loop of `apply_node_edits` for the edit at index `i`. The
result is `none` when the call reads the root of a null tree, from which it does not
return. -/
def resolve_edit (q : TreeQueries) (source : String) (tree : Option TSNode) (i : Nat)
    (d : NodeEditDict) : Option (Except String MatchInfo) :=
  match d.old_text, d.new_text with
  | some old_text, some new_text =>
    let node_kind := d.node_kind.getD ""
    match find source old_text 0 with
    | none => some (.error ("Edit #" ++ toString i ++ ": old_text not found in source"))
    | some match_start =>
      match find source old_text (match_start + 1) with
      | some second_match =>
        let match_count := count_matches source old_text source.length (second_match + 1) 2
        some (.error ("Edit #" ++ toString i ++ ": old_text matches " ++
          toString match_count ++ " locations, must be unique"))
      | none =>
        let match_end := match_start + old_text.length
        let m : MatchInfo :=
          { edit_index := i, match_start := match_start, match_end := match_end,
            old_text := old_text, new_text := new_text, node_kind := node_kind }
        if node_kind.length = 0 then some (.ok m)
        else
          let match_start_byte := (utf8 (substr source 0 match_start)).length
          let match_end_byte := match_start_byte + (utf8 old_text).length
          match tree with
          | none => none
          | some root =>
            let covering := q.descendant_for_byte_range root match_start_byte
              (match_end_byte - 1)
            if kind_found node_kind covering then some (.ok m)
            else
              some (.error ("Edit #" ++ toString i ++ ": matched text is inside '" ++
                ts_node_type covering.node ++ "', expected '" ++ node_kind ++ "'"))
  | _, _ => some (.error ("Edit #" ++ toString i ++ ": missing required fields"))

/-- The resolution loop of `apply_node_edits` from index `i` on: the first error met, or the
filled `matches`. -/
def resolve_edits (q : TreeQueries) (source : String) (tree : Option TSNode) :
    Nat → List NodeEditDict → Option (Except String (List MatchInfo))
  | _, [] => some (.ok [])
  | i, d :: ds =>
    match resolve_edit q source tree i d with
    | none => none
    | some (.error msg) => some (.error msg)
    | some (.ok m) =>
      match resolve_edits q source tree (i + 1) ds with
      | none => none
      | some (.error msg) => some (.error msg)
      | some (.ok ms) => some (.ok (m :: ms))

/-- The test of the pairwise loop: the character spans of two matches overlap. -/
def matches_overlap (m1 m2 : MatchInfo) : Bool :=
  decide (m1.match_start < m2.match_end) && decide (m2.match_start < m1.match_end)

/-- The message of an overlap rejection in the node-edit layer. -/
def match_overlap_error (m1 m2 : MatchInfo) : String :=
  "Edit #" ++ toString m1.edit_index ++ " and #" ++ toString m2.edit_index ++
    " have overlapping match ranges"

/-- The two nested loops over `i < j`: the first pair of matches, in the order of the
loops, whose spans overlap. -/
def find_match_overlap : List MatchInfo → Option (MatchInfo × MatchInfo)
  | [] => none
  | m1 :: rest =>
    match rest.find? (fun m2 => matches_overlap m1 m2) with
    | some m2 => some (m1, m2)
    | none => find_match_overlap rest

/-- The text up to the first newline: `find("\n")` and `substr(0, first_newline)`. -/
def first_line (text : String) : String :=
  match find text "\n" 0 with
  | none => text
  | some first_newline => substr text 0 first_newline

/-- The loop collecting the leading spaces and tabs of a line, left at the first other
character. -/
def leading_whitespace_chars : List Char → List Char
  | [] => []
  | c :: cs => if c = ' ' ∨ c = '\t' then c :: leading_whitespace_chars cs else []

/-- The indentation (`base_indent`, `new_indent`) computed for a line. -/
def leading_whitespace (line : String) : String :=
  String.mk (leading_whitespace_chars line.data)

/-- The loop building `indented_result` from the lines of the new text. -/
def indent_lines (base_indent : String) : List String → String
  | [] => ""
  | [line] => if line.length = 0 then line else base_indent ++ line
  | line :: rest =>
    (if line.length = 0 then line else base_indent ++ line) ++ "\n" ++
      indent_lines base_indent rest

/-- The body of the `auto_indent` loop for one match. -/
def auto_indent_match (m : MatchInfo) : MatchInfo :=
  let base_indent := leading_whitespace (first_line m.old_text)
  let new_indent := leading_whitespace (first_line m.new_text)
  if base_indent.length ≠ 0 ∧ new_indent.length = 0 then
    { m with new_text := indent_lines base_indent (split_newline m.new_text) }
  else m

/-- The dictionary pushed to `text_edits` for one match. -/
def to_text_edit (source : String) (m : MatchInfo) : EditDict :=
  let start_byte := (utf8 (substr source 0 m.match_start)).length
  let end_byte := start_byte + (utf8 m.old_text).length
  { start_byte := some (start_byte : Int), end_byte := some (end_byte : Int),
    new_text := some m.new_text }

/-- The part of `apply_node_edits` after resolution and before the applier is called: the
overlap check, the indentation and the translation to byte edits. -/
def translate_matches (source : String) (auto_indent : Bool) (ms : List MatchInfo) :
    Except String (List EditDict) :=
  match find_match_overlap ms with
  | some (m1, m2) => .error (match_overlap_error m1 m2)
  | none =>
    let ms := if auto_indent then ms.map auto_indent_match else ms
    .ok (ms.map (to_text_edit source))

/-- The result dictionary of `apply_node_edits` with only `error` set. -/
def node_edit_failure (error : String) : EditResult :=
  { success := false, error := error, new_source := "", has_error := false, error_count := 0,
    edits_applied := 0, old_source := none }

/-- The last call of `apply_node_edits`: `apply_text_edits` on the translated batch and the
mapping of its result to the result of `apply_node_edits`. -/
def apply_and_map_result (x : Externals) (open_files : Store) (file_path : String)
    (text_edits : List EditDict) (dry_run : Bool) : EditResult × Store :=
  let text_result := apply_text_edits x open_files file_path text_edits dry_run
  if text_result.1.success = false then
    (node_edit_failure text_result.1.error, text_result.2)
  else
    ({ success := true, error := "", new_source := text_result.1.new_source,
       has_error := text_result.1.has_error, error_count := text_result.1.error_count,
       edits_applied := text_result.1.edits_applied, old_source := none },
      text_result.2)

/-- The end of `apply_node_edits`: the dry-run preview when `fail_on_parse_error` is set,
then the call of the applier. -/
def apply_translated (x : Externals) (open_files : Store) (file_path : String)
    (text_edits : List EditDict) (dry_run fail_on_parse_error : Bool) : EditResult × Store :=
  if fail_on_parse_error then
    let preview_result := apply_text_edits x open_files file_path text_edits true
    if preview_result.1.success = false then
      (node_edit_failure preview_result.1.error, preview_result.2)
    else if preview_result.1.has_error = true then
      (node_edit_failure "Edit produces parse error, rolled back", preview_result.2)
    else apply_and_map_result x preview_result.2 file_path text_edits dry_run
  else apply_and_map_result x open_files file_path text_edits dry_run

/-- `ASTManager::apply_node_edits`. The result is `none` when the node-kind check reads the
root of a null tree. -/
def apply_node_edits (x : Externals) (q : TreeQueries) (open_files : Store)
    (file_path : String) (edits : List NodeEditDict) (options : NodeEditOptions) :
    Option (EditResult × Store) :=
  match open_files file_path with
  | none => some (node_edit_failure ("File not open: " ++ file_path), open_files)
  | some state =>
    let dry_run := options.dry_run.getD false
    let auto_indent := options.auto_indent.getD true
    let fail_on_parse_error := options.fail_on_parse_error.getD false
    let source := x.from_utf8 state.source_bytes
    match resolve_edits q source state.tree 0 edits with
    | none => none
    | some (.error msg) => some (node_edit_failure msg, open_files)
    | some (.ok ms) =>
      match translate_matches source auto_indent ms with
      | .error msg => some (node_edit_failure msg, open_files)
      | .ok text_edits =>
        some (apply_translated x open_files file_path text_edits dry_run fail_on_parse_error)

/-! ## Diff and validation -/

/-- The bytes of a C string: what `get_data()` and `c_str()` hand over ends at the first
zero byte. -/
def c_str (bytes : List Nat) : List Nat :=
  bytes.takeWhile (fun b => b ≠ 0)

/-- The loop `while (std::getline(stream, line))`: `line` holds the bytes read since the last
newline. -/
def getline_loop : List Nat → List Nat → List (List Nat)
  | line, [] => if line = [] then [] else [line]
  | line, b :: rest =>
    if b = 10 then line :: getline_loop [] rest else getline_loop (line ++ [b]) rest

/-- `ASTManager::generate_diff`; `print_unified_format` stands for the hunks that the dtl
library composes and prints for two vectors of lines. -/
def generate_diff (x : Externals)
    (print_unified_format : List (List Nat) → List (List Nat) → List Nat)
    (old_text new_text file_name : String) : String :=
  if old_text = new_text then ""
  else
    let old_lines := getline_loop [] (c_str (utf8 old_text))
    let new_lines := getline_loop [] (c_str (utf8 new_text))
    let result := utf8 "--- a/" ++ c_str (utf8 file_name) ++ [10] ++
      utf8 "+++ b/" ++ c_str (utf8 file_name) ++ [10] ++
      print_unified_format old_lines new_lines
    x.from_utf8 (c_str result)

/-- One entry of the `errors` array of `validate`. -/
structure ValidateError where
  node_kind : String
  start_row : Nat
  start_col : Nat
  end_row : Nat
  end_col : Nat
  context : String
deriving DecidableEq, Repr

/-- The dictionary returned by `validate`. -/
structure ValidateResult where
  valid : Bool
  error_count : Nat
  errors : List ValidateError
deriving DecidableEq, Repr

/-- The entry the closure `collect_errors` of `validate` pushes for an error or missing
node. -/
def validate_error_of (source_code : String) (n : TSNode) : ValidateError :=
  let lines := split_newline source_code
  { node_kind := ts_node_type n
    start_row := (ts_node_start_point n).row
    start_col := (ts_node_start_point n).column
    end_row := (ts_node_end_point n).row
    end_col := (ts_node_end_point n).column
    context :=
      if h : (ts_node_start_point n).row < lines.length then
        lines.get ⟨(ts_node_start_point n).row, h⟩
      else "" }

mutual
/-- The closure `collect_errors` of `validate`, acting on the captured `errors` and
`error_count`. -/
def validate_collect_errors (source_code : String) :
    TSNode → List ValidateError × Nat → List ValidateError × Nat
  | .mk k s e sp ep is_err is_miss he cs, captured =>
    validate_collect_errors_children source_code cs
      (if is_err || is_miss then
        (captured.1 ++ [validate_error_of source_code (.mk k s e sp ep is_err is_miss he cs)],
          captured.2 + 1)
      else captured)
/-- The `for` loop of the closure over the children. -/
def validate_collect_errors_children (source_code : String) :
    List TSNode → List ValidateError × Nat → List ValidateError × Nat
  | [], captured => captured
  | c :: cs, captured =>
    validate_collect_errors_children source_code cs
      (validate_collect_errors source_code c captured)
end

/-- `ASTManager::validate`. -/
def validate (x : Externals) (source_code : String) : ValidateResult :=
  match x.parse (utf8 source_code) with
  | none => { valid := false, error_count := 0, errors := [] }
  | some root =>
    let has_error := ts_node_has_error root
    let collected :=
      if has_error then validate_collect_errors source_code root ([], 0) else ([], 0)
    { valid := !has_error, error_count := collected.2, errors := collected.1 }

/-! ## Trees and occurrences, after the specification -/

mutual
/-- All nodes of a tree in document order: the node, then the nodes of its children from the
first child to the last. -/
def tree_nodes : TSNode → List TSNode
  | .mk k s e sp ep is_err is_miss he cs =>
    .mk k s e sp ep is_err is_miss he cs :: tree_nodes_children cs
/-- The nodes of a list of sibling trees in document order. -/
def tree_nodes_children : List TSNode → List TSNode
  | [] => []
  | c :: cs => tree_nodes c ++ tree_nodes_children cs
end

/-- The positions, in ascending order, at which `what` starts in `text`, the text from
position `i` on. -/
def occurrence_positions_from (what : List Char) : List Char → Nat → List Nat
  | [], _ => []
  | c :: cs, i =>
    (if starts_with (c :: cs) what then [i] else []) ++
      occurrence_positions_from what cs (i + 1)

/-- The positions at which a non-empty `what` occurs in `s`, overlapping occurrences
included; the empty text occurs nowhere, as for `find`. -/
def occurrence_positions (s what : String) : List Nat :=
  if what.length = 0 then [] else occurrence_positions_from what.data s.data 0

/-- The text made of the given lines: a newline between each line and the next. -/
def join_newline : List String → String
  | [] => ""
  | [line] => line
  | line :: rest => line ++ "\n" ++ join_newline rest

/-- The new text with the indentation put before each of its non-empty lines. -/
def indent_every_line (w new_text : String) : String :=
  join_newline ((split_newline new_text).map (fun line => if line = "" then line
    else w ++ line))

/-- The new text with the indentation put before each non-empty line after the first. -/
def indent_after_first_line (w new_text : String) : String :=
  match split_newline new_text with
  | [] => ""
  | line :: rest => join_newline (line :: rest.map (fun l => if l = "" then l else w ++ l))

/-- The node-kind check of an edit whose text is matched at character position `p` passes:
no kind is asked for, or the session has a tree and a node of the kind is on the chain from
the covering node to the root. -/
def kind_check_passes (q : TreeQueries) (source : String) (tree : Option TSNode)
    (old_text node_kind : String) (p : Nat) : Prop :=
  node_kind.length = 0 ∨
    ∃ root, tree = some root ∧
      kind_found node_kind
        (q.descendant_for_byte_range root (utf8 (substr source 0 p)).length
          ((utf8 (substr source 0 p)).length + (utf8 old_text).length - 1)) = true

/-- The edit `d` at index `i` resolves to the match `m`: `old_text` and `new_text` are
present, `old_text` occurs in the source exactly once, at `m.match_start`, and the node-kind
check passes. -/
def resolves_to (q : TreeQueries) (source : String) (tree : Option TSNode) (i : Nat)
    (d : NodeEditDict) (m : MatchInfo) : Prop :=
  d.old_text = some m.old_text ∧ d.new_text = some m.new_text ∧
    d.node_kind.getD "" = m.node_kind ∧ m.edit_index = i ∧
    occurrence_positions source m.old_text = [m.match_start] ∧
    m.match_end = m.match_start + m.old_text.length ∧
    kind_check_passes q source tree m.old_text m.node_kind m.match_start

/-- Each edit of a batch, the first of which has index `i`, resolves to the match at the
same place of `ms`. -/
def batch_resolves_to (q : TreeQueries) (source : String) (tree : Option TSNode) :
    Nat → List NodeEditDict → List MatchInfo → Prop
  | _, [], [] => True
  | i, d :: ds, m :: ms =>
    resolves_to q source tree i d m ∧ batch_resolves_to q source tree (i + 1) ds ms
  | _, _, _ => False

instance (q : TreeQueries) (source : String) (tree : Option TSNode)
    (old_text node_kind : String) (p : Nat) :
    Decidable (kind_check_passes q source tree old_text node_kind p) :=
  match tree with
  | none => decidable_of_iff (node_kind.length = 0) (by simp [kind_check_passes])
  | some root =>
    decidable_of_iff (node_kind.length = 0 ∨
      kind_found node_kind
        (q.descendant_for_byte_range root (utf8 (substr source 0 p)).length
          ((utf8 (substr source 0 p)).length + (utf8 old_text).length - 1)) = true)
      (by simp [kind_check_passes])

instance (q : TreeQueries) (source : String) (tree : Option TSNode) (i : Nat)
    (d : NodeEditDict) (m : MatchInfo) : Decidable (resolves_to q source tree i d m) := by
  unfold resolves_to; infer_instance

/-- Whether a batch resolves to given matches can be computed. -/
instance decidable_batch_resolves_to (q : TreeQueries) (source : String)
    (tree : Option TSNode) :
    (i : Nat) → (edits : List NodeEditDict) → (ms : List MatchInfo) →
      Decidable (batch_resolves_to q source tree i edits ms)
  | _, [], [] => isTrue trivial
  | _, [], _ :: _ => isFalse (fun h => h)
  | _, _ :: _, [] => isFalse (fun h => h)
  | i, d :: ds, m :: ms =>
    haveI := decidable_batch_resolves_to q source tree (i + 1) ds ms
    inferInstanceAs (Decidable (resolves_to q source tree i d m ∧
      batch_resolves_to q source tree (i + 1) ds ms))

/-! ## Further instances used in the examples -/

/-- A decoder for well-formed UTF-8 of one to four bytes per character. -/
def utf8_decode_chars : List Nat → List Char
  | [] => []
  | b0 :: rest =>
    if b0 < 0x80 then Char.ofNat b0 :: utf8_decode_chars rest
    else
      match rest with
      | [] => []
      | b1 :: rest1 =>
        if b0 < 0xe0 then Char.ofNat (b0 % 32 * 64 + b1 % 64) :: utf8_decode_chars rest1
        else
          match rest1 with
          | [] => []
          | b2 :: rest2 =>
            if b0 < 0xf0 then
              Char.ofNat (b0 % 16 * 4096 + b1 % 64 * 64 + b2 % 64) :: utf8_decode_chars rest2
            else
              match rest2 with
              | [] => []
              | b3 :: rest3 =>
                Char.ofNat (b0 % 8 * 262144 + b1 % 64 * 4096 + b2 % 64 * 64 + b3 % 64) ::
                  utf8_decode_chars rest3

/-- Collaborators with a decoder that also reads multi-byte characters. -/
def sample_utf8 : Externals :=
  { parse := sample_parse, from_utf8 := fun bytes => String.mk (utf8_decode_chars bytes),
    sort_custom := sample_sort }

/-- Node queries that answer every request with the root. -/
def sample_queries : TreeQueries :=
  { descendant_for_byte_range := fun root _ _ => { node := root, ancestors := [] } }

/-- The default options: every key absent. -/
def default_options : NodeEditOptions :=
  { dry_run := none, auto_indent := none, fail_on_parse_error := none }

/-! ## The query engine -/

/-- The values of `TSQueryError` told apart by `query`; `Other` is the `default` branch. -/
inductive TSQueryError where
  | Syntax
  | NodeType
  | Field
  | Capture
  | Structure
  | Language
  | Other
deriving DecidableEq, Repr

/-- One `TSQueryCapture` of a match, with the bytes of its capture name. -/
structure TSQueryCapture where
  name : List Nat
  node : TSNode

/-- One `TSQueryMatch` yielded by `ts_query_cursor_next_match`. -/
structure TSQueryMatch where
  pattern_index : Nat
  captures : List TSQueryCapture

/-- What the query calls of tree-sitter yield for a pattern and a root node. -/
inductive QueryOutcome where
  /-- `ts_query_new` returns null, with `error_offset` and `error_type`. -/
  | compile_error (error_offset : Nat) (error_type : TSQueryError)
  /-- `ts_query_cursor_new` returns null. -/
  | no_cursor
  /-- The matches in the order in which `ts_query_cursor_next_match` yields them. -/
  | found (query_matches : List TSQueryMatch)

/-- One entry of `captures` in the result of `query`. -/
structure CaptureDict where
  name : String
  node_kind : String
  text : String
  start_byte : Nat
  end_byte : Nat
  start_row : Nat
  start_col : Nat
  end_row : Nat
  end_col : Nat
deriving DecidableEq, Repr

/-- One entry of `matches` in the result of `query`. -/
structure MatchDict where
  pattern_index : Nat
  captures : List CaptureDict
deriving DecidableEq, Repr

/-- The dictionary returned by `query`. -/
structure QueryResult where
  success : Bool
  error : String
  query_matches : List MatchDict
deriving DecidableEq, Repr

/-- The bytes that `String::utf8(ptr + start, len)` is given to read from the buffer; `none`
when the `len` bytes from offset `start` on do not all lie inside the buffer. -/
def read_buffer (buffer : List Nat) (start len : Nat) : Option (List Nat) :=
  if start + len ≤ buffer.length then some ((buffer.drop start).take len) else none

/-- The text of a capture as computed in `query` from the `uint32_t` offsets of the node;
`text_len` is the difference of the two offsets in 32-bit unsigned arithmetic. The result is
`none` when the read leaves the buffer. -/
def capture_text (x : Externals) (source_bytes : List Nat) (start_byte end_byte : Nat) :
    Option String :=
  if start_byte < source_bytes.length ∧ end_byte ≤ source_bytes.length then
    let text_len := (end_byte + 2 ^ 32 - start_byte) % 2 ^ 32
    (read_buffer source_bytes start_byte text_len).map x.from_utf8
  else some ""

/-- The dictionary built in `query` for one capture. -/
def capture_dict (x : Externals) (source_bytes : List Nat) (capture : TSQueryCapture) :
    Option CaptureDict :=
  (capture_text x source_bytes (ts_node_start_byte capture.node)
      (ts_node_end_byte capture.node)).map
    (fun text =>
      { name := x.from_utf8 capture.name
        node_kind := ts_node_type capture.node
        text := text
        start_byte := ts_node_start_byte capture.node
        end_byte := ts_node_end_byte capture.node
        start_row := (ts_node_start_point capture.node).row
        start_col := (ts_node_start_point capture.node).column
        end_row := (ts_node_end_point capture.node).row
        end_col := (ts_node_end_point capture.node).column })

/-- The dictionary built in `query` for one match. -/
def match_dict (x : Externals) (source_bytes : List Nat) (query_match : TSQueryMatch) :
    Option MatchDict :=
  (query_match.captures.mapM (capture_dict x source_bytes)).map
    (fun captures => { pattern_index := query_match.pattern_index, captures := captures })

/-- The text appended to the error of `query` for an error type. -/
def query_error_text : TSQueryError → String
  | .Syntax => "Invalid syntax"
  | .NodeType => "Invalid node type"
  | .Field => "Invalid field name"
  | .Capture => "Invalid capture name"
  | .Structure => "Impossible pattern structure"
  | .Language => "Language mismatch"
  | .Other => "Unknown error"

/-- `ASTManager::query`; `run_query` stands for the calls of tree-sitter on the bytes of the
pattern and the root. The result is `none` when the text of a capture is read from outside
the buffer. -/
def query (x : Externals) (run_query : List Nat → TSNode → QueryOutcome) (open_files : Store)
    (file_path query_string : String) : Option QueryResult :=
  match open_files file_path with
  | none =>
    some { success := false, error := "File not open: " ++ file_path, query_matches := [] }
  | some state =>
    match state.tree with
    | none =>
      some { success := false, error := "No tree available for file: " ++ file_path,
             query_matches := [] }
    | some root =>
      match run_query (utf8 query_string) root with
      | .compile_error error_offset error_type =>
        some { success := false,
               error := "Query error at offset " ++ toString error_offset ++ ": " ++
                 query_error_text error_type,
               query_matches := [] }
      | .no_cursor =>
        some { success := false, error := "Failed to create query cursor",
               query_matches := [] }
      | .found query_matches =>
        (query_matches.mapM (match_dict x state.source_bytes)).map
          (fun dicts => { success := true, error := "", query_matches := dicts })

/-! ## The descendant query of tree-sitter -/

mutual
/-- The loop of tree-sitter's `ts_node_descendant_for_byte_range` on a tree all of whose nodes
are visible: from `node`, with its `ancestors`, descend as long as a child takes the range. -/
def descend_for_byte_range (range_start range_end : Nat) :
    TSNode → List TSNode → NodePath
  | .mk k s e sp ep is_err is_miss he cs, ancestors =>
    descend_children range_start range_end (.mk k s e sp ep is_err is_miss he cs) ancestors cs
/-- The inner loop over the children of `node`: a child that ends before the end of the range
or not after its start is passed over; the first other child is descended into if it starts
at or before the start of the range, and ends the search if it does not. -/
def descend_children (range_start range_end : Nat) (node : TSNode) (ancestors : List TSNode) :
    List TSNode → NodePath
  | [] => { node := node, ancestors := ancestors }
  | child :: rest =>
    if ts_node_end_byte child < range_end then
      descend_children range_start range_end node ancestors rest
    else if ts_node_end_byte child ≤ range_start then
      descend_children range_start range_end node ancestors rest
    else if range_start < ts_node_start_byte child then
      { node := node, ancestors := ancestors }
    else descend_for_byte_range range_start range_end child (node :: ancestors)
end

/-- The node queries as tree-sitter answers them. -/
def tree_sitter_queries : TreeQueries :=
  { descendant_for_byte_range := fun root range_start range_end =>
      descend_for_byte_range range_start range_end root [] }

/-- A leaf node on row 0. -/
def leaf (type : String) (start_byte end_byte : Nat) : TSNode :=
  .mk type start_byte end_byte ⟨0, start_byte⟩ ⟨0, end_byte⟩ false false false []

/-- An inner node on row 0. -/
def inner (type : String) (start_byte end_byte : Nat) (children : List TSNode) : TSNode :=
  .mk type start_byte end_byte ⟨0, start_byte⟩ ⟨0, end_byte⟩ false false false children

/-- The tree of the GDScript text `a+b`. -/
def tree_a_plus_b : TSNode :=
  inner "source" 0 3
    [inner "expression_statement" 0 3
      [inner "binary_operator" 0 3
        [leaf "identifier" 0 1, leaf "+" 1 2, leaf "identifier" 2 3]]]

/-- Collaborators whose parser yields `tree_a_plus_b` for the text `a+b`. -/
def sample_gd : Externals :=
  { parse := fun bytes => if bytes = utf8 "a+b" then some tree_a_plus_b else sample_parse bytes
    from_utf8 := ascii_from_utf8
    sort_custom := sample_sort }

/-! ## Translated batches as byte-range edits -/

/-- The byte-range edit of a match: the start is the UTF-8 length of the text before the
match, the end lies the UTF-8 length of the old text further. -/
def to_edit_info (source : String) (m : MatchInfo) : EditInfo :=
  { start_byte := ((utf8 (substr source 0 m.match_start)).length : Int)
    end_byte := (((utf8 (substr source 0 m.match_start)).length + (utf8 m.old_text).length
      : Nat) : Int)
    new_text := m.new_text }

/-- Two byte ranges do not overlap: one ends where or before the other starts. -/
def EditInfo.disjoint (a b : EditInfo) : Prop :=
  a.end_byte ≤ b.start_byte ∨ b.end_byte ≤ a.start_byte

instance (a b : EditInfo) : Decidable (a.disjoint b) := by
  unfold EditInfo.disjoint; infer_instance

/-- The batch of byte-range edits that `apply_node_edits` hands to the applier for resolved
matches. -/
def translated_batch (source : String) (auto_indent : Bool) (ms : List MatchInfo) :
    List EditInfo :=
  (if auto_indent then ms.map auto_indent_match else ms).map (to_edit_info source)

/-- The matched span of a resolved edit: `old_text` is not empty, is read in the source from
`match_start` on, and `match_end` lies its length further. -/
def MatchInfo.matched (source : String) (m : MatchInfo) : Prop :=
  m.old_text.data ≠ [] ∧
    (source.data.take (m.match_start + m.old_text.length)).drop m.match_start
      = m.old_text.data ∧
    m.match_end = m.match_start + m.old_text.length

instance (source : String) (m : MatchInfo) : Decidable (m.matched source) := by
  unfold MatchInfo.matched; infer_instance

/-! ## Sorting as Godot does for short arrays -/

/-- `SortArray::linear_insert` on the sorted part of the array, given from its last element
to its first: the value moves towards the front past every element that the comparator puts
after it, and stops behind the first element that it does not. -/
def linear_insert (val : EditInfo) : List EditInfo → List EditInfo
  | [] => [val]
  | last :: before =>
    if val.start_byte < last.start_byte then last :: linear_insert val before
    else val :: last :: before

/-- `SortArray::insertion_sort`, which is all that `sort_custom` runs on an array of at most
sixteen elements: the elements are inserted one after the other, from the first to the last. -/
def insertion_sort (l : List EditInfo) : List EditInfo :=
  (l.foldl (fun sorted_part val => linear_insert val sorted_part) []).reverse

/-- The sample collaborators with the insertion sort. -/
def sample_insertion : Externals :=
  { parse := sample_parse, from_utf8 := ascii_from_utf8, sort_custom := insertion_sort }

/-- An answer of the query engine with one capture named `x`, on a node of the given span. -/
def one_capture (start_byte end_byte : Nat) : List Nat → TSNode → QueryOutcome :=
  fun _ _ => .found [{ pattern_index := 0,
                       captures := [{ name := utf8 "x",
                                      node := leaf "identifier" start_byte end_byte }] }]

/-! ## Auxiliary facts -/

theorem sample_sort_sortsByStart : SortsByStart sample_sort := by
  haveI : IsTotal EditInfo (fun a b => a.start_byte ≤ b.start_byte) :=
    ⟨fun a b => le_total a.start_byte b.start_byte⟩
  haveI : IsTrans EditInfo (fun a b => a.start_byte ≤ b.start_byte) :=
    ⟨fun _ _ _ h1 h2 => le_trans h1 h2⟩
  exact ⟨fun l => List.perm_insertionSort _ l, fun l => List.sorted_insertionSort _ l⟩

theorem to_int32_of_fits (v : Int) (hlow : -2147483648 ≤ v) (hhigh : v < 2147483648) :
    to_int32 v = v := by
  unfold to_int32
  omega

theorem validate_edit_toDict_of_in_range (n i : Nat) (e : EditInfo) (h : e.in_range n) :
    validate_edit n i e.toDict = .ok e := by
  obtain ⟨h0, h1, h2, hfit⟩ := h
  have h3 : 0 ≤ e.end_byte := le_trans h0 h1
  have hs : to_int32 e.start_byte = e.start_byte := to_int32_of_fits _ (by omega) (by omega)
  have he : to_int32 e.end_byte = e.end_byte := to_int32_of_fits _ (by omega) (by omega)
  simp [validate_edit, EditInfo.toDict, hs, he, not_lt.mpr h0, not_lt.mpr h3, not_lt.mpr h1,
    not_lt.mpr h2]

theorem validate_edits_map_toDict (n : Nat) (es : List EditInfo)
    (h : ∀ e ∈ es, e.in_range n) (i : Nat) :
    validate_edits n i (es.map EditInfo.toDict) = .ok es := by
  induction es generalizing i with
  | nil => rfl
  | cons e es ih =>
    have he := validate_edit_toDict_of_in_range n i e (h e (List.mem_cons_self _ _))
    have hes := ih (fun e' he' => h e' (List.mem_cons_of_mem _ he')) (i + 1)
    simp [validate_edits, he, hes]

theorem find_overlap_eq_none_iff (l : List EditInfo) :
    find_overlap l = none ↔ l.Chain' (fun a b => a.end_byte ≤ b.start_byte) := by
  induction l with
  | nil => simp [find_overlap]
  | cons a l ih =>
    cases l with
    | nil => simp [find_overlap]
    | cons b l =>
      by_cases hab : a.end_byte > b.start_byte
      · simp [find_overlap, edits_overlap, hab, List.chain'_cons]
      · simp only [find_overlap, edits_overlap, hab, decide_False, Bool.false_eq_true,
          if_false, ih, List.chain'_cons]
        constructor
        · intro h; exact ⟨not_lt.mp hab, h⟩
        · intro h; exact h.2

theorem find_overlap_eq_some (l : List EditInfo) (e1 e2 : EditInfo)
    (h : find_overlap l = some (e1, e2)) :
    e1 ∈ l ∧ e2 ∈ l ∧ e2.start_byte < e1.end_byte := by
  induction l with
  | nil => simp [find_overlap] at h
  | cons a l ih =>
    cases l with
    | nil => simp [find_overlap] at h
    | cons b l =>
      by_cases hab : a.end_byte > b.start_byte
      · simp [find_overlap, edits_overlap, hab] at h
        obtain ⟨rfl, rfl⟩ := h
        exact ⟨by simp, by simp, hab⟩
      · simp only [find_overlap, edits_overlap, hab, decide_False, Bool.false_eq_true,
          if_false] at h
        obtain ⟨h1, h2, h3⟩ := ih h
        exact ⟨List.mem_cons_of_mem _ h1, List.mem_cons_of_mem _ h2, h3⟩

theorem pairwise_disjoint_of_chain (l : List EditInfo)
    (hr : ∀ e ∈ l, e.start_byte ≤ e.end_byte)
    (hc : l.Chain' (fun a b => a.end_byte ≤ b.start_byte)) :
    l.Pairwise (fun a b => a.end_byte ≤ b.start_byte) := by
  induction l with
  | nil => exact List.Pairwise.nil
  | cons a l ih =>
    have hl : l.Pairwise (fun a b => a.end_byte ≤ b.start_byte) :=
      ih (fun e he => hr e (List.mem_cons_of_mem _ he)) hc.tail
    refine List.Pairwise.cons ?_ hl
    cases l with
    | nil => intro b hb; simp at hb
    | cons c l =>
      have hac : a.end_byte ≤ c.start_byte := (List.chain'_cons.mp hc).1
      have hcc : c.start_byte ≤ c.end_byte := hr c (by simp)
      intro b hb
      rcases List.mem_cons.mp hb with rfl | hb
      · exact hac
      · have hcb : c.end_byte ≤ b.start_byte := (List.pairwise_cons.mp hl).1 b hb
        omega

theorem pairwise_mem_cases {α : Type} {R : α → α → Prop} {l : List α} (h : l.Pairwise R)
    {a b : α} (ha : a ∈ l) (hb : b ∈ l) : a = b ∨ R a b ∨ R b a := by
  by_cases hab : a = b
  · exact Or.inl hab
  · right
    have hs : l.Pairwise (fun u v => R u v ∨ R v u) := h.imp (fun huv => Or.inl huv)
    exact hs.forall (fun u v huv => huv.symm) ha hb hab

theorem apply_edits_to_bytes_eq_replay_from (original : List Nat) (l : List EditInfo)
    (hr : ∀ e ∈ l, e.in_range original.length)
    (hc : l.Chain' (fun a b => a.end_byte ≤ b.start_byte))
    (pos : Nat) (hpos : pos ≤ original.length)
    (hhead : ∀ e ∈ l.head?, pos ≤ e.start_byte.toNat) :
    apply_edits_to_bytes original l = original.take pos ++ replay_from original pos l := by
  induction l generalizing pos with
  | nil => simp [apply_edits_to_bytes, replay_from]
  | cons e rest ih =>
    obtain ⟨h0, h1, h2⟩ := hr e (List.mem_cons_self _ _)
    have hs : pos ≤ e.start_byte.toNat := hhead e (by simp)
    have hse : e.start_byte.toNat ≤ e.end_byte.toNat := by omega
    have hel : e.end_byte.toNat ≤ original.length := by omega
    have hrest : apply_edits_to_bytes original rest =
        original.take e.end_byte.toNat ++ replay_from original e.end_byte.toNat rest := by
      apply ih (fun e' he' => hr e' (List.mem_cons_of_mem _ he')) hc.tail _ hel
      intro b hb
      have hb' : b ∈ rest := List.mem_of_mem_head? hb
      have hbr := hr b (List.mem_cons_of_mem _ hb')
      have heb : e.end_byte ≤ b.start_byte := by
        cases rest with
        | nil => simp at hb'
        | cons c rest =>
          simp only [List.head?_cons, Option.mem_def, Option.some.injEq] at hb
          subst hb
          exact (List.chain'_cons.mp hc).1
      omega
    have hlen : (original.take e.end_byte.toNat).length = e.end_byte.toNat := by
      simp [List.length_take, hel]
    have hfold : apply_edits_to_bytes original (e :: rest) =
        apply_single_edit_to_bytes (apply_edits_to_bytes original rest)
          e.start_byte e.end_byte e.new_text := rfl
    rw [hfold, hrest, apply_single_edit_to_bytes]
    have htake : (original.take e.end_byte.toNat ++
          replay_from original e.end_byte.toNat rest).take e.start_byte.toNat
        = original.take e.start_byte.toNat := by
      rw [List.take_append_of_le_length (by rw [hlen]; exact hse), List.take_take,
        min_eq_left hse]
    have hdrop : (original.take e.end_byte.toNat ++
          replay_from original e.end_byte.toNat rest).drop e.end_byte.toNat
        = replay_from original e.end_byte.toNat rest := List.drop_left' hlen
    have hsplit : original.take e.start_byte.toNat =
        original.take pos ++ (original.drop pos).take (e.start_byte.toNat - pos) := by
      have := List.take_add original pos (e.start_byte.toNat - pos)
      rwa [Nat.add_sub_cancel' hs] at this
    rw [htake, hdrop, hsplit]
    simp [replay_from, List.append_assoc]

theorem apply_edits_to_bytes_eq_replay (original : List Nat) (l : List EditInfo)
    (hr : ∀ e ∈ l, e.in_range original.length)
    (hc : l.Chain' (fun a b => a.end_byte ≤ b.start_byte)) :
    apply_edits_to_bytes original l = replay original l := by
  have h := apply_edits_to_bytes_eq_replay_from original l hr hc 0 (Nat.zero_le _)
    (fun _ _ => Nat.zero_le _)
  simpa [replay] using h

/-! ## The result of `apply_text_edits` along each path -/

theorem apply_text_edits_of_invalid (x : Externals) (open_files : Store) (file_path : String)
    (state : FileState) (edits : List EditDict) (dry_run : Bool) (msg : String)
    (hopen : open_files file_path = some state)
    (hval : validate_edits state.source_bytes.length 0 edits = .error msg) :
    apply_text_edits x open_files file_path edits dry_run =
      ({ success := false, error := msg, new_source := "", has_error := false,
         error_count := 0, edits_applied := 0,
         old_source := if dry_run then some (x.from_utf8 state.source_bytes) else none },
        open_files) := by
  cases dry_run <;> simp [apply_text_edits, hopen, hval]

theorem apply_text_edits_of_overlap (x : Externals) (open_files : Store) (file_path : String)
    (state : FileState) (edits : List EditDict) (dry_run : Bool) (v : List EditInfo)
    (e1 e2 : EditInfo)
    (hopen : open_files file_path = some state)
    (hval : validate_edits state.source_bytes.length 0 edits = .ok v)
    (hov : find_overlap (x.sort_custom v) = some (e1, e2)) :
    apply_text_edits x open_files file_path edits dry_run =
      ({ success := false, error := overlap_error e1 e2, new_source := "", has_error := false,
         error_count := 0, edits_applied := 0,
         old_source := if dry_run then some (x.from_utf8 state.source_bytes) else none },
        open_files) := by
  cases dry_run <;> simp [apply_text_edits, hopen, hval, hov]

theorem apply_text_edits_of_parse_failure (x : Externals) (open_files : Store)
    (file_path : String) (state : FileState) (edits : List EditDict) (dry_run : Bool)
    (v : List EditInfo)
    (hopen : open_files file_path = some state)
    (hval : validate_edits state.source_bytes.length 0 edits = .ok v)
    (hov : find_overlap (x.sort_custom v) = none)
    (hparse : x.parse (apply_edits_to_bytes state.source_bytes (x.sort_custom v)) = none) :
    apply_text_edits x open_files file_path edits dry_run =
      ({ success := false, error := "Failed to parse after edits",
         new_source := x.from_utf8 (apply_edits_to_bytes state.source_bytes (x.sort_custom v)),
         has_error := false, error_count := 0, edits_applied := 0,
         old_source := if dry_run then some (x.from_utf8 state.source_bytes) else none },
        open_files) := by
  cases dry_run <;> simp [apply_text_edits, hopen, hval, hov, hparse]

theorem apply_text_edits_of_parsed (x : Externals) (open_files : Store)
    (file_path : String) (state : FileState) (edits : List EditDict) (dry_run : Bool)
    (v : List EditInfo) (root : TSNode)
    (hopen : open_files file_path = some state)
    (hval : validate_edits state.source_bytes.length 0 edits = .ok v)
    (hov : find_overlap (x.sort_custom v) = none)
    (hparse : x.parse (apply_edits_to_bytes state.source_bytes (x.sort_custom v)) = some root) :
    apply_text_edits x open_files file_path edits dry_run =
      ({ success := true, error := "",
         new_source := x.from_utf8 (apply_edits_to_bytes state.source_bytes (x.sort_custom v)),
         has_error := ts_node_has_error root,
         error_count := (if ts_node_has_error root then collect_error_nodes root else []).length,
         edits_applied := edits.length,
         old_source := if dry_run then some (x.from_utf8 state.source_bytes) else none },
        if dry_run then open_files
        else open_files.insert file_path
          { source_bytes := apply_edits_to_bytes state.source_bytes (x.sort_custom v),
            tree := some root }) := by
  cases dry_run <;> simp [apply_text_edits, hopen, hval, hov, hparse]

theorem sample_store_open : sample_store "a.gd" = some sample_state := rfl

/-! ## The session invariant along the operations -/

theorem open_file_of_parse_failure (x : Externals) (open_files : Store)
    (file_path content : String) (hp : x.parse (utf8 content) = none) :
    open_file x open_files file_path content =
      (.failure "Failed to create parse tree" (some file_path), open_files) := by
  simp [open_file, hp]

theorem open_file_of_parsed (x : Externals) (open_files : Store)
    (file_path content : String) (tree : TSNode) (hp : x.parse (utf8 content) = some tree) :
    open_file x open_files file_path content =
      (make_parse_result_dict file_path (some tree),
        open_files.insert file_path { source_bytes := utf8 content, tree := some tree }) := by
  simp [open_file, hp]

theorem make_parse_result_dict_success (file_path : String) (tree : TSNode) :
    (make_parse_result_dict file_path (some tree)).success = true := rfl

theorem open_file_keeps_invariant (x : Externals) (open_files : Store)
    (file_path content : String) (h : tree_matches_buffer x open_files) :
    tree_matches_buffer x (open_file x open_files file_path content).2 := by
  cases hp : x.parse (utf8 content) with
  | none => rw [open_file_of_parse_failure x _ _ _ hp]; exact h
  | some tree =>
    rw [open_file_of_parsed x _ _ _ _ hp]
    intro k st hk
    by_cases hkey : k = file_path
    · simp [Store.insert, hkey] at hk
      subst hk
      simp [hp]
    · simp [Store.insert, hkey] at hk
      exact h k st hk

theorem close_file_keeps_invariant (x : Externals) (open_files : Store) (file_path : String)
    (h : tree_matches_buffer x open_files) :
    tree_matches_buffer x (close_file open_files file_path).2 := by
  cases hs : open_files file_path with
  | none => simpa [close_file, hs] using h
  | some state =>
    simp only [close_file, hs]
    intro k st hk
    by_cases hkey : k = file_path
    · simp [Store.erase, hkey] at hk
    · simp [Store.erase, hkey] at hk
      exact h k st hk

theorem apply_text_edits_keeps_invariant (x : Externals) (open_files : Store)
    (file_path : String) (edits : List EditDict) (dry_run : Bool)
    (h : tree_matches_buffer x open_files) :
    tree_matches_buffer x (apply_text_edits x open_files file_path edits dry_run).2 := by
  cases hs : open_files file_path with
  | none => simpa [apply_text_edits, hs] using h
  | some state =>
    cases hv : validate_edits state.source_bytes.length 0 edits with
    | error msg => rw [apply_text_edits_of_invalid x _ _ _ _ _ _ hs hv]; exact h
    | ok v =>
      cases ho : find_overlap (x.sort_custom v) with
      | some pr =>
        obtain ⟨e1, e2⟩ := pr
        rw [apply_text_edits_of_overlap x _ _ _ _ _ _ _ _ hs hv ho]; exact h
      | none =>
        cases hp : x.parse (apply_edits_to_bytes state.source_bytes (x.sort_custom v)) with
        | none => rw [apply_text_edits_of_parse_failure x _ _ _ _ _ _ hs hv ho hp]; exact h
        | some root =>
          rw [apply_text_edits_of_parsed x _ _ _ _ _ _ _ hs hv ho hp]
          cases dry_run with
          | true => simpa using h
          | false =>
            intro k st hk
            by_cases hkey : k = file_path
            · simp [Store.insert, hkey] at hk
              subst hk
              simp [hp]
            · simp [Store.insert, hkey] at hk
              exact h k st hk

/-! ## Sorting a batch with distinct starts, and error texts -/

theorem sort_custom_eq_of_strictly_sorted (sort : List EditInfo → List EditInfo)
    (hsort : SortsByStart sort) (es l : List EditInfo) (hperm : l.Perm es)
    (hstrict : l.Pairwise (fun a b => a.start_byte < b.start_byte)) :
    sort es = l := by
  have hp : (sort es).Perm l := (hsort.perm es).trans hperm.symm
  have hne : (sort es).Pairwise (fun a b => a.start_byte ≠ b.start_byte) :=
    (hp.pairwise_iff (fun {u v} (h : u.start_byte ≠ v.start_byte) => h.symm)).mpr
      (hstrict.imp (fun h => ne_of_lt h))
  have hlt : (sort es).Pairwise (fun a b => a.start_byte < b.start_byte) :=
    ((hsort.sorted es).and hne).imp (fun h => lt_of_le_of_ne h.1 h.2)
  haveI : IsAntisymm EditInfo (fun a b => a.start_byte < b.start_byte) :=
    ⟨fun _ _ h1 h2 => absurd h1 (not_lt.mpr (le_of_lt h2))⟩
  exact List.eq_of_perm_of_sorted hp hlt hstrict

theorem overlap_error_data (e1 e2 : EditInfo) :
    ∃ t, (overlap_error e1 e2).data = 'E' :: t := by
  refine ⟨"dits overlap: edit at byte ".data ++ (toString e1.start_byte).data ++
    " and edit at byte ".data ++ (toString e2.start_byte).data, ?_⟩
  simp only [overlap_error, String.data_append]
  rfl

theorem empty_ne_overlap_error (e1 e2 : EditInfo) : "" ≠ overlap_error e1 e2 := by
  intro h
  obtain ⟨t, ht⟩ := overlap_error_data e1 e2
  rw [← h] at ht
  exact List.noConfusion ht

theorem parse_failure_ne_overlap_error (e1 e2 : EditInfo) :
    "Failed to parse after edits" ≠ overlap_error e1 e2 := by
  intro h
  obtain ⟨t, ht⟩ := overlap_error_data e1 e2
  rw [← h] at ht
  have h0 : ("Failed to parse after edits".data).head? = some 'E' := by rw [ht]; rfl
  exact absurd h0 (by decide)

/-- The message of the first range check that the edit at index `i` fails. -/
theorem validate_edit_toDict_of_not_in_range (n i : Nat) (e : EditInfo)
    (hfit : e.fits_int)
    (h : e.start_byte < 0 ∨ e.end_byte < 0 ∨ e.start_byte > e.end_byte ∨
      e.end_byte > (n : Int)) :
    validate_edit n i e.toDict = .error ("Edit " ++ toString i ++
      (if e.start_byte < 0 then " has negative start_byte"
        else if e.end_byte < 0 then " has negative end_byte"
        else if e.start_byte > e.end_byte then " has start_byte > end_byte"
        else " end_byte exceeds source length")) := by
  have hs : to_int32 e.start_byte = e.start_byte := to_int32_of_fits _ hfit.1 hfit.2.1
  have he : to_int32 e.end_byte = e.end_byte := to_int32_of_fits _ hfit.2.2.1 hfit.2.2.2
  simp only [validate_edit, EditInfo.toDict, hs, he]
  by_cases h1 : e.start_byte < 0
  · simp [h1]
  · by_cases h2 : e.end_byte < 0
    · simp [h1, h2]
    · by_cases h3 : e.start_byte > e.end_byte
      · simp [h1, h2, h3]
      · have h4 : e.end_byte > (n : Int) := by
          rcases h with h | h | h | h
          · exact absurd h h1
          · exact absurd h h2
          · exact absurd h h3
          · exact h
        simp [h1, h2, h3, h4]

theorem update_file_of_parse_failure (x : Externals) (open_files : Store)
    (file_path new_content : String) (state : FileState)
    (hopen : open_files file_path = some state)
    (hp : x.parse (utf8 new_content) = none) :
    update_file x open_files file_path new_content =
      (.failure "Failed to parse updated content" (some file_path),
        open_files.insert file_path { source_bytes := state.source_bytes, tree := none }) := by
  simp [update_file, hopen, hp]

theorem update_file_of_parsed (x : Externals) (open_files : Store)
    (file_path new_content : String) (state : FileState) (tree : TSNode)
    (hopen : open_files file_path = some state)
    (hp : x.parse (utf8 new_content) = some tree) :
    update_file x open_files file_path new_content =
      (make_parse_result_dict file_path (some tree),
        open_files.insert file_path
          { source_bytes := utf8 new_content, tree := some tree }) := by
  simp [update_file, hopen, hp]

theorem store_insert_same (m : Store) (key : String) (value : FileState) :
    m.insert key value key = some value := by
  simp [Store.insert]

theorem store_insert_other (m : Store) (key other : String) (value : FileState)
    (h : other ≠ key) : m.insert key value other = m other := by
  simp [Store.insert, h]

/-! ## Claims -/

/-- C1: the session invariant "every stored tree is the parse of its buffer" holds after
`open_file("a.gd", "x")` but no longer after a following `update_file("a.gd", "~")` for which
the parser returns no tree: the buffer is still `"x"` while the tree has been cleared. -/
theorem session_invariant_lost_by_failed_update :
    tree_matches_buffer sample (open_file sample empty_store "a.gd" "x").2 ∧
    (update_file sample (open_file sample empty_store "a.gd" "x").2 "a.gd" "~").1.success
      = false ∧
    ¬ tree_matches_buffer sample
        (update_file sample (open_file sample empty_store "a.gd" "x").2 "a.gd" "~").2 := by
  refine ⟨?_, rfl, ?_⟩
  · exact open_file_keeps_invariant sample empty_store "a.gd" "x"
      (fun k st hk => by simp [empty_store] at hk)
  · intro h
    have h1 := h "a.gd" { source_bytes := utf8 "x", tree := none } rfl
    have h2 : sample.parse (utf8 "x") = some (flat_root 1 false) := rfl
    simp only [h2] at h1
    exact Option.noConfusion h1

/-- C2: for an open session with buffer `B` and a batch of edits that are all in range and
pass the overlap check, the `new_source` returned by `apply_text_edits` is the decoding of
the replay of the sorted batch on `B`; the loop applying the sorted edits from the last to
the first produces exactly the replayed bytes, and the sorted batch is in ascending start
order. -/
theorem apply_text_edits_new_source_eq_replay (x : Externals) (open_files : Store)
    (file_path : String) (state : FileState) (es : List EditInfo) (dry_run : Bool)
    (hsort : SortsByStart x.sort_custom)
    (hopen : open_files file_path = some state)
    (hrange : ∀ e ∈ es, e.in_range state.source_bytes.length)
    (hcheck : find_overlap (x.sort_custom es) = none) :
    (apply_text_edits x open_files file_path (es.map EditInfo.toDict) dry_run).1.new_source
        = x.from_utf8 (replay state.source_bytes (x.sort_custom es)) ∧
      apply_edits_to_bytes state.source_bytes (x.sort_custom es)
        = replay state.source_bytes (x.sort_custom es) ∧
      (x.sort_custom es).Pairwise (fun a b => a.start_byte ≤ b.start_byte) := by
  have hval := validate_edits_map_toDict state.source_bytes.length es hrange 0
  have hr : ∀ e ∈ x.sort_custom es, e.in_range state.source_bytes.length :=
    fun e he => hrange e ((hsort.perm es).mem_iff.mp he)
  have hrep := apply_edits_to_bytes_eq_replay state.source_bytes (x.sort_custom es) hr
    ((find_overlap_eq_none_iff _).mp hcheck)
  refine ⟨?_, hrep, hsort.sorted es⟩
  cases hp : x.parse (apply_edits_to_bytes state.source_bytes (x.sort_custom es)) with
  | none =>
    rw [apply_text_edits_of_parse_failure x _ _ _ _ _ _ hopen hval hcheck hp, hrep]
  | some root =>
    rw [apply_text_edits_of_parsed x _ _ _ _ _ _ _ hopen hval hcheck hp, hrep]

/-- Witness for C2: three edits on `"hello world"`, given out of order, two of them
touching. -/
theorem apply_text_edits_new_source_eq_replay_witness :
    (apply_text_edits sample sample_store "a.gd"
        ([⟨5, 8, "__"⟩, ⟨0, 5, "HELLO"⟩, ⟨11, 11, "?"⟩].map EditInfo.toDict) false).1.new_source
        = sample.from_utf8 (replay sample_state.source_bytes
            (sample.sort_custom [⟨5, 8, "__"⟩, ⟨0, 5, "HELLO"⟩, ⟨11, 11, "?"⟩])) ∧
      apply_edits_to_bytes sample_state.source_bytes
          (sample.sort_custom [⟨5, 8, "__"⟩, ⟨0, 5, "HELLO"⟩, ⟨11, 11, "?"⟩])
        = replay sample_state.source_bytes
            (sample.sort_custom [⟨5, 8, "__"⟩, ⟨0, 5, "HELLO"⟩, ⟨11, 11, "?"⟩]) ∧
      (sample.sort_custom [⟨5, 8, "__"⟩, ⟨0, 5, "HELLO"⟩, ⟨11, 11, "?"⟩]).Pairwise
        (fun a b => a.start_byte ≤ b.start_byte) :=
  apply_text_edits_new_source_eq_replay sample sample_store "a.gd" sample_state
    [⟨5, 8, "__"⟩, ⟨0, 5, "HELLO"⟩, ⟨11, 11, "?"⟩] false sample_sort_sortsByStart
    sample_store_open (by decide) (by decide)

/-- C3: a batch of in-range edits that contains two edits `a`, `b` with
`a.start_byte < b.start_byte < a.end_byte` is rejected with an overlap error, whatever the
order of the batch and its other edits, and the store is left as it was. -/
theorem apply_text_edits_rejects_overlap (x : Externals) (open_files : Store)
    (file_path : String) (state : FileState) (es : List EditInfo) (dry_run : Bool)
    (a b : EditInfo)
    (hsort : SortsByStart x.sort_custom)
    (hopen : open_files file_path = some state)
    (hrange : ∀ e ∈ es, e.in_range state.source_bytes.length)
    (ha : a ∈ es) (hb : b ∈ es)
    (hab : a.start_byte < b.start_byte) (hba : b.start_byte < a.end_byte) :
    (apply_text_edits x open_files file_path (es.map EditInfo.toDict) dry_run).1.success
        = false ∧
      (∃ e1 ∈ es, ∃ e2 ∈ es, e2.start_byte < e1.end_byte ∧
        (apply_text_edits x open_files file_path (es.map EditInfo.toDict) dry_run).1.error
          = overlap_error e1 e2) ∧
      (apply_text_edits x open_files file_path (es.map EditInfo.toDict) dry_run).1.new_source
        = "" ∧
      (apply_text_edits x open_files file_path (es.map EditInfo.toDict) dry_run).1.edits_applied
        = 0 ∧
      (apply_text_edits x open_files file_path (es.map EditInfo.toDict) dry_run).2
        = open_files := by
  have hval := validate_edits_map_toDict state.source_bytes.length es hrange 0
  have hmem : ∀ e, e ∈ x.sort_custom es ↔ e ∈ es := fun e => (hsort.perm es).mem_iff
  cases ho : find_overlap (x.sort_custom es) with
  | none =>
    exfalso
    have hpw := pairwise_disjoint_of_chain (x.sort_custom es)
      (fun e he => (hrange e ((hmem e).mp he)).2.1) ((find_overlap_eq_none_iff _).mp ho)
    have hbb : b.start_byte ≤ b.end_byte := (hrange b hb).2.1
    rcases pairwise_mem_cases hpw ((hmem a).mpr ha) ((hmem b).mpr hb) with h | h | h
    · subst h; omega
    · omega
    · omega
  | some pr =>
    obtain ⟨e1, e2⟩ := pr
    obtain ⟨h1, h2, h3⟩ := find_overlap_eq_some _ _ _ ho
    rw [apply_text_edits_of_overlap x _ _ _ _ _ _ _ _ hopen hval ho]
    exact ⟨rfl, ⟨e1, (hmem e1).mp h1, e2, (hmem e2).mp h2, h3, rfl⟩, rfl, rfl, rfl⟩

/-- Witness for C3: the ranges `[3,8)` and `[0,5)`, given in this order together with a third
edit between them in the list. -/
theorem apply_text_edits_rejects_overlap_witness :
    (apply_text_edits sample sample_store "a.gd"
        ([⟨3, 8, "x"⟩, ⟨9, 10, "y"⟩, ⟨0, 5, "z"⟩].map EditInfo.toDict) false).1.success
        = false ∧
      (∃ e1 ∈ [(⟨3, 8, "x"⟩ : EditInfo), ⟨9, 10, "y"⟩, ⟨0, 5, "z"⟩],
        ∃ e2 ∈ [(⟨3, 8, "x"⟩ : EditInfo), ⟨9, 10, "y"⟩, ⟨0, 5, "z"⟩],
        e2.start_byte < e1.end_byte ∧
        (apply_text_edits sample sample_store "a.gd"
          ([⟨3, 8, "x"⟩, ⟨9, 10, "y"⟩, ⟨0, 5, "z"⟩].map EditInfo.toDict) false).1.error
          = overlap_error e1 e2) ∧
      (apply_text_edits sample sample_store "a.gd"
        ([⟨3, 8, "x"⟩, ⟨9, 10, "y"⟩, ⟨0, 5, "z"⟩].map EditInfo.toDict) false).1.new_source
        = "" ∧
      (apply_text_edits sample sample_store "a.gd"
        ([⟨3, 8, "x"⟩, ⟨9, 10, "y"⟩, ⟨0, 5, "z"⟩].map EditInfo.toDict) false).1.edits_applied
        = 0 ∧
      (apply_text_edits sample sample_store "a.gd"
        ([⟨3, 8, "x"⟩, ⟨9, 10, "y"⟩, ⟨0, 5, "z"⟩].map EditInfo.toDict) false).2
        = sample_store :=
  apply_text_edits_rejects_overlap sample sample_store "a.gd" sample_state
    [⟨3, 8, "x"⟩, ⟨9, 10, "y"⟩, ⟨0, 5, "z"⟩] false ⟨0, 5, "z"⟩ ⟨3, 8, "x"⟩
    sample_sort_sortsByStart sample_store_open (by decide) (by decide) (by decide)
    (by decide) (by decide)

/-- C4: a batch of in-range edits whose arrangement `l` in strictly ascending start order has
`end_byte ≤ start_byte` between neighbours (touching included) is not rejected as
overlapping: the error is empty or the parse failure, never an overlap error, and when the
parser yields a tree for the edited buffer the call succeeds with `edits_applied` equal to
the number of edits given. -/
theorem apply_text_edits_accepts_touching (x : Externals) (open_files : Store)
    (file_path : String) (state : FileState) (es l : List EditInfo) (dry_run : Bool)
    (hsort : SortsByStart x.sort_custom)
    (hopen : open_files file_path = some state)
    (hrange : ∀ e ∈ es, e.in_range state.source_bytes.length)
    (hperm : l.Perm es)
    (hstrict : l.Pairwise (fun a b => a.start_byte < b.start_byte))
    (hchain : l.Chain' (fun a b => a.end_byte ≤ b.start_byte)) :
    (∀ e1 e2,
      (apply_text_edits x open_files file_path (es.map EditInfo.toDict) dry_run).1.error
        ≠ overlap_error e1 e2) ∧
    (x.parse (replay state.source_bytes l) = none →
      (apply_text_edits x open_files file_path (es.map EditInfo.toDict) dry_run).1.error
        = "Failed to parse after edits") ∧
    (∀ root, x.parse (replay state.source_bytes l) = some root →
      (apply_text_edits x open_files file_path (es.map EditInfo.toDict) dry_run).1.success
          = true ∧
        (apply_text_edits x open_files file_path
          (es.map EditInfo.toDict) dry_run).1.edits_applied = es.length) := by
  have hval := validate_edits_map_toDict state.source_bytes.length es hrange 0
  have hl : x.sort_custom es = l :=
    sort_custom_eq_of_strictly_sorted x.sort_custom hsort es l hperm hstrict
  have hcheck : find_overlap (x.sort_custom es) = none := by
    rw [hl]; exact (find_overlap_eq_none_iff l).mpr hchain
  have hrep : apply_edits_to_bytes state.source_bytes (x.sort_custom es)
      = replay state.source_bytes l := by
    rw [hl]
    exact apply_edits_to_bytes_eq_replay state.source_bytes l
      (fun e he => hrange e (hperm.mem_iff.mp he)) hchain
  cases hp : x.parse (apply_edits_to_bytes state.source_bytes (x.sort_custom es)) with
  | none =>
    rw [apply_text_edits_of_parse_failure x _ _ _ _ _ _ hopen hval hcheck hp]
    refine ⟨fun e1 e2 => parse_failure_ne_overlap_error e1 e2, fun _ => rfl, ?_⟩
    intro root hroot
    rw [hrep, hroot] at hp
    exact Option.noConfusion hp
  | some root =>
    rw [apply_text_edits_of_parsed x _ _ _ _ _ _ _ hopen hval hcheck hp]
    refine ⟨fun e1 e2 => empty_ne_overlap_error e1 e2, ?_, fun _ _ => ⟨rfl, by simp⟩⟩
    intro hnone
    rw [hrep, hnone] at hp
    exact Option.noConfusion hp

/-- Witness for C4: the touching ranges `[5,8)` and `[0,5)` on `"hello world"`. -/
theorem apply_text_edits_accepts_touching_witness :
    (∀ e1 e2,
      (apply_text_edits sample sample_store "a.gd"
        ([⟨5, 8, "__"⟩, ⟨0, 5, "HELLO"⟩].map EditInfo.toDict) false).1.error
        ≠ overlap_error e1 e2) ∧
    (sample.parse (replay sample_state.source_bytes [⟨0, 5, "HELLO"⟩, ⟨5, 8, "__"⟩]) = none →
      (apply_text_edits sample sample_store "a.gd"
        ([⟨5, 8, "__"⟩, ⟨0, 5, "HELLO"⟩].map EditInfo.toDict) false).1.error
        = "Failed to parse after edits") ∧
    (∀ root,
      sample.parse (replay sample_state.source_bytes [⟨0, 5, "HELLO"⟩, ⟨5, 8, "__"⟩])
        = some root →
      (apply_text_edits sample sample_store "a.gd"
        ([⟨5, 8, "__"⟩, ⟨0, 5, "HELLO"⟩].map EditInfo.toDict) false).1.success = true ∧
      (apply_text_edits sample sample_store "a.gd"
        ([⟨5, 8, "__"⟩, ⟨0, 5, "HELLO"⟩].map EditInfo.toDict) false).1.edits_applied
        = [(⟨5, 8, "__"⟩ : EditInfo), ⟨0, 5, "HELLO"⟩].length) :=
  apply_text_edits_accepts_touching sample sample_store "a.gd" sample_state
    [⟨5, 8, "__"⟩, ⟨0, 5, "HELLO"⟩] [⟨0, 5, "HELLO"⟩, ⟨5, 8, "__"⟩] false
    sample_sort_sortsByStart sample_store_open (by decide) (by decide) (by decide)
    (by simp)

/-- C6: `apply_text_edits` with `dry_run = true` returns the store it was given, and its
`success`, `new_source`, `has_error` and `error_count` (as well as `error` and
`edits_applied`) are those of the same call with `dry_run = false` on the same store. -/
theorem apply_text_edits_dry_run_preview (x : Externals) (open_files : Store)
    (file_path : String) (edits : List EditDict) :
    (apply_text_edits x open_files file_path edits true).2 = open_files ∧
      (apply_text_edits x open_files file_path edits true).1.success
        = (apply_text_edits x open_files file_path edits false).1.success ∧
      (apply_text_edits x open_files file_path edits true).1.new_source
        = (apply_text_edits x open_files file_path edits false).1.new_source ∧
      (apply_text_edits x open_files file_path edits true).1.has_error
        = (apply_text_edits x open_files file_path edits false).1.has_error ∧
      (apply_text_edits x open_files file_path edits true).1.error_count
        = (apply_text_edits x open_files file_path edits false).1.error_count ∧
      (apply_text_edits x open_files file_path edits true).1.error
        = (apply_text_edits x open_files file_path edits false).1.error ∧
      (apply_text_edits x open_files file_path edits true).1.edits_applied
        = (apply_text_edits x open_files file_path edits false).1.edits_applied := by
  cases hs : open_files file_path with
  | none => simp [apply_text_edits, hs]
  | some state =>
    cases hv : validate_edits state.source_bytes.length 0 edits with
    | error msg =>
      rw [apply_text_edits_of_invalid x _ _ _ _ true _ hs hv,
        apply_text_edits_of_invalid x _ _ _ _ false _ hs hv]
      exact ⟨rfl, rfl, rfl, rfl, rfl, rfl, rfl⟩
    | ok v =>
      cases ho : find_overlap (x.sort_custom v) with
      | some pr =>
        obtain ⟨e1, e2⟩ := pr
        rw [apply_text_edits_of_overlap x _ _ _ _ true _ _ _ hs hv ho,
          apply_text_edits_of_overlap x _ _ _ _ false _ _ _ hs hv ho]
        exact ⟨rfl, rfl, rfl, rfl, rfl, rfl, rfl⟩
      | none =>
        cases hp : x.parse (apply_edits_to_bytes state.source_bytes (x.sort_custom v)) with
        | none =>
          rw [apply_text_edits_of_parse_failure x _ _ _ _ true _ hs hv ho hp,
            apply_text_edits_of_parse_failure x _ _ _ _ false _ hs hv ho hp]
          exact ⟨rfl, rfl, rfl, rfl, rfl, rfl, rfl⟩
        | some root =>
          rw [apply_text_edits_of_parsed x _ _ _ _ true _ _ hs hv ho hp,
            apply_text_edits_of_parsed x _ _ _ _ false _ _ hs hv ho hp]
          exact ⟨rfl, rfl, rfl, rfl, rfl, rfl, rfl⟩

/-- C7: when `apply_text_edits` with `dry_run = false` returns `success = true` for a file,
`get_file_source` of that file afterwards is the returned `new_source`, the stored session
holds the edited bytes together with their parse, and the entries of all other files are
what they were. -/
theorem apply_text_edits_commit (x : Externals) (open_files : Store) (file_path : String)
    (edits : List EditDict)
    (h : (apply_text_edits x open_files file_path edits false).1.success = true) :
    get_file_source x (apply_text_edits x open_files file_path edits false).2 file_path
        = (apply_text_edits x open_files file_path edits false).1.new_source ∧
      (∃ st root, (apply_text_edits x open_files file_path edits false).2 file_path = some st ∧
        st.tree = some root ∧ x.parse st.source_bytes = some root ∧
        x.from_utf8 st.source_bytes
          = (apply_text_edits x open_files file_path edits false).1.new_source) ∧
      ∀ other, other ≠ file_path →
        (apply_text_edits x open_files file_path edits false).2 other = open_files other := by
  cases hs : open_files file_path with
  | none => simp [apply_text_edits, hs] at h
  | some state =>
    cases hv : validate_edits state.source_bytes.length 0 edits with
    | error msg =>
      rw [apply_text_edits_of_invalid x _ _ _ _ false _ hs hv] at h
      exact absurd h (by simp)
    | ok v =>
      cases ho : find_overlap (x.sort_custom v) with
      | some pr =>
        obtain ⟨e1, e2⟩ := pr
        rw [apply_text_edits_of_overlap x _ _ _ _ false _ _ _ hs hv ho] at h
        exact absurd h (by simp)
      | none =>
        cases hp : x.parse (apply_edits_to_bytes state.source_bytes (x.sort_custom v)) with
        | none =>
          rw [apply_text_edits_of_parse_failure x _ _ _ _ false _ hs hv ho hp] at h
          exact absurd h (by simp)
        | some root =>
          rw [apply_text_edits_of_parsed x _ _ _ _ false _ _ hs hv ho hp]
          refine ⟨?_, ⟨_, root, store_insert_same _ _ _, rfl, hp, rfl⟩, ?_⟩
          · simp [get_file_source, store_insert_same]
          · intro other hother
            simp [store_insert_other _ _ _ _ hother]

/-- Witness for C7: one committed edit on `"hello world"`. -/
theorem apply_text_edits_commit_witness :
    get_file_source sample
        (apply_text_edits sample sample_store "a.gd" [⟨some 0, some 5, some "HELLO"⟩] false).2
        "a.gd"
        = (apply_text_edits sample sample_store "a.gd"
            [⟨some 0, some 5, some "HELLO"⟩] false).1.new_source ∧
      (∃ st root,
        (apply_text_edits sample sample_store "a.gd"
          [⟨some 0, some 5, some "HELLO"⟩] false).2 "a.gd" = some st ∧
        st.tree = some root ∧ sample.parse st.source_bytes = some root ∧
        sample.from_utf8 st.source_bytes
          = (apply_text_edits sample sample_store "a.gd"
              [⟨some 0, some 5, some "HELLO"⟩] false).1.new_source) ∧
      ∀ other, other ≠ "a.gd" →
        (apply_text_edits sample sample_store "a.gd"
          [⟨some 0, some 5, some "HELLO"⟩] false).2 other = sample_store other :=
  apply_text_edits_commit sample sample_store "a.gd" [⟨some 0, some 5, some "HELLO"⟩]
    (by decide)

/-- C8: when the parser returns no tree for the new content of an open file, `update_file`
returns a failure, and the session it leaves behind keeps the old buffer but has no tree
any more; a session that had a tree is therefore not what it was before the call. -/
theorem update_file_parse_failure_clears_tree (x : Externals) (open_files : Store)
    (file_path new_content : String) (state : FileState) (tree : TSNode)
    (hopen : open_files file_path = some state)
    (htree : state.tree = some tree)
    (hp : x.parse (utf8 new_content) = none) :
    (update_file x open_files file_path new_content).1.success = false ∧
      (update_file x open_files file_path new_content).2 file_path
        = some { source_bytes := state.source_bytes, tree := none } ∧
      (update_file x open_files file_path new_content).2 file_path ≠ open_files file_path := by
  rw [update_file_of_parse_failure x _ _ _ _ hopen hp]
  refine ⟨rfl, store_insert_same _ _ _, ?_⟩
  show open_files.insert file_path { source_bytes := state.source_bytes, tree := none }
    file_path ≠ open_files file_path
  rw [store_insert_same, hopen]
  intro h
  have h2 : (none : Option TSNode) = state.tree := congrArg FileState.tree (Option.some.inj h)
  rw [htree] at h2
  exact Option.noConfusion h2

/-- Witness for C8: the session `"hello world"` and an update whose content has no parse. -/
theorem update_file_parse_failure_clears_tree_witness :
    (update_file sample sample_store "a.gd" "~").1.success = false ∧
      (update_file sample sample_store "a.gd" "~").2 "a.gd"
        = some { source_bytes := sample_state.source_bytes, tree := none } ∧
      (update_file sample sample_store "a.gd" "~").2 "a.gd" ≠ sample_store "a.gd" :=
  update_file_parse_failure_clears_tree sample sample_store "a.gd" "~" sample_state
    (flat_root 11 false) sample_store_open rfl rfl

/-- C9: after a successful `open_file(id, content)`, `get_node_text(id, s, e)` is the decoding
of the byte slice `content[s:e]` whenever `0 ≤ s ≤ e ≤ len(content)` in bytes, and the empty
text for all other `s`, `e`. The decoder is assumed to map no bytes to the empty text. -/
theorem get_node_text_after_open (x : Externals) (open_files : Store)
    (file_path content : String) (start_byte end_byte : Int)
    (hempty : x.from_utf8 [] = "")
    (hopen : (open_file x open_files file_path content).1.success = true) :
    (0 ≤ start_byte ∧ start_byte ≤ end_byte ∧ end_byte ≤ ((utf8 content).length : Int) →
      get_node_text x (open_file x open_files file_path content).2 file_path
          start_byte end_byte
        = x.from_utf8 (((utf8 content).drop start_byte.toNat).take
            (end_byte.toNat - start_byte.toNat))) ∧
    (¬ (0 ≤ start_byte ∧ start_byte ≤ end_byte ∧ end_byte ≤ ((utf8 content).length : Int)) →
      get_node_text x (open_file x open_files file_path content).2 file_path
          start_byte end_byte = "") := by
  cases hp : x.parse (utf8 content) with
  | none =>
    rw [open_file_of_parse_failure x _ _ _ hp] at hopen
    exact absurd hopen (by simp [ParseResult.success])
  | some tree =>
    rw [open_file_of_parsed x _ _ _ _ hp]
    simp only [get_node_text, store_insert_same]
    constructor
    · rintro ⟨h0, h1, h2⟩
      have hneg : ¬ (start_byte < 0 ∨ end_byte < 0 ∨ start_byte > end_byte) := by omega
      rw [if_neg hneg]
      by_cases hlt : start_byte.toNat < (utf8 content).length
      · have hin : ¬ (start_byte.toNat ≥ (utf8 content).length ∨
            end_byte.toNat > (utf8 content).length) := by omega
        rw [if_neg hin]
      · have hout : start_byte.toNat ≥ (utf8 content).length ∨
            end_byte.toNat > (utf8 content).length := by omega
        have hzero : end_byte.toNat - start_byte.toNat = 0 := by omega
        rw [if_pos hout, hzero, List.take_zero, hempty]
    · intro hbad
      by_cases hneg : start_byte < 0 ∨ end_byte < 0 ∨ start_byte > end_byte
      · rw [if_pos hneg]
      · have hout : start_byte.toNat ≥ (utf8 content).length ∨
            end_byte.toNat > (utf8 content).length := by omega
        rw [if_neg hneg, if_pos hout]

/-- Witness for C9: the slice `[6, 11)` of `"hello world"`. -/
theorem get_node_text_after_open_witness :
    (0 ≤ (6 : Int) ∧ (6 : Int) ≤ 11 ∧ (11 : Int) ≤ ((utf8 "hello world").length : Int) →
      get_node_text sample (open_file sample empty_store "a.gd" "hello world").2 "a.gd" 6 11
        = sample.from_utf8 (((utf8 "hello world").drop (6 : Int).toNat).take
            ((11 : Int).toNat - (6 : Int).toNat))) ∧
    (¬ (0 ≤ (6 : Int) ∧ (6 : Int) ≤ 11 ∧ (11 : Int) ≤ ((utf8 "hello world").length : Int)) →
      get_node_text sample (open_file sample empty_store "a.gd" "hello world").2 "a.gd" 6 11
        = "") :=
  get_node_text_after_open sample empty_store "a.gd" "hello world" 6 11 rfl rfl

/-- C10: when the parser returns a tree for `content`, `open_file(id, content)` succeeds, the
file is open afterwards, `get_file_source(id)` is `content` (given that decoding the encoding
of `content` gives `content` back) and the entries of all other files are what they were,
whatever was stored under `id` before; when the parser returns no tree, `open_file` returns
`success = false` and the store is what it was. -/
theorem open_file_stores_content (x : Externals) (open_files : Store)
    (file_path content : String)
    (hdecode : x.from_utf8 (utf8 content) = content) :
    (∀ tree, x.parse (utf8 content) = some tree →
      (open_file x open_files file_path content).1.success = true ∧
      is_file_open (open_file x open_files file_path content).2 file_path = true ∧
      get_file_source x (open_file x open_files file_path content).2 file_path = content ∧
      (open_file x open_files file_path content).2 file_path
        = some { source_bytes := utf8 content, tree := some tree } ∧
      ∀ other, other ≠ file_path →
        (open_file x open_files file_path content).2 other = open_files other) ∧
    (x.parse (utf8 content) = none →
      (open_file x open_files file_path content).1.success = false ∧
      (open_file x open_files file_path content).2 = open_files) := by
  constructor
  · intro tree hp
    rw [open_file_of_parsed x _ _ _ _ hp]
    refine ⟨rfl, ?_, ?_, store_insert_same _ _ _, ?_⟩
    · simp [is_file_open, store_insert_same]
    · simp [get_file_source, store_insert_same, hdecode]
    · intro other hother
      simp [store_insert_other _ _ _ _ hother]
  · intro hp
    rw [open_file_of_parse_failure x _ _ _ hp]
    exact ⟨rfl, rfl⟩

/-- Witness for C10: opening `"hi"` under an id that already holds `"hello world"`. -/
theorem open_file_stores_content_witness :
    (∀ tree, sample.parse (utf8 "hi") = some tree →
      (open_file sample sample_store "a.gd" "hi").1.success = true ∧
      is_file_open (open_file sample sample_store "a.gd" "hi").2 "a.gd" = true ∧
      get_file_source sample (open_file sample sample_store "a.gd" "hi").2 "a.gd" = "hi" ∧
      (open_file sample sample_store "a.gd" "hi").2 "a.gd"
        = some { source_bytes := utf8 "hi", tree := some tree } ∧
      ∀ other, other ≠ "a.gd" →
        (open_file sample sample_store "a.gd" "hi").2 other = sample_store other) ∧
    (sample.parse (utf8 "hi") = none →
      (open_file sample sample_store "a.gd" "hi").1.success = false ∧
      (open_file sample sample_store "a.gd" "hi").2 = sample_store) :=
  open_file_stores_content sample sample_store "a.gd" "hi" (by decide)

/-! ## Auxiliary facts for the node-edit layer, the diff and the validation -/

/-! ## Tree walks -/

mutual
theorem count_all_descendants_eq_length (n : TSNode) :
    count_all_descendants n = (tree_nodes n).length := by
  cases n with
  | mk k s e sp ep is_err is_miss he cs =>
    simp only [count_all_descendants, tree_nodes, List.length_cons]
    rw [count_all_descendants_children_eq_length cs]
    omega
theorem count_all_descendants_children_eq_length (cs : List TSNode) :
    count_all_descendants_children cs = (tree_nodes_children cs).length := by
  cases cs with
  | nil => rfl
  | cons c cs =>
    simp only [count_all_descendants_children, tree_nodes_children, List.length_append]
    rw [count_all_descendants_eq_length c, count_all_descendants_children_eq_length cs]
end

theorem count_all_descendants_children_eq_sum (cs : List TSNode) :
    count_all_descendants_children cs = (cs.map count_all_descendants).sum := by
  induction cs with
  | nil => rfl
  | cons c cs ih => simp [count_all_descendants_children, ih]

theorem tree_nodes_children_eq_flatMap (cs : List TSNode) :
    tree_nodes_children cs = cs.flatMap tree_nodes := by
  induction cs with
  | nil => rfl
  | cons c cs ih => simp [tree_nodes_children, ih]

theorem tree_nodes_eq_cons (n : TSNode) :
    tree_nodes n = n :: (ts_node_children n).flatMap tree_nodes := by
  cases n with
  | mk k s e sp ep is_err is_miss he cs =>
    simp [tree_nodes, ts_node_children, tree_nodes_children_eq_flatMap]

mutual
theorem collect_error_nodes_eq (n : TSNode) :
    collect_error_nodes n =
      ((tree_nodes n).filter (fun m => ts_node_is_error m || ts_node_is_missing m)).map
        error_range_of := by
  cases n with
  | mk k s e sp ep is_err is_miss he cs =>
    simp only [collect_error_nodes, tree_nodes]
    rw [collect_error_nodes_children_eq cs]
    cases h : (is_err || is_miss) <;>
      simp [List.filter_cons, ts_node_is_error, ts_node_is_missing, h]
theorem collect_error_nodes_children_eq (cs : List TSNode) :
    collect_error_nodes_children cs =
      ((tree_nodes_children cs).filter
        (fun m => ts_node_is_error m || ts_node_is_missing m)).map error_range_of := by
  cases cs with
  | nil => rfl
  | cons c cs =>
    simp only [collect_error_nodes_children, tree_nodes_children, List.filter_append,
      List.map_append]
    rw [collect_error_nodes_eq c, collect_error_nodes_children_eq cs]
end

mutual
theorem validate_collect_errors_eq (source_code : String) (n : TSNode)
    (captured : List ValidateError × Nat) :
    validate_collect_errors source_code n captured =
      (captured.1 ++ ((tree_nodes n).filter
          (fun m => ts_node_is_error m || ts_node_is_missing m)).map
          (validate_error_of source_code),
        captured.2 + ((tree_nodes n).filter
          (fun m => ts_node_is_error m || ts_node_is_missing m)).length) := by
  cases n with
  | mk k s e sp ep is_err is_miss he cs =>
    simp only [validate_collect_errors, tree_nodes]
    rw [validate_collect_errors_children_eq source_code cs]
    cases h : (is_err || is_miss)
    · simp [List.filter_cons, ts_node_is_error, ts_node_is_missing, h]
    · simp [List.filter_cons, ts_node_is_error, ts_node_is_missing, h]
      omega
theorem validate_collect_errors_children_eq (source_code : String) (cs : List TSNode)
    (captured : List ValidateError × Nat) :
    validate_collect_errors_children source_code cs captured =
      (captured.1 ++ ((tree_nodes_children cs).filter
          (fun m => ts_node_is_error m || ts_node_is_missing m)).map
          (validate_error_of source_code),
        captured.2 + ((tree_nodes_children cs).filter
          (fun m => ts_node_is_error m || ts_node_is_missing m)).length) := by
  cases cs with
  | nil => simp [validate_collect_errors_children, tree_nodes_children]
  | cons c cs =>
    simp only [validate_collect_errors_children, tree_nodes_children]
    rw [validate_collect_errors_eq source_code c,
      validate_collect_errors_children_eq source_code cs]
    simp [List.filter_append, Nat.add_assoc]
end

theorem validate_error_of_context (source_code : String) (n : TSNode) :
    (validate_error_of source_code n).context =
      ((split_newline source_code)[(validate_error_of source_code n).start_row]?).getD "" := by
  simp only [validate_error_of]
  by_cases h : (ts_node_start_point n).row < (split_newline source_code).length
  · simp [h, List.getElem?_eq_getElem h]
  · simp [h, List.getElem?_eq_none (not_lt.mp h)]

/-! ## Searching a text -/

theorem head?_filter_eq_find? {α : Type} (p : α → Bool) (l : List α) :
    (l.filter p).head? = l.find? p := by
  induction l with
  | nil => rfl
  | cons a l ih =>
    by_cases h : p a = true
    · simp [List.filter_cons, List.find?_cons, h]
    · simp [List.filter_cons, List.find?_cons, h, ih]

theorem find_loop_eq_head (what l : List Char) (i : Nat) :
    find_loop what l i = (occurrence_positions_from what l i).head? := by
  induction l generalizing i with
  | nil => rfl
  | cons c cs ih =>
    by_cases h : starts_with (c :: cs) what = true
    · simp [find_loop, occurrence_positions_from, h]
    · simp [find_loop, occurrence_positions_from, h, ih]

theorem occurrence_positions_from_ge (what l : List Char) (i : Nat) :
    ∀ p ∈ occurrence_positions_from what l i, i ≤ p ∧ p < i + l.length := by
  induction l generalizing i with
  | nil => intro p hp; simp [occurrence_positions_from] at hp
  | cons c cs ih =>
    intro p hp
    simp only [occurrence_positions_from, List.mem_append] at hp
    rcases hp with hp | hp
    · by_cases h : starts_with (c :: cs) what = true
      · simp [h] at hp
        subst hp
        simp
      · simp [h] at hp
    · have := ih (i + 1) p hp
      simp only [List.length_cons]
      omega

theorem occurrence_positions_from_ascending (what l : List Char) (i : Nat) :
    (occurrence_positions_from what l i).Pairwise (fun a b => a < b) := by
  induction l generalizing i with
  | nil => simp [occurrence_positions_from]
  | cons c cs ih =>
    simp only [occurrence_positions_from]
    by_cases h : starts_with (c :: cs) what = true
    · simp only [h, if_true, List.singleton_append]
      refine List.Pairwise.cons ?_ (ih (i + 1))
      intro b hb
      have := (occurrence_positions_from_ge what cs (i + 1) b hb).1
      omega
    · simp only [h, Bool.false_eq_true, if_false, List.nil_append]
      exact ih (i + 1)

theorem occurrence_positions_from_length_le (what l : List Char) (i : Nat) :
    (occurrence_positions_from what l i).length ≤ l.length := by
  induction l generalizing i with
  | nil => simp [occurrence_positions_from]
  | cons c cs ih =>
    have := ih (i + 1)
    by_cases h : starts_with (c :: cs) what = true
    · simp only [occurrence_positions_from, h, if_true, List.singleton_append,
        List.length_cons]
      omega
    · simp only [occurrence_positions_from, h, Bool.false_eq_true, if_false, List.nil_append,
        List.length_cons]
      omega

theorem occurrence_positions_from_drop (what l : List Char) (i k : Nat) :
    occurrence_positions_from what (l.drop k) (i + k) =
      (occurrence_positions_from what l i).filter (fun p => decide (i + k ≤ p)) := by
  induction l generalizing i k with
  | nil => simp [occurrence_positions_from]
  | cons c cs ih =>
    cases k with
    | zero =>
      simp only [List.drop_zero, Nat.add_zero]
      symm
      apply List.filter_eq_self.mpr
      intro p hp
      simpa using (occurrence_positions_from_ge what (c :: cs) i p hp).1
    | succ k =>
      have h1 : i + (k + 1) = (i + 1) + k := by omega
      simp only [List.drop_succ_cons, occurrence_positions_from, List.filter_append]
      rw [h1, ih (i + 1) k]
      by_cases h : starts_with (c :: cs) what = true
      · simp [h]
        omega
      · simp [h]

theorem occurrence_positions_ascending (s what : String) :
    (occurrence_positions s what).Pairwise (fun a b => a < b) := by
  unfold occurrence_positions
  split
  · exact List.Pairwise.nil
  · exact occurrence_positions_from_ascending _ _ _

theorem occurrence_positions_length_le (s what : String) :
    (occurrence_positions s what).length ≤ s.length := by
  unfold occurrence_positions
  split
  · simp
  · exact occurrence_positions_from_length_le _ _ _

theorem find_eq_find_positions (s what : String) (p_from : Nat) :
    find s what p_from =
      (occurrence_positions s what).find? (fun p => decide (p_from ≤ p)) := by
  unfold find occurrence_positions
  by_cases hw : what.length = 0
  · simp [hw]
  · by_cases hs : s.length = 0
    · have hd : s.data = [] := List.length_eq_zero.mp hs
      simp [hw, hs, hd, occurrence_positions_from]
    · simp only [hw, hs, or_self, if_false]
      have h := occurrence_positions_from_drop what.data s.data 0 p_from
      simp only [Nat.zero_add] at h
      rw [find_loop_eq_head, h, head?_filter_eq_find?]

theorem find_positions_cons_ascending (a : Nat) (l : List Nat)
    (h : (a :: l).Pairwise (fun u v => u < v)) :
    l.find? (fun p => decide (a + 1 ≤ p)) = l.head? ∧
      l.filter (fun p => decide (a + 1 ≤ p)) = l := by
  have hl : ∀ b ∈ l, a < b := (List.pairwise_cons.mp h).1
  have hf : l.filter (fun p => decide (a + 1 ≤ p)) = l :=
    List.filter_eq_self.mpr (fun b hb => by simpa using hl b hb)
  refine ⟨?_, hf⟩
  rw [← head?_filter_eq_find?, hf]

theorem count_matches_eq (s what : String) (fuel pos count : Nat)
    (hfuel : ((occurrence_positions s what).filter (fun p => decide (pos ≤ p))).length ≤ fuel) :
    count_matches s what fuel pos count =
      count + ((occurrence_positions s what).filter (fun p => decide (pos ≤ p))).length := by
  induction fuel generalizing pos count with
  | zero =>
    have h0 := Nat.le_zero.mp hfuel
    simp [count_matches, h0]
  | succ fuel ih =>
    simp only [count_matches, find_eq_find_positions, ← head?_filter_eq_find?]
    cases hP : (occurrence_positions s what).filter (fun p => decide (pos ≤ p)) with
    | nil => simp
    | cons p rest =>
      have hasc : (p :: rest).Pairwise (fun u v => u < v) := by
        rw [← hP]
        exact (occurrence_positions_ascending s what).filter _
      have hp : pos ≤ p := by
        have : p ∈ (occurrence_positions s what).filter (fun p => decide (pos ≤ p)) := by
          rw [hP]; simp
        simpa using (List.mem_filter.mp this).2
      have hnext : (occurrence_positions s what).filter (fun q => decide (p + 1 ≤ q)) = rest := by
        have h1 : (occurrence_positions s what).filter (fun q => decide (p + 1 ≤ q)) =
            ((occurrence_positions s what).filter (fun q => decide (pos ≤ q))).filter
              (fun q => decide (p + 1 ≤ q)) := by
          rw [List.filter_filter]
          apply List.filter_congr
          intro q _
          by_cases hq : p + 1 ≤ q
          · have : pos ≤ q := by omega
            simp [hq, this]
          · simp [hq]
        rw [h1, hP, List.filter_cons]
        simp only [show ¬ (p + 1 ≤ p) by omega, decide_False, Bool.false_eq_true, if_false]
        exact (find_positions_cons_ascending p rest hasc).2
      simp only [List.head?_cons]
      rw [ih (p + 1) (count + 1) (by rw [hnext]; rw [hP] at hfuel; simpa using hfuel), hnext]
      simp only [List.length_cons]
      omega

/-! ## Resolution of node edits -/

theorem find_zero_eq_head (s what : String) :
    find s what 0 = (occurrence_positions s what).head? := by
  rw [find_eq_find_positions, ← head?_filter_eq_find?]
  congr 1
  exact List.filter_eq_self.mpr (fun p _ => by simp)

theorem resolve_edit_of_not_found (q : TreeQueries) (source : String) (tree : Option TSNode)
    (i : Nat) (old_text new_text : String) (node_kind : Option String)
    (h : occurrence_positions source old_text = []) :
    resolve_edit q source tree i
        { old_text := some old_text, new_text := some new_text, node_kind := node_kind } =
      some (.error ("Edit #" ++ toString i ++ ": old_text not found in source")) := by
  simp [resolve_edit, find_zero_eq_head, h]

theorem resolve_edit_of_ambiguous (q : TreeQueries) (source : String) (tree : Option TSNode)
    (i : Nat) (old_text new_text : String) (node_kind : Option String)
    (h : 2 ≤ (occurrence_positions source old_text).length) :
    resolve_edit q source tree i
        { old_text := some old_text, new_text := some new_text, node_kind := node_kind } =
      some (.error ("Edit #" ++ toString i ++ ": old_text matches " ++
        toString (occurrence_positions source old_text).length ++
        " locations, must be unique")) := by
  have hasc := occurrence_positions_ascending source old_text
  have hlen := occurrence_positions_length_le source old_text
  cases hP : occurrence_positions source old_text with
  | nil => rw [hP] at h; simp at h
  | cons p0 l =>
    cases l with
    | nil => rw [hP] at h; simp at h
    | cons p1 rest =>
      rw [hP] at hasc hlen
      have hasc1 : (p1 :: rest).Pairwise (fun u v => u < v) := (List.pairwise_cons.mp hasc).2
      have h01 : p0 < p1 := (List.pairwise_cons.mp hasc).1 p1 (by simp)
      have hfirst : find source old_text 0 = some p0 := by
        rw [find_zero_eq_head, hP]; rfl
      have hsecond : find source old_text (p0 + 1) = some p1 := by
        rw [find_eq_find_positions, hP, List.find?_cons]
        simp only [show ¬ (p0 + 1 ≤ p0) by omega, decide_False]
        rw [(find_positions_cons_ascending p0 (p1 :: rest) hasc).1]
        rfl
      have hrest : (occurrence_positions source old_text).filter
          (fun p => decide (p1 + 1 ≤ p)) = rest := by
        rw [hP, List.filter_cons, List.filter_cons]
        simp only [show ¬ (p1 + 1 ≤ p0) by omega, show ¬ (p1 + 1 ≤ p1) by omega, decide_False,
          Bool.false_eq_true, if_false]
        exact (find_positions_cons_ascending p1 rest hasc1).2
      have hcount : count_matches source old_text source.length (p1 + 1) 2 =
          (p0 :: p1 :: rest).length := by
        rw [count_matches_eq source old_text source.length (p1 + 1) 2
          (by rw [hrest]; simp only [List.length_cons] at hlen; omega), hrest]
        simp only [List.length_cons]
        omega
      simp [resolve_edit, hfirst, hsecond, hcount]

theorem resolve_edit_of_resolves_to (q : TreeQueries) (source : String)
    (tree : Option TSNode) (i : Nat) (d : NodeEditDict) (m : MatchInfo)
    (h : resolves_to q source tree i d m) :
    resolve_edit q source tree i d = some (.ok m) := by
  obtain ⟨hold, hnew, hkind, hidx, hpos, hend, hcheck⟩ := h
  have hfirst : find source m.old_text 0 = some m.match_start := by
    rw [find_zero_eq_head, hpos]; rfl
  have hsecond : find source m.old_text (m.match_start + 1) = none := by
    rw [find_eq_find_positions, hpos]
    simp
  have hm : (MatchInfo.mk i m.match_start (m.match_start + m.old_text.length) m.old_text
      m.new_text m.node_kind) = m := by
    cases m
    simp only [MatchInfo.mk.injEq, and_true, true_and] at *
    exact ⟨hidx.symm, hend.symm⟩
  rcases hcheck with hnone | ⟨root, hroot, hfound⟩
  · simp [resolve_edit, hold, hnew, hkind, hfirst, hsecond, hnone, hm]
  · by_cases hlen : m.node_kind.length = 0
    · simp [resolve_edit, hold, hnew, hkind, hfirst, hsecond, hlen, hm]
    · simp [resolve_edit, hold, hnew, hkind, hfirst, hsecond, hlen, hroot, hfound, hm]

theorem resolve_edits_of_batch_resolves_to (q : TreeQueries) (source : String)
    (tree : Option TSNode) (i : Nat) (edits : List NodeEditDict) (ms : List MatchInfo)
    (h : batch_resolves_to q source tree i edits ms) :
    resolve_edits q source tree i edits = some (.ok ms) := by
  induction edits generalizing i ms with
  | nil =>
    cases ms with
    | nil => rfl
    | cons m ms => simp [batch_resolves_to] at h
  | cons d ds ih =>
    cases ms with
    | nil => simp [batch_resolves_to] at h
    | cons m ms =>
      obtain ⟨h1, h2⟩ := h
      simp [resolve_edits, resolve_edit_of_resolves_to q source tree i d m h1,
        ih (i + 1) ms h2]

theorem resolve_edits_append_error (q : TreeQueries) (source : String)
    (tree : Option TSNode) (i : Nat) (pre : List NodeEditDict) (ms : List MatchInfo)
    (d : NodeEditDict) (rest : List NodeEditDict) (msg : String)
    (hpre : batch_resolves_to q source tree i pre ms)
    (hd : resolve_edit q source tree (i + pre.length) d = some (.error msg)) :
    resolve_edits q source tree i (pre ++ d :: rest) = some (.error msg) := by
  induction pre generalizing i ms with
  | nil =>
    have hd0 : resolve_edit q source tree i d = some (.error msg) := by simpa using hd
    simp [resolve_edits, hd0]
  | cons e pre ih =>
    cases ms with
    | nil => simp [batch_resolves_to] at hpre
    | cons m ms =>
      obtain ⟨h1, h2⟩ := hpre
      have hidx : i + (e :: pre).length = i + 1 + pre.length := by
        simp only [List.length_cons]; omega
      rw [hidx] at hd
      simp [resolve_edits, resolve_edit_of_resolves_to q source tree i e m h1,
        ih (i + 1) ms h2 hd]

theorem batch_resolves_to_edit_index (q : TreeQueries) (source : String)
    (tree : Option TSNode) (i : Nat) (edits : List NodeEditDict) (ms : List MatchInfo)
    (h : batch_resolves_to q source tree i edits ms) (k : Nat) (m : MatchInfo)
    (hk : ms[k]? = some m) : m.edit_index = i + k := by
  induction edits generalizing i ms k with
  | nil =>
    cases ms with
    | nil => simp at hk
    | cons m ms => simp [batch_resolves_to] at h
  | cons d ds ih =>
    cases ms with
    | nil => simp [batch_resolves_to] at h
    | cons m0 ms =>
      obtain ⟨h1, h2⟩ := h
      cases k with
      | zero =>
        simp only [List.getElem?_cons_zero, Option.some.injEq] at hk
        subst hk
        exact h1.2.2.2.1
      | succ k =>
        simp only [List.getElem?_cons_succ] at hk
        have := ih (i + 1) ms h2 k hk
        omega

/-! ## The result of `apply_node_edits` along each path -/

theorem apply_node_edits_of_resolve_error (x : Externals) (q : TreeQueries)
    (open_files : Store) (file_path : String) (state : FileState)
    (edits : List NodeEditDict) (options : NodeEditOptions) (msg : String)
    (hopen : open_files file_path = some state)
    (hres : resolve_edits q (x.from_utf8 state.source_bytes) state.tree 0 edits
      = some (.error msg)) :
    apply_node_edits x q open_files file_path edits options =
      some (node_edit_failure msg, open_files) := by
  simp [apply_node_edits, hopen, hres]

theorem apply_node_edits_of_translate_error (x : Externals) (q : TreeQueries)
    (open_files : Store) (file_path : String) (state : FileState)
    (edits : List NodeEditDict) (options : NodeEditOptions) (ms : List MatchInfo)
    (msg : String)
    (hopen : open_files file_path = some state)
    (hres : resolve_edits q (x.from_utf8 state.source_bytes) state.tree 0 edits
      = some (.ok ms))
    (htr : translate_matches (x.from_utf8 state.source_bytes)
      (options.auto_indent.getD true) ms = .error msg) :
    apply_node_edits x q open_files file_path edits options =
      some (node_edit_failure msg, open_files) := by
  simp [apply_node_edits, hopen, hres, htr]

theorem apply_node_edits_of_translated (x : Externals) (q : TreeQueries)
    (open_files : Store) (file_path : String) (state : FileState)
    (edits : List NodeEditDict) (options : NodeEditOptions) (ms : List MatchInfo)
    (text_edits : List EditDict)
    (hopen : open_files file_path = some state)
    (hres : resolve_edits q (x.from_utf8 state.source_bytes) state.tree 0 edits
      = some (.ok ms))
    (htr : translate_matches (x.from_utf8 state.source_bytes)
      (options.auto_indent.getD true) ms = .ok text_edits) :
    apply_node_edits x q open_files file_path edits options =
      some (apply_translated x open_files file_path text_edits
        (options.dry_run.getD false) (options.fail_on_parse_error.getD false)) := by
  simp [apply_node_edits, hopen, hres, htr]

theorem find_match_overlap_eq_none (ms : List MatchInfo) (h : find_match_overlap ms = none) :
    ms.Pairwise (fun a b => matches_overlap a b = false) := by
  induction ms with
  | nil => exact List.Pairwise.nil
  | cons m1 rest ih =>
    cases hf : rest.find? (fun m2 => matches_overlap m1 m2) with
    | some m2 => simp [find_match_overlap, hf] at h
    | none =>
      simp only [find_match_overlap, hf] at h
      refine List.Pairwise.cons ?_ (ih h)
      intro b hb
      have := List.find?_eq_none.mp hf b hb
      simpa using this

theorem find_match_overlap_eq_some (ms : List MatchInfo) (m1 m2 : MatchInfo)
    (h : find_match_overlap ms = some (m1, m2)) :
    ∃ i j : Nat, i < j ∧ ms[i]? = some m1 ∧ ms[j]? = some m2 ∧
      matches_overlap m1 m2 = true := by
  induction ms with
  | nil => simp [find_match_overlap] at h
  | cons m rest ih =>
    cases hf : rest.find? (fun m2 => matches_overlap m m2) with
    | some m' =>
      simp only [find_match_overlap, hf, Option.some.injEq, Prod.mk.injEq] at h
      obtain ⟨rfl, rfl⟩ := h
      have hov : matches_overlap m m' = true := by
        simpa using List.find?_some hf
      obtain ⟨n, hn⟩ := List.getElem?_of_mem (List.mem_of_find?_eq_some hf)
      exact ⟨0, n + 1, Nat.succ_pos n, by simp, by simpa using hn, hov⟩
    | none =>
      simp only [find_match_overlap, hf] at h
      obtain ⟨i, j, hij, hi, hj, hov⟩ := ih h
      exact ⟨i + 1, j + 1, Nat.succ_lt_succ hij, by simpa using hi, by simpa using hj, hov⟩

/-! ## Texts, lines and bytes -/

theorem utf8_append (a b : String) : utf8 (a ++ b) = utf8 a ++ utf8 b := by
  simp [utf8, String.data_append, List.flatMap_append]

theorem string_length_eq_zero_iff (s : String) : s.length = 0 ↔ s = "" := by
  constructor
  · intro h
    have hd : s.data = [] := List.length_eq_zero.mp h
    cases s
    simp only at hd
    subst hd
    rfl
  · intro h
    subst h
    rfl

theorem substr_append_left (a rest : String) : substr (a ++ rest) 0 a.length = a := by
  cases a with
  | mk l =>
    simp [substr, String.data_append, String.length]

theorem split_newline_chars_ne_nil (cs : List Char) : split_newline_chars cs ≠ [] := by
  cases cs with
  | nil => simp [split_newline_chars]
  | cons c cs =>
    by_cases h : c = '\n'
    · simp [split_newline_chars, h]
    · cases hs : split_newline_chars cs <;> simp [split_newline_chars, h, hs]

theorem join_newline_cons_of_ne_nil (line : String) (rest : List String) (h : rest ≠ []) :
    join_newline (line :: rest) = line ++ "\n" ++ join_newline rest := by
  cases rest with
  | nil => exact absurd rfl h
  | cons l ls => rfl

theorem join_newline_split_newline_chars (cs : List Char) :
    join_newline ((split_newline_chars cs).map String.mk) = String.mk cs := by
  induction cs with
  | nil => rfl
  | cons c cs ih =>
    have hne := split_newline_chars_ne_nil cs
    by_cases h : c = '\n'
    · subst h
      have hmap : (split_newline_chars cs).map String.mk ≠ [] := by
        simpa using hne
      simp only [split_newline_chars, if_true, List.map_cons]
      rw [join_newline_cons_of_ne_nil _ _ hmap, ih]
      rfl
    · cases hs : split_newline_chars cs with
      | nil => exact absurd hs hne
      | cons l ls =>
        rw [hs] at ih
        simp only [split_newline_chars, h, if_false, hs, List.map_cons]
        cases ls with
        | nil =>
          simp only [List.map_nil, join_newline] at ih ⊢
          have hl : l = cs := congrArg String.data ih
          rw [hl]
        | cons l2 ls =>
          have hmap : (l2 :: ls).map String.mk ≠ [] := by simp
          simp only [List.map_cons] at ih hmap ⊢
          rw [join_newline_cons_of_ne_nil _ _ hmap] at ih ⊢
          have hc : String.mk (c :: l) = String.mk [c] ++ String.mk l := rfl
          have hc2 : String.mk (c :: cs) = String.mk [c] ++ String.mk cs := rfl
          rw [hc, hc2, ← ih]
          simp [String.append_assoc]

theorem join_newline_split_newline (s : String) : join_newline (split_newline s) = s := by
  cases s with
  | mk l => exact join_newline_split_newline_chars l

theorem indent_lines_eq_join_newline (base_indent : String) (lines : List String) :
    indent_lines base_indent lines =
      join_newline (lines.map (fun line => if line = "" then line else base_indent ++ line)) := by
  induction lines with
  | nil => rfl
  | cons line rest ih =>
    cases rest with
    | nil =>
      by_cases h : line = ""
      · simp [indent_lines, join_newline, h]
      · simp [indent_lines, join_newline, h, string_length_eq_zero_iff]
    | cons l2 ls =>
      have hstep : indent_lines base_indent (line :: l2 :: ls) =
          (if line.length = 0 then line else base_indent ++ line) ++ "\n" ++
            indent_lines base_indent (l2 :: ls) := rfl
      have hjoin : join_newline
            ((line :: l2 :: ls).map (fun line => if line = "" then line else base_indent ++ line))
          = (if line = "" then line else base_indent ++ line) ++ "\n" ++
            join_newline
              ((l2 :: ls).map (fun line => if line = "" then line else base_indent ++ line)) :=
        join_newline_cons_of_ne_nil _ _ (by simp)
      rw [hstep, ih, hjoin]
      by_cases h : line = ""
      · simp [h]
      · simp [h, string_length_eq_zero_iff]

theorem starts_with_eq_true (l w : List Char) (h : starts_with l w = true) :
    l = w ++ l.drop w.length := by
  induction w generalizing l with
  | nil => simp
  | cons a w ih =>
    cases l with
    | nil => simp [starts_with] at h
    | cons c cs =>
      simp only [starts_with, Bool.and_eq_true, beq_iff_eq] at h
      obtain ⟨hc, hrest⟩ := h
      subst hc
      simp only [List.length_cons, List.drop_succ_cons, List.cons_append, List.cons.injEq,
        true_and]
      exact ih cs hrest

/-! ## The applier as used by the node-edit layer -/

theorem apply_text_edits_dry_run_eq (x : Externals) (open_files : Store)
    (file_path : String) (edits : List EditDict) :
    (apply_text_edits x open_files file_path edits true).2 = open_files ∧
      (apply_text_edits x open_files file_path edits true).1.success
        = (apply_text_edits x open_files file_path edits false).1.success ∧
      (apply_text_edits x open_files file_path edits true).1.has_error
        = (apply_text_edits x open_files file_path edits false).1.has_error := by
  cases hs : open_files file_path with
  | none => simp [apply_text_edits, hs]
  | some state =>
    cases hv : validate_edits state.source_bytes.length 0 edits with
    | error msg =>
      rw [apply_text_edits_of_invalid x _ _ _ _ true _ hs hv,
        apply_text_edits_of_invalid x _ _ _ _ false _ hs hv]
      exact ⟨rfl, rfl, rfl⟩
    | ok v =>
      cases ho : find_overlap (x.sort_custom v) with
      | some pr =>
        obtain ⟨e1, e2⟩ := pr
        rw [apply_text_edits_of_overlap x _ _ _ _ true _ _ _ hs hv ho,
          apply_text_edits_of_overlap x _ _ _ _ false _ _ _ hs hv ho]
        exact ⟨rfl, rfl, rfl⟩
      | none =>
        cases hp : x.parse (apply_edits_to_bytes state.source_bytes (x.sort_custom v)) with
        | none =>
          rw [apply_text_edits_of_parse_failure x _ _ _ _ true _ hs hv ho hp,
            apply_text_edits_of_parse_failure x _ _ _ _ false _ hs hv ho hp]
          exact ⟨rfl, rfl, rfl⟩
        | some root =>
          rw [apply_text_edits_of_parsed x _ _ _ _ true _ _ hs hv ho hp,
            apply_text_edits_of_parsed x _ _ _ _ false _ _ hs hv ho hp]
          exact ⟨rfl, rfl, rfl⟩

theorem apply_text_edits_failure_keeps_store (x : Externals) (open_files : Store)
    (file_path : String) (edits : List EditDict) (dry_run : Bool)
    (h : (apply_text_edits x open_files file_path edits dry_run).1.success = false) :
    (apply_text_edits x open_files file_path edits dry_run).2 = open_files := by
  cases hs : open_files file_path with
  | none => simp [apply_text_edits, hs]
  | some state =>
    cases hv : validate_edits state.source_bytes.length 0 edits with
    | error msg => rw [apply_text_edits_of_invalid x _ _ _ _ _ _ hs hv]
    | ok v =>
      cases ho : find_overlap (x.sort_custom v) with
      | some pr =>
        obtain ⟨e1, e2⟩ := pr
        rw [apply_text_edits_of_overlap x _ _ _ _ _ _ _ _ hs hv ho]
      | none =>
        cases hp : x.parse (apply_edits_to_bytes state.source_bytes (x.sort_custom v)) with
        | none => rw [apply_text_edits_of_parse_failure x _ _ _ _ _ _ hs hv ho hp]
        | some root =>
          rw [apply_text_edits_of_parsed x _ _ _ _ _ _ _ hs hv ho hp] at h
          simp at h

theorem apply_and_map_result_fields (x : Externals) (open_files : Store)
    (file_path : String) (text_edits : List EditDict) (dry_run : Bool) :
    (apply_and_map_result x open_files file_path text_edits dry_run).1.success
        = (apply_text_edits x open_files file_path text_edits dry_run).1.success ∧
      (apply_and_map_result x open_files file_path text_edits dry_run).2
        = (apply_text_edits x open_files file_path text_edits dry_run).2 ∧
      ((apply_and_map_result x open_files file_path text_edits dry_run).1.success = true →
        (apply_and_map_result x open_files file_path text_edits dry_run).1.new_source
          = (apply_text_edits x open_files file_path text_edits dry_run).1.new_source) := by
  unfold apply_and_map_result
  cases h : (apply_text_edits x open_files file_path text_edits dry_run).1.success <;>
    simp [h, node_edit_failure]

theorem apply_translated_with_preview (x : Externals) (open_files : Store)
    (file_path : String) (text_edits : List EditDict) (dry_run : Bool) :
    ((apply_translated x open_files file_path text_edits dry_run true).1.success = false ↔
        ((apply_text_edits x open_files file_path text_edits true).1.success = false ∨
          (apply_text_edits x open_files file_path text_edits true).1.has_error = true)) ∧
      ((apply_translated x open_files file_path text_edits dry_run true).1.success = false →
        (apply_translated x open_files file_path text_edits dry_run true).2 = open_files) := by
  obtain ⟨hstore, hsucc, _⟩ := apply_text_edits_dry_run_eq x open_files file_path text_edits
  unfold apply_translated
  simp only [if_true]
  by_cases h1 : (apply_text_edits x open_files file_path text_edits true).1.success = false
  · simp [h1, hstore, node_edit_failure]
  · by_cases h2 : (apply_text_edits x open_files file_path text_edits true).1.has_error = true
    · simp [h1, h2, hstore, node_edit_failure]
    · have h1' : (apply_text_edits x open_files file_path text_edits true).1.success = true := by
        simpa using h1
      have hall : (apply_text_edits x open_files file_path text_edits dry_run).1.success
          = true := by
        cases dry_run with
        | true => exact h1'
        | false => rw [← hsucc]; exact h1'
      have h2' : (apply_text_edits x open_files file_path text_edits true).1.has_error
          = false := by
        simpa using h2
      obtain ⟨hf1, _, _⟩ :=
        apply_and_map_result_fields x open_files file_path text_edits dry_run
      simp [h1', h2', hstore, hf1, hall]

theorem apply_translated_new_source (x : Externals) (open_files : Store)
    (file_path : String) (text_edits : List EditDict) (dry_run fail_on_parse_error : Bool)
    (h : (apply_translated x open_files file_path text_edits dry_run
      fail_on_parse_error).1.success = true) :
    (apply_text_edits x open_files file_path text_edits dry_run).1.success = true ∧
      (apply_translated x open_files file_path text_edits dry_run
        fail_on_parse_error).1.new_source
        = (apply_text_edits x open_files file_path text_edits dry_run).1.new_source := by
  obtain ⟨hstore, _, _⟩ := apply_text_edits_dry_run_eq x open_files file_path text_edits
  obtain ⟨hf1, _, hf3⟩ :=
    apply_and_map_result_fields x open_files file_path text_edits dry_run
  unfold apply_translated at h ⊢
  cases fail_on_parse_error with
  | false =>
    simp only [Bool.false_eq_true, if_false] at h ⊢
    exact ⟨hf1 ▸ h, hf3 h⟩
  | true =>
    simp only [if_true] at h ⊢
    by_cases h1 : (apply_text_edits x open_files file_path text_edits true).1.success = false
    · simp [h1, node_edit_failure] at h
    · by_cases h2 : (apply_text_edits x open_files file_path text_edits true).1.has_error
          = true
      · simp [h1, h2, node_edit_failure] at h
      · simp only [h1, h2, if_false, hstore] at h ⊢
        exact ⟨hf1 ▸ h, hf3 h⟩

theorem apply_text_edits_single_new_source (x : Externals) (open_files : Store)
    (file_path : String) (state : FileState) (a old b t : String) (dry_run : Bool)
    (hsort : SortsByStart x.sort_custom)
    (hopen : open_files file_path = some state)
    (hbuf : state.source_bytes = utf8 (a ++ old ++ b))
    (hsize : state.source_bytes.length < 2147483648)
    (hsucc : (apply_text_edits x open_files file_path
      [{ start_byte := some ((utf8 a).length : Int),
         end_byte := some (((utf8 a).length + (utf8 old).length : Nat) : Int),
         new_text := some t }] dry_run).1.success = true) :
    (apply_text_edits x open_files file_path
      [{ start_byte := some ((utf8 a).length : Int),
         end_byte := some (((utf8 a).length + (utf8 old).length : Nat) : Int),
         new_text := some t }] dry_run).1.new_source = x.from_utf8 (utf8 (a ++ t ++ b)) := by
  have hlen : state.source_bytes.length
      = (utf8 a).length + (utf8 old).length + (utf8 b).length := by
    rw [hbuf, utf8_append, utf8_append, List.length_append, List.length_append]
  have hrange : ∀ e ∈ [(⟨((utf8 a).length : Int),
      (((utf8 a).length + (utf8 old).length : Nat) : Int), t⟩ : EditInfo)],
      e.in_range state.source_bytes.length := by
    intro e he
    simp only [List.mem_singleton] at he
    subst he
    refine ⟨Int.natCast_nonneg _, ?_, ?_, ?_⟩
    · exact Int.ofNat_le.mpr (Nat.le_add_right _ _)
    · exact Int.ofNat_le.mpr (by rw [hlen]; exact Nat.le_add_right _ _)
    · rw [hlen] at hsize
      show (((utf8 a).length + (utf8 old).length : Nat) : Int) < 2147483648
      omega
  have hval := validate_edits_map_toDict state.source_bytes.length _ hrange 0
  have hsorted := List.perm_singleton.mp (hsort.perm
    [(⟨((utf8 a).length : Int), (((utf8 a).length + (utf8 old).length : Nat) : Int), t⟩ :
      EditInfo)])
  have hov : find_overlap (x.sort_custom
      [(⟨((utf8 a).length : Int), (((utf8 a).length + (utf8 old).length : Nat) : Int), t⟩ :
        EditInfo)]) = none := by
    rw [hsorted]; rfl
  have hbytes : apply_edits_to_bytes state.source_bytes (x.sort_custom
      [(⟨((utf8 a).length : Int), (((utf8 a).length + (utf8 old).length : Nat) : Int), t⟩ :
        EditInfo)]) = utf8 (a ++ t ++ b) := by
    rw [hsorted, hbuf]
    simp only [apply_edits_to_bytes, List.foldr_cons, List.foldr_nil,
      apply_single_edit_to_bytes, utf8_append, Int.toNat_ofNat, List.append_assoc]
    rw [List.take_left' rfl, ← List.append_assoc (utf8 a) (utf8 old) (utf8 b),
      List.drop_left' (by simp)]
  have hdict : [(⟨some ((utf8 a).length : Int),
      some (((utf8 a).length + (utf8 old).length : Nat) : Int), some t⟩ : EditDict)] =
      [(⟨((utf8 a).length : Int), (((utf8 a).length + (utf8 old).length : Nat) : Int), t⟩ :
        EditInfo)].map EditInfo.toDict := rfl
  rw [hdict] at hsucc ⊢
  cases hp : x.parse (apply_edits_to_bytes state.source_bytes (x.sort_custom
      [(⟨((utf8 a).length : Int), (((utf8 a).length + (utf8 old).length : Nat) : Int), t⟩ :
        EditInfo)])) with
  | none =>
    rw [apply_text_edits_of_parse_failure x _ _ _ _ _ _ hopen hval hov hp] at hsucc
    simp at hsucc
  | some root =>
    rw [apply_text_edits_of_parsed x _ _ _ _ _ _ _ hopen hval hov hp, hbytes]

theorem translate_matches_single (source : String) (auto_indent : Bool) (m : MatchInfo) :
    translate_matches source auto_indent [m] =
      .ok [to_text_edit source (if auto_indent then auto_indent_match m else m)] := by
  cases auto_indent <;> simp [translate_matches, find_match_overlap]

theorem to_text_edit_of_split (a old b : String) (m : MatchInfo)
    (hstart : m.match_start = a.length) (hold : m.old_text = old) :
    to_text_edit (a ++ old ++ b) m =
      { start_byte := some ((utf8 a).length : Int),
        end_byte := some (((utf8 a).length + (utf8 old).length : Nat) : Int),
        new_text := some m.new_text } := by
  simp only [to_text_edit, hstart, hold, String.append_assoc, substr_append_left]

theorem auto_indent_match_of_indent (m : MatchInfo)
    (h : (leading_whitespace (first_line m.old_text)).length ≠ 0 ∧
      (leading_whitespace (first_line m.new_text)).length = 0) :
    auto_indent_match m =
      { m with
        new_text :=
          indent_lines (leading_whitespace (first_line m.old_text)) (split_newline m.new_text) }
    := by
  unfold auto_indent_match
  exact if_pos h

theorem auto_indent_match_of_no_indent (m : MatchInfo)
    (h : ¬ ((leading_whitespace (first_line m.old_text)).length ≠ 0 ∧
      (leading_whitespace (first_line m.new_text)).length = 0)) :
    auto_indent_match m = m := by
  unfold auto_indent_match
  exact if_neg h

theorem auto_indent_match_fields (m : MatchInfo) :
    (auto_indent_match m).match_start = m.match_start ∧
      (auto_indent_match m).old_text = m.old_text ∧
      (auto_indent_match m).match_end = m.match_end ∧
      (auto_indent_match m).edit_index = m.edit_index := by
  by_cases h : (leading_whitespace (first_line m.old_text)).length ≠ 0 ∧
      (leading_whitespace (first_line m.new_text)).length = 0
  · rw [auto_indent_match_of_indent m h]
    exact ⟨rfl, rfl, rfl, rfl⟩
  · rw [auto_indent_match_of_no_indent m h]
    exact ⟨rfl, rfl, rfl, rfl⟩

theorem find_match_overlap_of_pairwise (ms : List MatchInfo)
    (h : ms.Pairwise (fun a b =>
      ¬ (a.match_start < b.match_end ∧ b.match_start < a.match_end))) :
    find_match_overlap ms = none := by
  induction ms with
  | nil => rfl
  | cons m rest ih =>
    obtain ⟨h1, h2⟩ := List.pairwise_cons.mp h
    have hf : rest.find? (fun m2 => matches_overlap m m2) = none := by
      apply List.find?_eq_none.mpr
      intro b hb
      have := h1 b hb
      simpa [matches_overlap] using this
    simp [find_match_overlap, hf, ih h2]

theorem apply_text_edits_single_parsed (x : Externals) (open_files : Store)
    (file_path : String) (state : FileState) (a old b t : String) (dry_run : Bool)
    (root : TSNode)
    (hsort : SortsByStart x.sort_custom)
    (hopen : open_files file_path = some state)
    (hbuf : state.source_bytes = utf8 (a ++ old ++ b))
    (hsize : state.source_bytes.length < 2147483648)
    (hparse : x.parse (utf8 (a ++ t ++ b)) = some root) :
    (apply_text_edits x open_files file_path
        [{ start_byte := some ((utf8 a).length : Int),
           end_byte := some (((utf8 a).length + (utf8 old).length : Nat) : Int),
           new_text := some t }] dry_run).1.success = true ∧
      (apply_text_edits x open_files file_path
        [{ start_byte := some ((utf8 a).length : Int),
           end_byte := some (((utf8 a).length + (utf8 old).length : Nat) : Int),
           new_text := some t }] dry_run).1.has_error = ts_node_has_error root := by
  have hlen : state.source_bytes.length
      = (utf8 a).length + (utf8 old).length + (utf8 b).length := by
    rw [hbuf, utf8_append, utf8_append, List.length_append, List.length_append]
  have hrange : ∀ e ∈ [(⟨((utf8 a).length : Int),
      (((utf8 a).length + (utf8 old).length : Nat) : Int), t⟩ : EditInfo)],
      e.in_range state.source_bytes.length := by
    intro e he
    simp only [List.mem_singleton] at he
    subst he
    refine ⟨Int.natCast_nonneg _, ?_, ?_, ?_⟩
    · exact Int.ofNat_le.mpr (Nat.le_add_right _ _)
    · exact Int.ofNat_le.mpr (by rw [hlen]; exact Nat.le_add_right _ _)
    · rw [hlen] at hsize
      show (((utf8 a).length + (utf8 old).length : Nat) : Int) < 2147483648
      omega
  have hval := validate_edits_map_toDict state.source_bytes.length _ hrange 0
  have hsorted := List.perm_singleton.mp (hsort.perm
    [(⟨((utf8 a).length : Int), (((utf8 a).length + (utf8 old).length : Nat) : Int), t⟩ :
      EditInfo)])
  have hov : find_overlap (x.sort_custom
      [(⟨((utf8 a).length : Int), (((utf8 a).length + (utf8 old).length : Nat) : Int), t⟩ :
        EditInfo)]) = none := by
    rw [hsorted]; rfl
  have hbytes : apply_edits_to_bytes state.source_bytes (x.sort_custom
      [(⟨((utf8 a).length : Int), (((utf8 a).length + (utf8 old).length : Nat) : Int), t⟩ :
        EditInfo)]) = utf8 (a ++ t ++ b) := by
    rw [hsorted, hbuf]
    simp only [apply_edits_to_bytes, List.foldr_cons, List.foldr_nil,
      apply_single_edit_to_bytes, utf8_append, Int.toNat_ofNat, List.append_assoc]
    rw [List.take_left' rfl, ← List.append_assoc (utf8 a) (utf8 old) (utf8 b),
      List.drop_left' (by simp)]
  have hdict : [(⟨some ((utf8 a).length : Int),
      some (((utf8 a).length + (utf8 old).length : Nat) : Int), some t⟩ : EditDict)] =
      [(⟨((utf8 a).length : Int), (((utf8 a).length + (utf8 old).length : Nat) : Int), t⟩ :
        EditInfo)].map EditInfo.toDict := rfl
  rw [hdict]
  rw [← hbytes] at hparse
  rw [apply_text_edits_of_parsed x _ _ _ _ _ _ _ hopen hval hov hparse]
  exact ⟨rfl, rfl⟩

theorem apply_translated_single (x : Externals) (open_files : Store)
    (file_path : String) (state : FileState) (a old b t : String)
    (dry_run fail_on_parse_error : Bool)
    (hsort : SortsByStart x.sort_custom)
    (hopen : open_files file_path = some state)
    (hbuf : state.source_bytes = utf8 (a ++ old ++ b))
    (hsize : state.source_bytes.length < 2147483648)
    (hdecode : x.from_utf8 (utf8 (a ++ t ++ b)) = a ++ t ++ b) :
    ((apply_translated x open_files file_path
        [{ start_byte := some ((utf8 a).length : Int),
           end_byte := some (((utf8 a).length + (utf8 old).length : Nat) : Int),
           new_text := some t }] dry_run fail_on_parse_error).1.success = true →
      (apply_translated x open_files file_path
        [{ start_byte := some ((utf8 a).length : Int),
           end_byte := some (((utf8 a).length + (utf8 old).length : Nat) : Int),
           new_text := some t }] dry_run fail_on_parse_error).1.new_source = a ++ t ++ b) ∧
    (∀ root, x.parse (utf8 (a ++ t ++ b)) = some root →
      (fail_on_parse_error = false ∨ ts_node_has_error root = false) →
      (apply_translated x open_files file_path
        [{ start_byte := some ((utf8 a).length : Int),
           end_byte := some (((utf8 a).length + (utf8 old).length : Nat) : Int),
           new_text := some t }] dry_run fail_on_parse_error).1.success = true) := by
  constructor
  · intro h
    obtain ⟨h1, h2⟩ := apply_translated_new_source x open_files file_path _ dry_run
      fail_on_parse_error h
    rw [h2, apply_text_edits_single_new_source x open_files file_path state a old b t dry_run
      hsort hopen hbuf hsize h1, hdecode]
  · intro root hparse hcond
    obtain ⟨hs, _⟩ := apply_text_edits_single_parsed x open_files file_path state a old b t
      dry_run root hsort hopen hbuf hsize hparse
    obtain ⟨hps, hpe⟩ := apply_text_edits_single_parsed x open_files file_path state a old b t
      true root hsort hopen hbuf hsize hparse
    obtain ⟨hstore, _, _⟩ := apply_text_edits_dry_run_eq x open_files file_path
      [{ start_byte := some ((utf8 a).length : Int),
         end_byte := some (((utf8 a).length + (utf8 old).length : Nat) : Int),
         new_text := some t }]
    obtain ⟨hf1, _, _⟩ := apply_and_map_result_fields x open_files file_path
      [{ start_byte := some ((utf8 a).length : Int),
         end_byte := some (((utf8 a).length + (utf8 old).length : Nat) : Int),
         new_text := some t }] dry_run
    unfold apply_translated
    cases fail_on_parse_error with
    | false =>
      simp only [Bool.false_eq_true, if_false]
      rw [hf1, hs]
    | true =>
      have hne : ts_node_has_error root = false := by
        rcases hcond with h | h
        · exact absurd h (by simp)
        · exact h
      simp only [if_true, hps, hpe, hne, Bool.true_eq_false, Bool.false_eq_true, if_false,
        hstore]
      rw [hf1, hs]

theorem unique_match_resolves (q : TreeQueries) (source : String) (tree : Option TSNode)
    (old new : String) (node_kind : Option String) (p : Nat)
    (hunique : occurrence_positions source old = [p])
    (hkind : kind_check_passes q source tree old (node_kind.getD "") p) :
    resolve_edits q source tree 0
        [{ old_text := some old, new_text := some new, node_kind := node_kind }] =
      some (.ok [⟨0, p, p + old.length, old, new, node_kind.getD ""⟩]) :=
  resolve_edits_of_batch_resolves_to q source tree 0 _ _
    ⟨⟨rfl, rfl, rfl, rfl, hunique, rfl, hkind⟩, trivial⟩

/-! ## Claims on the node-edit layer, the tree walks, the diff and the validation -/

/-- C11: when the edits before index `i` resolve and the `old_text` of the edit at index `i`
occurs at `k ≥ 2` positions of the buffer text (overlapping occurrences included),
`apply_node_edits` returns `success = false` with the error naming the index `i` and the
number `k`, and the store is left as it was. -/
theorem apply_node_edits_rejects_ambiguous (x : Externals) (q : TreeQueries)
    (open_files : Store) (file_path : String) (state : FileState)
    (pre : List NodeEditDict) (ms : List MatchInfo) (old_text new_text : String)
    (node_kind : Option String) (rest : List NodeEditDict) (options : NodeEditOptions)
    (hopen : open_files file_path = some state)
    (hpre : batch_resolves_to q (x.from_utf8 state.source_bytes) state.tree 0 pre ms)
    (hk : 2 ≤ (occurrence_positions (x.from_utf8 state.source_bytes) old_text).length) :
    ∃ r, apply_node_edits x q open_files file_path
          (pre ++ { old_text := some old_text, new_text := some new_text,
                    node_kind := node_kind } :: rest) options = some (r, open_files) ∧
      r.success = false ∧
      r.error = "Edit #" ++ toString pre.length ++ ": old_text matches " ++
        toString (occurrence_positions (x.from_utf8 state.source_bytes) old_text).length ++
        " locations, must be unique" := by
  have hd := resolve_edit_of_ambiguous q (x.from_utf8 state.source_bytes) state.tree
    (0 + pre.length) old_text new_text node_kind hk
  have hres := resolve_edits_append_error q (x.from_utf8 state.source_bytes) state.tree 0 pre
    ms _ rest _ hpre hd
  rw [Nat.zero_add] at hres
  exact ⟨_, apply_node_edits_of_resolve_error x q open_files file_path state _ options _
    hopen hres, rfl, rfl⟩

/-- Witness for C11: in `"hello world"` the first edit resolves and the text `"o"` of the
second occurs twice. -/
theorem apply_node_edits_rejects_ambiguous_witness :
    ∃ r, apply_node_edits sample sample_queries sample_store "a.gd"
          ([⟨some "hello", some "HELLO", none⟩] ++
            { old_text := some "o", new_text := some "0", node_kind := none } ::
              [⟨some "l", none, none⟩]) default_options = some (r, sample_store) ∧
      r.success = false ∧
      r.error = "Edit #" ++
        toString [(⟨some "hello", some "HELLO", none⟩ : NodeEditDict)].length ++
        ": old_text matches " ++
        toString (occurrence_positions (sample.from_utf8 sample_state.source_bytes)
          "o").length ++
        " locations, must be unique" :=
  apply_node_edits_rejects_ambiguous sample sample_queries sample_store "a.gd" sample_state
    [⟨some "hello", some "HELLO", none⟩] [⟨0, 0, 5, "hello", "HELLO", ""⟩] "o" "0" none
    [⟨some "l", none, none⟩] default_options sample_store_open
    ⟨⟨rfl, rfl, rfl, rfl, by decide, rfl, Or.inl rfl⟩, trivial⟩ (by decide)

/-- C12: when every edit of a batch resolves to a unique match and the character spans of
the matches of two edits `i < j` overlap, `apply_node_edits` returns `success = false` with
an error naming the indices of a pair of edits whose spans overlap, and the store is left as
it was. -/
theorem apply_node_edits_rejects_overlapping_matches (x : Externals) (q : TreeQueries)
    (open_files : Store) (file_path : String) (state : FileState)
    (edits : List NodeEditDict) (ms : List MatchInfo) (options : NodeEditOptions)
    (i j : Nat) (mi mj : MatchInfo)
    (hopen : open_files file_path = some state)
    (hres : batch_resolves_to q (x.from_utf8 state.source_bytes) state.tree 0 edits ms)
    (hij : i < j) (hi : ms[i]? = some mi) (hj : ms[j]? = some mj)
    (hov : mi.match_start < mj.match_end ∧ mj.match_start < mi.match_end) :
    ∃ (r : EditResult) (a b : Nat) (ma mb : MatchInfo), apply_node_edits x q open_files file_path edits options
          = some (r, open_files) ∧
      r.success = false ∧ a < b ∧ ms[a]? = some ma ∧ ms[b]? = some mb ∧
      (ma.match_start < mb.match_end ∧ mb.match_start < ma.match_end) ∧
      r.error = "Edit #" ++ toString a ++ " and #" ++ toString b ++
        " have overlapping match ranges" := by
  have hresolve := resolve_edits_of_batch_resolves_to q _ _ 0 edits ms hres
  cases hf : find_match_overlap ms with
  | none =>
    exfalso
    have hpw := find_match_overlap_eq_none ms hf
    have hlt_i : i < ms.length := (List.getElem?_eq_some_iff.mp hi).1
    have hlt_j : j < ms.length := (List.getElem?_eq_some_iff.mp hj).1
    have hno := List.pairwise_iff_getElem.mp hpw i j hlt_i hlt_j hij
    have hgi : ms[i] = mi := (List.getElem?_eq_some_iff.mp hi).2
    have hgj : ms[j] = mj := (List.getElem?_eq_some_iff.mp hj).2
    rw [hgi, hgj] at hno
    simp [matches_overlap, hov.1, hov.2] at hno
  | some pr =>
    obtain ⟨m1, m2⟩ := pr
    obtain ⟨a, b, hab, ha, hb, hover⟩ := find_match_overlap_eq_some ms m1 m2 hf
    have htr : translate_matches (x.from_utf8 state.source_bytes)
        (options.auto_indent.getD true) ms = .error (match_overlap_error m1 m2) := by
      simp [translate_matches, hf]
    have ha_idx := batch_resolves_to_edit_index q _ _ 0 edits ms hres a m1 ha
    have hb_idx := batch_resolves_to_edit_index q _ _ 0 edits ms hres b m2 hb
    rw [Nat.zero_add] at ha_idx hb_idx
    refine ⟨_, a, b, m1, m2,
      apply_node_edits_of_translate_error x q open_files file_path state edits options ms _
        hopen hresolve htr, rfl, hab, ha, hb, ?_, ?_⟩
    · simpa [matches_overlap] using hover
    · simp [node_edit_failure, match_overlap_error, ha_idx, hb_idx]

/-- Witness for C12: in `"hello world"` the texts `"hello w"` and `"o wor"` match once each
and share two characters; an edit of `"ld"` stands between them in the batch. -/
theorem apply_node_edits_rejects_overlapping_matches_witness :
    ∃ (r : EditResult) (a b : Nat) (ma mb : MatchInfo), apply_node_edits sample sample_queries sample_store "a.gd"
          [⟨some "hello w", some "a", none⟩, ⟨some "ld", some "b", none⟩,
            ⟨some "o wor", some "c", none⟩] default_options = some (r, sample_store) ∧
      r.success = false ∧ a < b ∧
      [(⟨0, 0, 7, "hello w", "a", ""⟩ : MatchInfo), ⟨1, 9, 11, "ld", "b", ""⟩,
        ⟨2, 4, 9, "o wor", "c", ""⟩][a]? = some ma ∧
      [(⟨0, 0, 7, "hello w", "a", ""⟩ : MatchInfo), ⟨1, 9, 11, "ld", "b", ""⟩,
        ⟨2, 4, 9, "o wor", "c", ""⟩][b]? = some mb ∧
      (ma.match_start < mb.match_end ∧ mb.match_start < ma.match_end) ∧
      r.error = "Edit #" ++ toString a ++ " and #" ++ toString b ++
        " have overlapping match ranges" :=
  apply_node_edits_rejects_overlapping_matches sample sample_queries sample_store "a.gd"
    sample_state
    [⟨some "hello w", some "a", none⟩, ⟨some "ld", some "b", none⟩,
      ⟨some "o wor", some "c", none⟩]
    [⟨0, 0, 7, "hello w", "a", ""⟩, ⟨1, 9, 11, "ld", "b", ""⟩, ⟨2, 4, 9, "o wor", "c", ""⟩]
    default_options 0 2 ⟨0, 0, 7, "hello w", "a", ""⟩ ⟨2, 4, 9, "o wor", "c", ""⟩
    sample_store_open
    ⟨⟨rfl, rfl, rfl, rfl, by decide, rfl, Or.inl rfl⟩,
      ⟨rfl, rfl, rfl, rfl, by decide, rfl, Or.inl rfl⟩,
      ⟨rfl, rfl, rfl, rfl, by decide, rfl, Or.inl rfl⟩, trivial⟩
    (by decide) rfl rfl (by decide)

/-- C13, as stated, fails: for `old_text = "  a"` (indented by two spaces) and
`new_text = "b\nc"` the text applied is `"  b\n  c"`, with the first line prefixed as well,
and not `"b\n  c"`; the edit on the buffer `"x\n  a"` yields `"x\n  b\n  c"`. -/
theorem auto_indent_first_line_counterexample :
    leading_whitespace (first_line "  a") = "  " ∧
      leading_whitespace (first_line "b\nc") = "" ∧
      (auto_indent_match ⟨0, 2, 5, "  a", "b\nc", ""⟩).new_text = "  b\n  c" ∧
      indent_after_first_line "  " "b\nc" = "b\n  c" ∧
      (auto_indent_match ⟨0, 2, 5, "  a", "b\nc", ""⟩).new_text
        ≠ indent_after_first_line "  " "b\nc" ∧
      (apply_node_edits sample sample_queries
          (open_file sample empty_store "a.gd" "x\n  a").2 "a.gd"
          [⟨some "  a", some "b\nc", none⟩] default_options).map
          (fun r => (r.1.success, r.1.new_source)) = some (true, "x\n  b\n  c") := by
  decide

/-- C13, amended: with `auto_indent` enabled, for an edit whose `old_text` begins, on its
first line, with a non-empty run `w` of spaces and tabs and whose `new_text` has no leading
space or tab on its first line, the replacement handed to the applier is `new_text` with `w`
put before every non-empty line, the first line included, empty lines being left as they
are; the byte range of the edit is not affected. -/
theorem auto_indent_prefixes_every_line (source : String) (ms : List MatchInfo)
    (m : MatchInfo)
    (hno : find_match_overlap ms = none)
    (hbase : leading_whitespace (first_line m.old_text) ≠ "")
    (hnew : leading_whitespace (first_line m.new_text) = "") :
    translate_matches source true ms
        = .ok (ms.map (fun m => to_text_edit source (auto_indent_match m))) ∧
      (auto_indent_match m).new_text
        = indent_every_line (leading_whitespace (first_line m.old_text)) m.new_text ∧
      to_text_edit source (auto_indent_match m)
        = { to_text_edit source m with
            new_text :=
              some (indent_every_line (leading_whitespace (first_line m.old_text))
                m.new_text) } ∧
      join_newline (split_newline m.new_text) = m.new_text := by
  have hcond : (leading_whitespace (first_line m.old_text)).length ≠ 0 ∧
      (leading_whitespace (first_line m.new_text)).length = 0 :=
    ⟨fun h => hbase ((string_length_eq_zero_iff _).mp h), (string_length_eq_zero_iff _).mpr hnew⟩
  refine ⟨?_, ?_, ?_, join_newline_split_newline _⟩
  · simp [translate_matches, hno]
  · rw [auto_indent_match_of_indent m hcond]
    exact indent_lines_eq_join_newline _ _
  · rw [auto_indent_match_of_indent m hcond]
    simp only [to_text_edit, indent_lines_eq_join_newline, indent_every_line]

/-- Witness for C13 (amended): `old_text = "  a"`, `new_text = "b\n\nc"`. -/
theorem auto_indent_prefixes_every_line_witness :
    translate_matches "x\n  a" true [⟨0, 2, 5, "  a", "b\n\nc", ""⟩]
        = .ok ([(⟨0, 2, 5, "  a", "b\n\nc", ""⟩ : MatchInfo)].map
            (fun m => to_text_edit "x\n  a" (auto_indent_match m))) ∧
      (auto_indent_match ⟨0, 2, 5, "  a", "b\n\nc", ""⟩).new_text
        = indent_every_line
            (leading_whitespace (first_line (⟨0, 2, 5, "  a", "b\n\nc", ""⟩ : MatchInfo).old_text))
            (⟨0, 2, 5, "  a", "b\n\nc", ""⟩ : MatchInfo).new_text ∧
      to_text_edit "x\n  a" (auto_indent_match ⟨0, 2, 5, "  a", "b\n\nc", ""⟩)
        = { to_text_edit "x\n  a" ⟨0, 2, 5, "  a", "b\n\nc", ""⟩ with
            new_text :=
              some (indent_every_line
                (leading_whitespace
                  (first_line (⟨0, 2, 5, "  a", "b\n\nc", ""⟩ : MatchInfo).old_text))
                (⟨0, 2, 5, "  a", "b\n\nc", ""⟩ : MatchInfo).new_text) } ∧
      join_newline (split_newline (⟨0, 2, 5, "  a", "b\n\nc", ""⟩ : MatchInfo).new_text)
        = (⟨0, 2, 5, "  a", "b\n\nc", ""⟩ : MatchInfo).new_text :=
  auto_indent_prefixes_every_line "x\n  a" [⟨0, 2, 5, "  a", "b\n\nc", ""⟩]
    ⟨0, 2, 5, "  a", "b\n\nc", ""⟩ (by decide) (by decide) (by decide)

/-- C14, as stated, fails at its own witness: on the buffer `"    old_call()"` the edit of
`"old_call()"` to `"new_call()\nmore()"` with `auto_indent` on succeeds with the new source
`"    new_call()\nmore()"`, whose second line is `"more()"` and not `"    more()"`. -/
theorem indentation_of_buffer_line_counterexample :
    (apply_node_edits sample sample_queries
        (open_file sample empty_store "a.gd" "    old_call()").2 "a.gd"
        [⟨some "old_call()", some "new_call()\nmore()", none⟩]
        { dry_run := none, auto_indent := some true, fail_on_parse_error := none }).map
        (fun r => (r.1.success, split_newline r.1.new_source))
      = some (true, ["    new_call()", "more()"]) ∧
    (apply_node_edits sample sample_queries
        (open_file sample empty_store "a.gd" "    old_call()").2 "a.gd"
        [⟨some "old_call()", some "new_call()\nmore()", none⟩]
        { dry_run := none, auto_indent := some true, fail_on_parse_error := none }).map
        (fun r => (split_newline r.1.new_source)[1]?)
      ≠ some (some "    more()") := by
  decide

/-- C14, amended: when the unique occurrence of `old_text` in the buffer text is preceded by
any text `a` (in particular a whitespace run on its line) and `old_text` itself does not
begin with a space or tab, `apply_node_edits` with `auto_indent` on applies `new_text` as it
is: a successful call returns the buffer text with the occurrence replaced by `new_text`,
no line of which is prefixed, and the call succeeds whenever the parser yields a tree for
that text (without error flag if `fail_on_parse_error` is set). The buffer is shorter than
`2^31` bytes, so that its offsets are values of the `int` in which the code keeps them. -/
theorem apply_node_edits_without_own_indent (x : Externals) (q : TreeQueries)
    (open_files : Store) (file_path : String) (state : FileState) (a old b new : String)
    (options : NodeEditOptions)
    (hsort : SortsByStart x.sort_custom)
    (hopen : open_files file_path = some state)
    (hbuf : state.source_bytes = utf8 (a ++ old ++ b))
    (hsize : state.source_bytes.length < 2147483648)
    (hsource : x.from_utf8 (utf8 (a ++ old ++ b)) = a ++ old ++ b)
    (hresult : x.from_utf8 (utf8 (a ++ new ++ b)) = a ++ new ++ b)
    (hunique : occurrence_positions (a ++ old ++ b) old = [a.length])
    (hold : leading_whitespace (first_line old) = "")
    (hauto : options.auto_indent.getD true = true) :
    ∃ r s, apply_node_edits x q open_files file_path
          [{ old_text := some old, new_text := some new, node_kind := none }] options
          = some (r, s) ∧
      (r.success = true → r.new_source = a ++ new ++ b) ∧
      (∀ root, x.parse (utf8 (a ++ new ++ b)) = some root →
        (options.fail_on_parse_error.getD false = false ∨ ts_node_has_error root = false) →
        r.success = true) := by
  have hsrc : x.from_utf8 state.source_bytes = a ++ old ++ b := by rw [hbuf, hsource]
  have hres := unique_match_resolves q (a ++ old ++ b) state.tree old new none a.length
    hunique (Or.inl rfl)
  have hnoindent : auto_indent_match ⟨0, a.length, a.length + old.length, old, new, ""⟩
      = ⟨0, a.length, a.length + old.length, old, new, ""⟩ := by
    apply auto_indent_match_of_no_indent
    intro h
    exact h.1 ((string_length_eq_zero_iff _).mpr hold)
  have htr : translate_matches (a ++ old ++ b) (options.auto_indent.getD true)
      [⟨0, a.length, a.length + old.length, old, new, ""⟩] =
      .ok [{ start_byte := some ((utf8 a).length : Int),
             end_byte := some (((utf8 a).length + (utf8 old).length : Nat) : Int),
             new_text := some new }] := by
    rw [translate_matches_single, hauto]
    simp only [if_true, hnoindent]
    rw [to_text_edit_of_split a old b _ rfl rfl]
  rw [← hsrc] at hres htr
  have hcall := apply_node_edits_of_translated x q open_files file_path state _ options _ _
    hopen hres htr
  obtain ⟨h1, h2⟩ := apply_translated_single x open_files file_path state a old b new
    (options.dry_run.getD false) (options.fail_on_parse_error.getD false) hsort hopen hbuf
    hsize hresult
  exact ⟨_, _, hcall, h1, h2⟩

/-- Witness for C14 (amended): the buffer `"    old_call()"`. -/
theorem apply_node_edits_without_own_indent_witness :
    ∃ r s, apply_node_edits sample sample_queries
          (open_file sample empty_store "a.gd" "    old_call()").2 "a.gd"
          [{ old_text := some "old_call()", new_text := some "new_call()\nmore()",
             node_kind := none }] default_options = some (r, s) ∧
      (r.success = true → r.new_source = "    " ++ "new_call()\nmore()" ++ "") ∧
      (∀ root, sample.parse (utf8 ("    " ++ "new_call()\nmore()" ++ "")) = some root →
        (default_options.fail_on_parse_error.getD false = false ∨
          ts_node_has_error root = false) →
        r.success = true) :=
  apply_node_edits_without_own_indent sample sample_queries
    (open_file sample empty_store "a.gd" "    old_call()").2 "a.gd"
    { source_bytes := utf8 "    old_call()", tree := sample_parse (utf8 "    old_call()") }
    "    " "old_call()" "" "new_call()\nmore()" default_options sample_sort_sortsByStart rfl
    (by decide) (by decide) (by decide) (by decide) (by decide) (by decide) (by decide)

/-- C15: for a batch whose edits all resolve and whose matches do not overlap,
`apply_node_edits` with `fail_on_parse_error` set returns `success = false` exactly when the
dry-run preview of the translated batch fails or reports `has_error`, and in that case the
store is what it was, whatever the `dry_run` option. -/
theorem apply_node_edits_rollback (x : Externals) (q : TreeQueries) (open_files : Store)
    (file_path : String) (state : FileState) (edits : List NodeEditDict)
    (ms : List MatchInfo) (options : NodeEditOptions)
    (hopen : open_files file_path = some state)
    (hres : batch_resolves_to q (x.from_utf8 state.source_bytes) state.tree 0 edits ms)
    (hno : ms.Pairwise (fun a b =>
      ¬ (a.match_start < b.match_end ∧ b.match_start < a.match_end)))
    (hfail : options.fail_on_parse_error = some true) :
    ∃ r s, apply_node_edits x q open_files file_path edits options = some (r, s) ∧
      (r.success = false ↔
        ((apply_text_edits x open_files file_path
            ((if options.auto_indent.getD true then ms.map auto_indent_match else ms).map
              (to_text_edit (x.from_utf8 state.source_bytes))) true).1.success = false ∨
          (apply_text_edits x open_files file_path
            ((if options.auto_indent.getD true then ms.map auto_indent_match else ms).map
              (to_text_edit (x.from_utf8 state.source_bytes))) true).1.has_error = true)) ∧
      (r.success = false → s = open_files) := by
  have hresolve := resolve_edits_of_batch_resolves_to q _ _ 0 edits ms hres
  have htr : translate_matches (x.from_utf8 state.source_bytes)
      (options.auto_indent.getD true) ms =
      .ok ((if options.auto_indent.getD true then ms.map auto_indent_match else ms).map
        (to_text_edit (x.from_utf8 state.source_bytes))) := by
    simp [translate_matches, find_match_overlap_of_pairwise ms hno]
  have hcall := apply_node_edits_of_translated x q open_files file_path state edits options
    ms _ hopen hresolve htr
  rw [hfail] at hcall
  obtain ⟨h1, h2⟩ := apply_translated_with_preview x open_files file_path
    ((if options.auto_indent.getD true then ms.map auto_indent_match else ms).map
      (to_text_edit (x.from_utf8 state.source_bytes))) (options.dry_run.getD false)
  exact ⟨_, _, hcall, h1, h2⟩

/-- Witness for C15: on `"hello world"` the edit of `"world"` to `"w!"` gives a text for
which the sample engine reports an error. -/
theorem apply_node_edits_rollback_witness :
    ∃ r s, apply_node_edits sample sample_queries sample_store "a.gd"
          [⟨some "world", some "w!", none⟩]
          { dry_run := none, auto_indent := none, fail_on_parse_error := some true }
          = some (r, s) ∧
      (r.success = false ↔
        ((apply_text_edits sample sample_store "a.gd"
            ((if ({ dry_run := none, auto_indent := none,
                    fail_on_parse_error := some true } : NodeEditOptions).auto_indent.getD true
                then [(⟨0, 6, 11, "world", "w!", ""⟩ : MatchInfo)].map auto_indent_match
                else [⟨0, 6, 11, "world", "w!", ""⟩]).map
              (to_text_edit (sample.from_utf8 sample_state.source_bytes))) true).1.success
            = false ∨
          (apply_text_edits sample sample_store "a.gd"
            ((if ({ dry_run := none, auto_indent := none,
                    fail_on_parse_error := some true } : NodeEditOptions).auto_indent.getD true
                then [(⟨0, 6, 11, "world", "w!", ""⟩ : MatchInfo)].map auto_indent_match
                else [⟨0, 6, 11, "world", "w!", ""⟩]).map
              (to_text_edit (sample.from_utf8 sample_state.source_bytes))) true).1.has_error
            = true)) ∧
      (r.success = false → s = sample_store) :=
  apply_node_edits_rollback sample sample_queries sample_store "a.gd" sample_state
    [⟨some "world", some "w!", none⟩] [⟨0, 6, 11, "world", "w!", ""⟩]
    { dry_run := none, auto_indent := none, fail_on_parse_error := some true }
    sample_store_open ⟨⟨rfl, rfl, rfl, rfl, by decide, rfl, Or.inl rfl⟩, trivial⟩
    (by decide) rfl

/-- C16: for a buffer that is the UTF-8 encoding of a text `a ++ old ++ b` in which `old`
occurs only once, after `a`, the byte edit handed to the applier for the node edit of `old`
starts at the UTF-8 length of `a` and ends after the bytes of `old`, these bytes of the
buffer being the encoding of `old`; with `auto_indent` off a successful call returns the
text `a ++ new ++ b`, and the call succeeds whenever the parser yields a tree for that text
(without error flag if `fail_on_parse_error` is set). The decoder is assumed to read the two
texts back from their encodings, and the buffer is shorter than `2^31` bytes, so that its
offsets are values of the `int` in which the code keeps them. -/
theorem apply_node_edits_byte_translation (x : Externals) (q : TreeQueries)
    (open_files : Store) (file_path : String) (state : FileState) (a old b new : String)
    (node_kind : Option String) (options : NodeEditOptions)
    (hsort : SortsByStart x.sort_custom)
    (hopen : open_files file_path = some state)
    (hbuf : state.source_bytes = utf8 (a ++ old ++ b))
    (hsize : state.source_bytes.length < 2147483648)
    (hsource : x.from_utf8 (utf8 (a ++ old ++ b)) = a ++ old ++ b)
    (hresult : x.from_utf8 (utf8 (a ++ new ++ b)) = a ++ new ++ b)
    (hunique : occurrence_positions (a ++ old ++ b) old = [a.length])
    (hkind : kind_check_passes q (a ++ old ++ b) state.tree old (node_kind.getD "") a.length)
    (hauto : options.auto_indent = some false) :
    translate_matches (x.from_utf8 state.source_bytes) false
        [⟨0, a.length, a.length + old.length, old, new, node_kind.getD ""⟩] =
        .ok [{ start_byte := some ((utf8 a).length : Int),
               end_byte := some (((utf8 a).length + (utf8 old).length : Nat) : Int),
               new_text := some new }] ∧
      (state.source_bytes.drop (utf8 a).length).take (utf8 old).length = utf8 old ∧
      ∃ r s, apply_node_edits x q open_files file_path
            [{ old_text := some old, new_text := some new, node_kind := node_kind }] options
            = some (r, s) ∧
        (r.success = true → r.new_source = a ++ new ++ b) ∧
        (∀ root, x.parse (utf8 (a ++ new ++ b)) = some root →
          (options.fail_on_parse_error.getD false = false ∨ ts_node_has_error root = false) →
          r.success = true) := by
  have hsrc : x.from_utf8 state.source_bytes = a ++ old ++ b := by rw [hbuf, hsource]
  have hres := unique_match_resolves q (a ++ old ++ b) state.tree old new node_kind a.length
    hunique hkind
  have htr : translate_matches (a ++ old ++ b) false
      [⟨0, a.length, a.length + old.length, old, new, node_kind.getD ""⟩] =
      .ok [{ start_byte := some ((utf8 a).length : Int),
             end_byte := some (((utf8 a).length + (utf8 old).length : Nat) : Int),
             new_text := some new }] := by
    rw [translate_matches_single]
    simp only [Bool.false_eq_true, if_false]
    rw [to_text_edit_of_split a old b _ rfl rfl]
  have hslice : (state.source_bytes.drop (utf8 a).length).take (utf8 old).length
      = utf8 old := by
    rw [hbuf, utf8_append, utf8_append, List.append_assoc, List.drop_left' rfl,
      List.take_left' rfl]
  rw [← hsrc] at hres htr
  have htr2 : translate_matches (x.from_utf8 state.source_bytes)
      (options.auto_indent.getD true)
      [⟨0, a.length, a.length + old.length, old, new, node_kind.getD ""⟩] =
      .ok [{ start_byte := some ((utf8 a).length : Int),
             end_byte := some (((utf8 a).length + (utf8 old).length : Nat) : Int),
             new_text := some new }] := by
    rw [hauto]; exact htr
  have hcall := apply_node_edits_of_translated x q open_files file_path state _ options _ _
    hopen hres htr2
  obtain ⟨h1, h2⟩ := apply_translated_single x open_files file_path state a old b new
    (options.dry_run.getD false) (options.fail_on_parse_error.getD false) hsort hopen hbuf
    hsize hresult
  exact ⟨htr, hslice, _, _, hcall, h1, h2⟩

/-- Witness for C16: in `"é=1 # €"` the match of `"1"` is at character 2 and at byte 3; it is
replaced by a four-byte character. -/
theorem apply_node_edits_byte_translation_witness :
    translate_matches
        (sample_utf8.from_utf8
          (FileState.mk (utf8 "é=1 # €") (sample_parse (utf8 "é=1 # €"))).source_bytes) false
        [⟨0, "é=".length, "é=".length + "1".length, "1", "😀", (none : Option String).getD ""⟩]
        = .ok [{ start_byte := some ((utf8 "é=").length : Int),
                 end_byte := some (((utf8 "é=").length + (utf8 "1").length : Nat) : Int),
                 new_text := some "😀" }] ∧
      ((FileState.mk (utf8 "é=1 # €") (sample_parse (utf8 "é=1 # €"))).source_bytes.drop
          (utf8 "é=").length).take (utf8 "1").length = utf8 "1" ∧
      ∃ r s, apply_node_edits sample_utf8 sample_queries
            (open_file sample_utf8 empty_store "a.gd" "é=1 # €").2 "a.gd"
            [{ old_text := some "1", new_text := some "😀", node_kind := none }]
            { dry_run := none, auto_indent := some false, fail_on_parse_error := none }
            = some (r, s) ∧
        (r.success = true → r.new_source = "é=" ++ "😀" ++ " # €") ∧
        (∀ root, sample_utf8.parse (utf8 ("é=" ++ "😀" ++ " # €")) = some root →
          (({ dry_run := none, auto_indent := some false,
              fail_on_parse_error := none } : NodeEditOptions).fail_on_parse_error.getD false
              = false ∨ ts_node_has_error root = false) →
          r.success = true) :=
  apply_node_edits_byte_translation sample_utf8 sample_queries
    (open_file sample_utf8 empty_store "a.gd" "é=1 # €").2 "a.gd"
    (FileState.mk (utf8 "é=1 # €") (sample_parse (utf8 "é=1 # €")))
    "é=" "1" " # €" "😀" none
    { dry_run := none, auto_indent := some false, fail_on_parse_error := none }
    sample_sort_sortsByStart rfl (by decide) (by decide) (by decide) (by decide) (by decide)
    (Or.inl rfl) rfl

/-- C17: `generate_diff(x, x, name)` is the empty text for every text `x` and every display
name, whatever the diff library would print. -/
theorem generate_diff_same_text (x : Externals)
    (print_unified_format : List (List Nat) → List (List Nat) → List Nat)
    (text file_name : String) :
    generate_diff x print_unified_format text text file_name = "" := by
  simp [generate_diff]

/-- C18: `count_all_descendants` of a root is the number of nodes of the tree, the root
included, that is one plus the sum of the counts of its children, and this number is the
`node_count` of the parse report. -/
theorem count_all_descendants_eq_tree_size (root : TSNode) (file_path : String) :
    count_all_descendants root = (tree_nodes root).length ∧
      count_all_descendants root
        = 1 + ((ts_node_children root).map count_all_descendants).sum ∧
      tree_nodes root = root :: (ts_node_children root).flatMap tree_nodes ∧
      ∃ has_error error_count error_ranges,
        make_parse_result_dict file_path (some root)
          = .report file_path has_error (tree_nodes root).length error_count error_ranges := by
  refine ⟨count_all_descendants_eq_length root, ?_, tree_nodes_eq_cons root, ?_⟩
  · cases root with
    | mk k s e sp ep is_err is_miss he cs =>
      simp [count_all_descendants, ts_node_children, count_all_descendants_children_eq_sum]
  · rw [← count_all_descendants_eq_length]
    exact ⟨_, _, _, rfl⟩

/-- C19: `collect_error_nodes` of a root is the list, in document order (a node before the
nodes of its children, children from the first to the last), of the ranges of exactly the
nodes of the tree that are error or missing nodes, each with its own span; nodes below an
error node are visited like all others. -/
theorem collect_error_nodes_document_order (root : TSNode) :
    collect_error_nodes root =
        ((tree_nodes root).filter
          (fun n => ts_node_is_error n || ts_node_is_missing n)).map error_range_of ∧
      tree_nodes root = root :: (ts_node_children root).flatMap tree_nodes :=
  ⟨collect_error_nodes_eq root, tree_nodes_eq_cons root⟩

/-- C20: every entry of `errors` returned by `validate` has as `context` the line of the
source at index `start_row` (lines split at newlines), or the empty text when there is no
such line; `error_count` is the number of entries, and `valid` is false whenever
`error_count ≥ 1`. -/
theorem validate_context_and_count (x : Externals) (source_code : String) :
    (∀ entry ∈ (validate x source_code).errors,
      entry.context = ((split_newline source_code)[entry.start_row]?).getD "") ∧
    (validate x source_code).error_count = (validate x source_code).errors.length ∧
    (1 ≤ (validate x source_code).error_count → (validate x source_code).valid = false) := by
  unfold validate
  cases hp : x.parse (utf8 source_code) with
  | none => simp
  | some root =>
    cases he : ts_node_has_error root with
    | false => simp [he]
    | true =>
      simp only [he, if_true, validate_collect_errors_eq]
      refine ⟨?_, by simp, by simp⟩
      intro entry hentry
      simp only [List.nil_append, List.mem_map] at hentry
      obtain ⟨n, _, rfl⟩ := hentry
      exact validate_error_of_context source_code n

/-- Witness for C20: the sample engine flags `"x!y"`, a text of one line, with an ERROR root
starting in row 0. -/
theorem validate_context_and_count_witness :
    (∀ entry ∈ (validate sample "x!y").errors,
      entry.context = ((split_newline "x!y")[entry.start_row]?).getD "") ∧
    (validate sample "x!y").error_count = (validate sample "x!y").errors.length ∧
    (1 ≤ (validate sample "x!y").error_count → (validate sample "x!y").valid = false) :=
  validate_context_and_count sample "x!y"

/-! ## The node-kind check and the capture text -/

theorem resolve_edit_with_kind (q : TreeQueries) (source : String) (root : TSNode) (i : Nat)
    (old new kind : String) (p : Nat)
    (hkind : kind ≠ "")
    (hunique : occurrence_positions source old = [p]) :
    resolve_edit q source (some root) i
        { old_text := some old, new_text := some new, node_kind := some kind } =
      if kind_found kind
          (q.descendant_for_byte_range root (utf8 (substr source 0 p)).length
            ((utf8 (substr source 0 p)).length + (utf8 old).length - 1)) = true then
        some (.ok ⟨i, p, p + old.length, old, new, kind⟩)
      else
        some (.error ("Edit #" ++ toString i ++ ": matched text is inside '" ++
          ts_node_type (q.descendant_for_byte_range root (utf8 (substr source 0 p)).length
            ((utf8 (substr source 0 p)).length + (utf8 old).length - 1)).node ++
          "', expected '" ++ kind ++ "'")) := by
  have hfirst : find source old 0 = some p := by
    rw [find_zero_eq_head, hunique]; rfl
  have hsecond : find source old (p + 1) = none := by
    rw [find_eq_find_positions, hunique]
    simp
  have hlen : ¬ kind.length = 0 := fun h => hkind ((string_length_eq_zero_iff kind).mp h)
  simp only [resolve_edit, Option.getD_some, hfirst, hsecond, hlen, if_false]

theorem kind_found_iff (kind : String) (covering : NodePath) :
    kind_found kind covering = true ↔
      ∃ n ∈ covering.node :: covering.ancestors, ts_node_type n = kind := by
  simp [kind_found]

theorem capture_text_of_reversed (x : Externals) (source_bytes : List Nat)
    (start_byte end_byte : Nat)
    (hrev : end_byte < start_byte) (hstart : start_byte < source_bytes.length)
    (hsize : source_bytes.length < 2 ^ 32) :
    capture_text x source_bytes start_byte end_byte = none := by
  have h232 : (2 : Nat) ^ 32 = 4294967296 := by norm_num
  rw [h232] at hsize
  have hguard : start_byte < source_bytes.length ∧ end_byte ≤ source_bytes.length := by omega
  have hlen : (end_byte + 4294967296 - start_byte) % 4294967296
      = end_byte + 4294967296 - start_byte := by omega
  simp only [capture_text, hguard, and_self, if_true, h232, hlen, read_buffer]
  rw [if_neg (by omega)]
  rfl

theorem capture_text_of_ordered (x : Externals) (source_bytes : List Nat)
    (start_byte end_byte : Nat)
    (hempty : x.from_utf8 [] = "")
    (horder : start_byte ≤ end_byte) (hend : end_byte ≤ source_bytes.length)
    (hsize : source_bytes.length < 2 ^ 32) :
    capture_text x source_bytes start_byte end_byte =
      some (x.from_utf8 ((source_bytes.drop start_byte).take (end_byte - start_byte))) := by
  have h232 : (2 : Nat) ^ 32 = 4294967296 := by norm_num
  rw [h232] at hsize
  by_cases hlt : start_byte < source_bytes.length
  · have hguard : start_byte < source_bytes.length ∧ end_byte ≤ source_bytes.length :=
      ⟨hlt, hend⟩
    have hlen : (end_byte + 4294967296 - start_byte) % 4294967296
        = end_byte - start_byte := by omega
    simp only [capture_text, hguard, and_self, if_true, h232, hlen, read_buffer]
    rw [if_pos (by omega)]
    rfl
  · have hzero : end_byte - start_byte = 0 := by omega
    simp [capture_text, hlt, hzero, hempty]

theorem capture_text_of_outside (x : Externals) (source_bytes : List Nat)
    (start_byte end_byte : Nat)
    (hout : source_bytes.length ≤ start_byte ∨ source_bytes.length < end_byte) :
    capture_text x source_bytes start_byte end_byte = some "" := by
  have hguard : ¬ (start_byte < source_bytes.length ∧ end_byte ≤ source_bytes.length) := by
    omega
  simp [capture_text, hguard]

/-! ## Batches given in another order -/

theorem validate_edits_cons_error (n i : Nat) (d : EditDict) (ds : List EditDict)
    (msg : String) (h : validate_edit n i d = .error msg) :
    validate_edits n i (d :: ds) = .error msg := by
  simp [validate_edits, h]

theorem validate_edits_map_toDict_of_invalid (n : Nat) (es : List EditInfo) (i : Nat)
    (hfit : ∀ e ∈ es, e.fits_int)
    (h : ∃ e ∈ es, ¬ e.in_range n) :
    ∃ msg, validate_edits n i (es.map EditInfo.toDict) = .error msg := by
  induction es generalizing i with
  | nil => simp at h
  | cons e es ih =>
    by_cases he : e.in_range n
    · have hrest : ∃ e' ∈ es, ¬ e'.in_range n := by
        obtain ⟨b, hb, hbad⟩ := h
        rcases List.mem_cons.mp hb with rfl | hb
        · exact absurd he hbad
        · exact ⟨b, hb, hbad⟩
      obtain ⟨msg, hmsg⟩ := ih (i + 1) (fun e' he' => hfit e' (List.mem_cons_of_mem _ he'))
        hrest
      exact ⟨msg, by simp [validate_edits, validate_edit_toDict_of_in_range n i e he, hmsg]⟩
    · have hfe := hfit e (List.mem_cons_self _ _)
      have hbad : e.start_byte < 0 ∨ e.end_byte < 0 ∨ e.start_byte > e.end_byte ∨
          e.end_byte > (n : Int) := by
        unfold EditInfo.in_range at he
        unfold EditInfo.fits_int at hfe
        omega
      exact ⟨_, validate_edits_cons_error n i e.toDict _ _
        (validate_edit_toDict_of_not_in_range n i e hfe hbad)⟩

theorem sort_custom_eq_of_perm_of_distinct (sort : List EditInfo → List EditInfo)
    (hsort : SortsByStart sort) (es1 es2 : List EditInfo) (hperm : es1.Perm es2)
    (hdistinct : es1.Pairwise (fun a b => a.start_byte ≠ b.start_byte)) :
    sort es1 = sort es2 := by
  have hp : (sort es2).Perm es1 := (hsort.perm es2).trans hperm.symm
  have hne : (sort es2).Pairwise (fun a b => a.start_byte ≠ b.start_byte) :=
    (hp.pairwise_iff (fun {u v} (h : u.start_byte ≠ v.start_byte) => h.symm)).mpr hdistinct
  have hlt : (sort es2).Pairwise (fun a b => a.start_byte < b.start_byte) :=
    ((hsort.sorted es2).and hne).imp (fun h => lt_of_le_of_ne h.1 h.2)
  exact sort_custom_eq_of_strictly_sorted sort hsort es1 (sort es2) hp hlt

/-- When the overlap check passes on the sorted batch and no edit with an empty range shares
its start with another edit, the starts of the batch are pairwise distinct. -/
theorem distinct_starts_of_no_overlap (sort : List EditInfo → List EditInfo)
    (hsort : SortsByStart sort) (es : List EditInfo)
    (hrange : ∀ e ∈ es, e.start_byte ≤ e.end_byte)
    (hties : es.Pairwise (fun a b => a.start_byte = b.start_byte →
      a.start_byte ≠ a.end_byte ∧ b.start_byte ≠ b.end_byte))
    (hnone : find_overlap (sort es) = none) :
    es.Pairwise (fun a b => a.start_byte ≠ b.start_byte) := by
  have hperm := hsort.perm es
  have hr : ∀ e ∈ sort es, e.start_byte ≤ e.end_byte :=
    fun e he => hrange e (hperm.mem_iff.mp he)
  have hpw := pairwise_disjoint_of_chain (sort es) hr ((find_overlap_eq_none_iff _).mp hnone)
  have hsymm : ∀ {a b : EditInfo},
      (a.start_byte = b.start_byte → a.start_byte ≠ a.end_byte ∧ b.start_byte ≠ b.end_byte) →
      (b.start_byte = a.start_byte → b.start_byte ≠ b.end_byte ∧ a.start_byte ≠ a.end_byte) :=
    fun h heq => (h heq.symm).symm
  have hties2 := (hperm.pairwise_iff hsymm).mpr hties
  have hne : (sort es).Pairwise (fun a b => a.start_byte ≠ b.start_byte) :=
    (hpw.and hties2).imp_of_mem (fun {a b} ha _ hab heq => by
      have h1 := hr a ha
      have h2 := (hab.2 heq).1
      have h3 := hab.1
      omega)
  have hsymm2 : ∀ {a b : EditInfo}, a.start_byte ≠ b.start_byte →
      b.start_byte ≠ a.start_byte := fun h => h.symm
  exact (hperm.pairwise_iff hsymm2).mp hne

/-! ## The translated batch is valid -/

theorem utf8_encode_char_length_pos (c : Char) : 0 < (utf8_encode_char c).length := by
  unfold utf8_encode_char
  simp only []
  split_ifs <;> simp

theorem utf8_chars_length_pos (l : List Char) (h : l ≠ []) :
    0 < (l.flatMap utf8_encode_char).length := by
  cases l with
  | nil => exact absurd rfl h
  | cons c cs =>
    have := utf8_encode_char_length_pos c
    simp only [List.flatMap_cons, List.length_append]
    omega

theorem utf8_substr_mono (s : String) (n k : Nat) (h : n ≤ k) :
    (utf8 (substr s 0 n)).length ≤ (utf8 (substr s 0 k)).length := by
  have hsplit : (s.data.take k) = (s.data.take k).take n ++ (s.data.take k).drop n :=
    (List.take_append_drop n _).symm
  have htake : (s.data.take k).take n = s.data.take n := by
    rw [List.take_take, Nat.min_eq_left h]
  simp only [utf8, substr, List.drop_zero]
  rw [hsplit, htake, List.flatMap_append, List.length_append]
  omega

theorem utf8_substr_le (s : String) (n : Nat) :
    (utf8 (substr s 0 n)).length ≤ (utf8 s).length := by
  have hsplit : s.data = s.data.take n ++ s.data.drop n := (List.take_append_drop n _).symm
  simp only [utf8, substr, List.drop_zero]
  conv_rhs => rw [hsplit, List.flatMap_append, List.length_append]
  omega

theorem find_loop_some (what l : List Char) (i p : Nat) (h : find_loop what l i = some p) :
    ∃ k, p = i + k ∧ starts_with (l.drop k) what = true := by
  induction l generalizing i with
  | nil => simp [find_loop] at h
  | cons c cs ih =>
    by_cases hs : starts_with (c :: cs) what = true
    · simp only [find_loop, hs, if_true, Option.some.injEq] at h
      exact ⟨0, by omega, by simpa using hs⟩
    · simp only [find_loop, hs, Bool.false_eq_true, if_false] at h
      obtain ⟨k, hk, hst⟩ := ih (i + 1) h
      exact ⟨k + 1, by omega, by simpa using hst⟩

/-- A position returned by `find` from the start: the text is made of as many characters as
the position says, the non-empty `what`, and a rest. -/
theorem find_zero_some (s what : String) (p : Nat) (h : find s what 0 = some p) :
    what.data ≠ [] ∧ (s.data.take (p + what.length)).drop p = what.data := by
  unfold find at h
  by_cases hw : what.length = 0 ∨ s.length = 0
  · simp [hw] at h
  · simp only [hw, if_false, List.drop_zero] at h
    obtain ⟨k, hk, hst⟩ := find_loop_some what.data s.data 0 p h
    have hpk : k = p := by omega
    subst hpk
    have hne : what.data ≠ [] := by
      intro h0
      exact hw (Or.inl (by simp [String.length, h0]))
    refine ⟨hne, ?_⟩
    have heq := starts_with_eq_true _ _ hst
    rw [List.drop_take]
    have hlen : k + what.length - k = what.data.length := by
      have hl : what.length = what.data.length := rfl
      omega
    rw [hlen, heq, List.take_left]

theorem resolve_edit_ok_matched (q : TreeQueries) (source : String) (tree : Option TSNode)
    (i : Nat) (d : NodeEditDict) (m : MatchInfo)
    (h : resolve_edit q source tree i d = some (.ok m)) : m.matched source := by
  unfold resolve_edit at h
  cases hold : d.old_text with
  | none => simp [hold] at h
  | some old_text =>
    cases hnew : d.new_text with
    | none => simp [hold, hnew] at h
    | some new_text =>
      cases hfirst : find source old_text 0 with
      | none => simp [hold, hnew, hfirst] at h
      | some p =>
        obtain ⟨hne, hread⟩ := find_zero_some source old_text p hfirst
        cases hsecond : find source old_text (p + 1) with
        | some p2 => simp [hold, hnew, hfirst, hsecond] at h
        | none =>
          have hm : m = ⟨i, p, p + old_text.length, old_text, new_text, d.node_kind.getD ""⟩ := by
            simp only [hold, hnew, hfirst, hsecond] at h
            split at h
            · simpa using h.symm
            · split at h
              · simp at h
              · split at h
                · simpa using h.symm
                · simp at h
          subst hm
          exact ⟨hne, hread, rfl⟩

theorem resolve_edits_ok_matched (q : TreeQueries) (source : String) (tree : Option TSNode)
    (i : Nat) (edits : List NodeEditDict) (ms : List MatchInfo)
    (h : resolve_edits q source tree i edits = some (.ok ms)) :
    ∀ m ∈ ms, m.matched source := by
  induction edits generalizing i ms with
  | nil =>
    simp only [resolve_edits, Option.some.injEq, Except.ok.injEq] at h
    subst h
    intro m hm
    simp at hm
  | cons d ds ih =>
    unfold resolve_edits at h
    cases hd : resolve_edit q source tree i d with
    | none => simp [hd] at h
    | some r =>
      cases r with
      | error msg => simp [hd] at h
      | ok m0 =>
        cases hrest : resolve_edits q source tree (i + 1) ds with
        | none => simp [hd, hrest] at h
        | some r2 =>
          cases r2 with
          | error msg => simp [hd, hrest] at h
          | ok ms0 =>
            simp only [hd, hrest, Option.some.injEq, Except.ok.injEq] at h
            subst h
            intro m hm
            rcases List.mem_cons.mp hm with rfl | hm
            · exact resolve_edit_ok_matched q source tree i d _ hd
            · exact ih (i + 1) ms0 hrest m hm

/-- The end of the byte range of a matched span is the byte offset of `match_end`. -/
theorem matched_end_byte (source : String) (m : MatchInfo) (h : m.matched source) :
    (utf8 (substr source 0 m.match_start)).length + (utf8 m.old_text).length
      = (utf8 (substr source 0 m.match_end)).length := by
  obtain ⟨_, hread, hend⟩ := h
  rw [hend]
  have hsplit : source.data.take (m.match_start + m.old_text.length)
      = (source.data.take (m.match_start + m.old_text.length)).take m.match_start
        ++ (source.data.take (m.match_start + m.old_text.length)).drop m.match_start :=
    (List.take_append_drop _ _).symm
  have htake : (source.data.take (m.match_start + m.old_text.length)).take m.match_start
      = source.data.take m.match_start := by
    rw [List.take_take, Nat.min_eq_left (Nat.le_add_right _ _)]
  rw [htake, hread] at hsplit
  simp only [utf8, substr, List.drop_zero]
  rw [hsplit, List.flatMap_append, List.length_append]

theorem matched_bytes (source : String) (m : MatchInfo) (h : m.matched source)
    (hsize : (utf8 source).length < 2147483648) :
    (to_edit_info source m).start_byte = ((utf8 (substr source 0 m.match_start)).length : Int) ∧
      (to_edit_info source m).end_byte = ((utf8 (substr source 0 m.match_end)).length : Int) ∧
      (to_edit_info source m).start_byte < (to_edit_info source m).end_byte ∧
      (to_edit_info source m).in_range (utf8 source).length := by
  have hend := matched_end_byte source m h
  have hpos : 0 < (utf8 m.old_text).length := utf8_chars_length_pos _ h.1
  have hle := utf8_substr_le source m.match_end
  refine ⟨rfl, ?_, ?_, ?_⟩
  · show (((utf8 (substr source 0 m.match_start)).length + (utf8 m.old_text).length : Nat)
      : Int) = _
    rw [hend]
  · show ((utf8 (substr source 0 m.match_start)).length : Int)
      < (((utf8 (substr source 0 m.match_start)).length + (utf8 m.old_text).length : Nat) : Int)
    omega
  · show 0 ≤ ((utf8 (substr source 0 m.match_start)).length : Int) ∧
      ((utf8 (substr source 0 m.match_start)).length : Int)
        ≤ (((utf8 (substr source 0 m.match_start)).length + (utf8 m.old_text).length : Nat)
          : Int) ∧
      (((utf8 (substr source 0 m.match_start)).length + (utf8 m.old_text).length : Nat) : Int)
        ≤ ((utf8 source).length : Int) ∧
      (((utf8 (substr source 0 m.match_start)).length + (utf8 m.old_text).length : Nat) : Int)
        < 2147483648
    omega

theorem matched_disjoint (source : String) (a b : MatchInfo) (ha : a.matched source)
    (hb : b.matched source) (hno : matches_overlap a b = false) :
    (to_edit_info source a).disjoint (to_edit_info source b) := by
  have hsa : (to_edit_info source a).start_byte
      = ((utf8 (substr source 0 a.match_start)).length : Int) := rfl
  have hsb : (to_edit_info source b).start_byte
      = ((utf8 (substr source 0 b.match_start)).length : Int) := rfl
  have hea : (to_edit_info source a).end_byte
      = ((utf8 (substr source 0 a.match_end)).length : Int) := by
    show (((utf8 (substr source 0 a.match_start)).length + (utf8 a.old_text).length : Nat)
      : Int) = _
    rw [matched_end_byte source a ha]
  have heb : (to_edit_info source b).end_byte
      = ((utf8 (substr source 0 b.match_end)).length : Int) := by
    show (((utf8 (substr source 0 b.match_start)).length + (utf8 b.old_text).length : Nat)
      : Int) = _
    rw [matched_end_byte source b hb]
  have hcases : a.match_end ≤ b.match_start ∨ b.match_end ≤ a.match_start := by
    simp only [matches_overlap, Bool.and_eq_false_imp, decide_eq_true_eq,
      decide_eq_false_iff_not, not_lt] at hno
    by_cases h1 : a.match_start < b.match_end
    · exact Or.inl (hno h1)
    · exact Or.inr (by omega)
  unfold EditInfo.disjoint
  rcases hcases with h | h
  · left
    rw [hea, hsb]
    exact_mod_cast utf8_substr_mono source _ _ h
  · right
    rw [heb, hsa]
    exact_mod_cast utf8_substr_mono source _ _ h

theorem auto_indent_matched (source : String) (m : MatchInfo) (h : m.matched source) :
    (auto_indent_match m).matched source := by
  obtain ⟨hs, ho, he, _⟩ := auto_indent_match_fields m
  unfold MatchInfo.matched
  rw [hs, ho, he]
  exact h

theorem auto_indent_overlap (a b : MatchInfo) :
    matches_overlap (auto_indent_match a) (auto_indent_match b) = matches_overlap a b := by
  obtain ⟨hsa, _, hea, _⟩ := auto_indent_match_fields a
  obtain ⟨hsb, _, heb, _⟩ := auto_indent_match_fields b
  simp only [matches_overlap, hsa, hea, hsb, heb]

theorem to_text_edit_eq_toDict (source : String) (m : MatchInfo) :
    to_text_edit source m = (to_edit_info source m).toDict := rfl

theorem translate_matches_eq_translated_batch (source : String) (auto_indent : Bool)
    (ms : List MatchInfo) (hno : find_match_overlap ms = none) :
    translate_matches source auto_indent ms
      = .ok ((translated_batch source auto_indent ms).map EditInfo.toDict) := by
  simp only [translate_matches, hno, translated_batch, List.map_map]
  congr 1

/-- The matches that are translated: the resolved ones, or their indented versions; they are
matched spans and no two of them overlap. -/
theorem translated_batch_valid (source : String) (auto_indent : Bool) (ms : List MatchInfo)
    (hm : ∀ m ∈ ms, m.matched source) (hno : find_match_overlap ms = none)
    (hsize : (utf8 source).length < 2147483648) :
    (∀ e ∈ translated_batch source auto_indent ms,
        e.start_byte < e.end_byte ∧ e.in_range (utf8 source).length) ∧
      (translated_batch source auto_indent ms).Pairwise EditInfo.disjoint := by
  have hpair := find_match_overlap_eq_none ms hno
  have key : ∀ ms1 : List MatchInfo, (∀ m ∈ ms1, m.matched source) →
      ms1.Pairwise (fun a b => matches_overlap a b = false) →
      (∀ e ∈ ms1.map (to_edit_info source),
          e.start_byte < e.end_byte ∧ e.in_range (utf8 source).length) ∧
        (ms1.map (to_edit_info source)).Pairwise EditInfo.disjoint := by
    intro ms1 hm1 hp1
    constructor
    · intro e he
      obtain ⟨m, hmem, rfl⟩ := List.mem_map.mp he
      obtain ⟨_, _, hlt, hin⟩ := matched_bytes source m (hm1 m hmem) hsize
      exact ⟨hlt, hin⟩
    · rw [List.pairwise_map]
      exact hp1.imp_of_mem (fun {a b} ha hb hab =>
        matched_disjoint source a b (hm1 a ha) (hm1 b hb) hab)
  cases auto_indent with
  | false => exact key ms hm hpair
  | true =>
    have hm2 : ∀ m ∈ ms.map auto_indent_match, m.matched source := by
      intro m hmem
      obtain ⟨m0, hm0, rfl⟩ := List.mem_map.mp hmem
      exact auto_indent_matched source m0 (hm m0 hm0)
    have hp2 : (ms.map auto_indent_match).Pairwise (fun a b => matches_overlap a b = false) := by
      rw [List.pairwise_map]
      exact hpair.imp (fun {a b} hab => by rw [auto_indent_overlap]; exact hab)
    exact key _ hm2 hp2

theorem find_overlap_sorted_of_disjoint (sort : List EditInfo → List EditInfo)
    (hsort : SortsByStart sort) (v : List EditInfo)
    (hne : ∀ e ∈ v, e.start_byte < e.end_byte) (hdis : v.Pairwise EditInfo.disjoint) :
    find_overlap (sort v) = none := by
  have hperm := hsort.perm v
  have hsymm : ∀ {a b : EditInfo}, a.disjoint b → b.disjoint a := fun h => Or.symm h
  have hdis2 : (sort v).Pairwise EditInfo.disjoint := (hperm.pairwise_iff hsymm).mpr hdis
  have hboth := (hsort.sorted v).and hdis2
  have hchain : (sort v).Pairwise (fun a b => a.end_byte ≤ b.start_byte) :=
    hboth.imp_of_mem (fun {a b} _ hb hab => by
      have hlt := hne b (hperm.mem_iff.mp hb)
      obtain ⟨hle, hd⟩ := hab
      unfold EditInfo.disjoint at hd
      rcases hd with hd | hd
      · exact hd
      · omega)
  exact (find_overlap_eq_none_iff _).mpr hchain.chain'

/-! ## Claims on the node-kind check, the capture text and the batch order -/

/-- C21: in a session with a tree, for an edit with a non-empty expected kind whose
`old_text` occurs exactly once, resolution accepts the edit exactly when a node of that kind
is on the chain from the located covering node, this node included, up to the root; when
there is none, `apply_node_edits` returns `success = false` with the error naming the index,
the kind of the located node and the expected kind, and the store is left as it was. -/
theorem apply_node_edits_node_kind_check (x : Externals) (q : TreeQueries)
    (open_files : Store) (file_path : String) (state : FileState) (root : TSNode)
    (pre : List NodeEditDict) (ms : List MatchInfo) (old new kind : String) (p : Nat)
    (rest : List NodeEditDict) (options : NodeEditOptions)
    (hopen : open_files file_path = some state)
    (htree : state.tree = some root)
    (hpre : batch_resolves_to q (x.from_utf8 state.source_bytes) state.tree 0 pre ms)
    (hkind : kind ≠ "")
    (hunique : occurrence_positions (x.from_utf8 state.source_bytes) old = [p]) :
    (resolve_edit q (x.from_utf8 state.source_bytes) state.tree pre.length
        { old_text := some old, new_text := some new, node_kind := some kind }
        = some (.ok ⟨pre.length, p, p + old.length, old, new, kind⟩) ↔
      ∃ n ∈ (q.descendant_for_byte_range root
            (utf8 (substr (x.from_utf8 state.source_bytes) 0 p)).length
            ((utf8 (substr (x.from_utf8 state.source_bytes) 0 p)).length +
              (utf8 old).length - 1)).node ::
          (q.descendant_for_byte_range root
            (utf8 (substr (x.from_utf8 state.source_bytes) 0 p)).length
            ((utf8 (substr (x.from_utf8 state.source_bytes) 0 p)).length +
              (utf8 old).length - 1)).ancestors,
        ts_node_type n = kind) ∧
    ((∀ n ∈ (q.descendant_for_byte_range root
            (utf8 (substr (x.from_utf8 state.source_bytes) 0 p)).length
            ((utf8 (substr (x.from_utf8 state.source_bytes) 0 p)).length +
              (utf8 old).length - 1)).node ::
          (q.descendant_for_byte_range root
            (utf8 (substr (x.from_utf8 state.source_bytes) 0 p)).length
            ((utf8 (substr (x.from_utf8 state.source_bytes) 0 p)).length +
              (utf8 old).length - 1)).ancestors,
        ts_node_type n ≠ kind) →
      ∃ r, apply_node_edits x q open_files file_path
            (pre ++ { old_text := some old, new_text := some new, node_kind := some kind } ::
              rest) options = some (r, open_files) ∧
        r.success = false ∧
        r.error = "Edit #" ++ toString pre.length ++ ": matched text is inside '" ++
          ts_node_type (q.descendant_for_byte_range root
            (utf8 (substr (x.from_utf8 state.source_bytes) 0 p)).length
            ((utf8 (substr (x.from_utf8 state.source_bytes) 0 p)).length +
              (utf8 old).length - 1)).node ++
          "', expected '" ++ kind ++ "'") := by
  have hresolve := resolve_edit_with_kind q (x.from_utf8 state.source_bytes) root pre.length
    old new kind p hkind hunique
  rw [← htree] at hresolve
  constructor
  · rw [hresolve, ← kind_found_iff]
    constructor
    · intro h
      by_contra hnot
      rw [if_neg hnot] at h
      simp at h
    · intro h
      rw [if_pos h]
  · intro hnone
    have hnot : ¬ kind_found kind (q.descendant_for_byte_range root
        (utf8 (substr (x.from_utf8 state.source_bytes) 0 p)).length
        ((utf8 (substr (x.from_utf8 state.source_bytes) 0 p)).length +
          (utf8 old).length - 1)) = true := by
      rw [kind_found_iff]
      rintro ⟨n, hn, hk⟩
      exact hnone n hn hk
    rw [if_neg hnot] at hresolve
    have hd : resolve_edit q (x.from_utf8 state.source_bytes) state.tree (0 + pre.length)
        { old_text := some old, new_text := some new, node_kind := some kind } =
        some (.error ("Edit #" ++ toString pre.length ++ ": matched text is inside '" ++
          ts_node_type (q.descendant_for_byte_range root
            (utf8 (substr (x.from_utf8 state.source_bytes) 0 p)).length
            ((utf8 (substr (x.from_utf8 state.source_bytes) 0 p)).length +
              (utf8 old).length - 1)).node ++
          "', expected '" ++ kind ++ "'")) := by
      rw [Nat.zero_add]; exact hresolve
    have hres := resolve_edits_append_error q (x.from_utf8 state.source_bytes) state.tree 0
      pre ms _ rest _ hpre hd
    exact ⟨_, apply_node_edits_of_resolve_error x q open_files file_path state _ options _
      hopen hres, rfl, rfl⟩

/-- Witness for C21: on `"hello world"`, whose tree is a single `source` node, the edit of
`"world"` with the expected kind `function_definition`. -/
theorem apply_node_edits_node_kind_check_witness :
    (resolve_edit sample_queries (sample.from_utf8 sample_state.source_bytes)
        sample_state.tree ([] : List NodeEditDict).length
        { old_text := some "world", new_text := some "moon",
          node_kind := some "function_definition" }
        = some (.ok ⟨([] : List NodeEditDict).length, 6, 6 + "world".length, "world", "moon",
            "function_definition"⟩) ↔
      ∃ n ∈ (sample_queries.descendant_for_byte_range (flat_root 11 false)
            (utf8 (substr (sample.from_utf8 sample_state.source_bytes) 0 6)).length
            ((utf8 (substr (sample.from_utf8 sample_state.source_bytes) 0 6)).length +
              (utf8 "world").length - 1)).node ::
          (sample_queries.descendant_for_byte_range (flat_root 11 false)
            (utf8 (substr (sample.from_utf8 sample_state.source_bytes) 0 6)).length
            ((utf8 (substr (sample.from_utf8 sample_state.source_bytes) 0 6)).length +
              (utf8 "world").length - 1)).ancestors,
        ts_node_type n = "function_definition") ∧
    ((∀ n ∈ (sample_queries.descendant_for_byte_range (flat_root 11 false)
            (utf8 (substr (sample.from_utf8 sample_state.source_bytes) 0 6)).length
            ((utf8 (substr (sample.from_utf8 sample_state.source_bytes) 0 6)).length +
              (utf8 "world").length - 1)).node ::
          (sample_queries.descendant_for_byte_range (flat_root 11 false)
            (utf8 (substr (sample.from_utf8 sample_state.source_bytes) 0 6)).length
            ((utf8 (substr (sample.from_utf8 sample_state.source_bytes) 0 6)).length +
              (utf8 "world").length - 1)).ancestors,
        ts_node_type n ≠ "function_definition") →
      ∃ r, apply_node_edits sample sample_queries sample_store "a.gd"
            (([] : List NodeEditDict) ++
              { old_text := some "world", new_text := some "moon",
                node_kind := some "function_definition" } :: []) default_options
            = some (r, sample_store) ∧
        r.success = false ∧
        r.error = "Edit #" ++ toString ([] : List NodeEditDict).length ++
          ": matched text is inside '" ++
          ts_node_type (sample_queries.descendant_for_byte_range (flat_root 11 false)
            (utf8 (substr (sample.from_utf8 sample_state.source_bytes) 0 6)).length
            ((utf8 (substr (sample.from_utf8 sample_state.source_bytes) 0 6)).length +
              (utf8 "world").length - 1)).node ++
          "', expected '" ++ "function_definition" ++ "'") :=
  apply_node_edits_node_kind_check sample sample_queries sample_store "a.gd" sample_state
    (flat_root 11 false) [] [] "world" "moon" "function_definition" 6 [] default_options
    sample_store_open rfl trivial (by decide) (by decide)

/-- C22, as stated, fails for a span with `end < start`: for the capture span `(5, 3)` on the
eleven bytes of `"hello world"` the guard of `query` lets the read pass with a length of
`2^32 - 2` bytes, so that the text is asked for from outside the buffer and no result with an
empty text is produced. -/
theorem capture_text_reversed_span_reads_outside :
    (3 + 2 ^ 32 - 5) % 2 ^ 32 = 4294967294 ∧
      read_buffer (utf8 "hello world") 5 4294967294 = none ∧
      capture_text sample (utf8 "hello world") 5 3 = none ∧
      capture_text sample (utf8 "hello world") 5 3 ≠ some "" ∧
      query sample (one_capture 5 3) sample_store "a.gd" "(identifier) @x" = none := by
  decide

/-- C22, amended: for every buffer of length `n` and every capture span `(s, e)` of 32-bit
offsets with `s ≤ e`, inside the buffer or not, the capture text is the decoding of
`buffer[s:e]` when `e ≤ n` and the empty text otherwise, and the bytes read for it lie inside
the buffer. The decoder is assumed to give the empty text for no bytes. -/
theorem capture_text_of_ordered_span (x : Externals) (source_bytes : List Nat)
    (start_byte end_byte : Nat)
    (hempty : x.from_utf8 [] = "")
    (horder : start_byte ≤ end_byte)
    (huint : end_byte < 2 ^ 32) :
    capture_text x source_bytes start_byte end_byte =
      some (if end_byte ≤ source_bytes.length then
        x.from_utf8 ((source_bytes.drop start_byte).take (end_byte - start_byte))
      else "") ∧
      (start_byte < source_bytes.length ∧ end_byte ≤ source_bytes.length →
        read_buffer source_bytes start_byte ((end_byte + 2 ^ 32 - start_byte) % 2 ^ 32)
          = some ((source_bytes.drop start_byte).take (end_byte - start_byte))) := by
  have h232 : (2 : Nat) ^ 32 = 4294967296 := by norm_num
  rw [h232] at huint
  have hlen : (end_byte + 4294967296 - start_byte) % 4294967296
      = end_byte - start_byte := by omega
  constructor
  · by_cases hend : end_byte ≤ source_bytes.length
    · rw [if_pos hend]
      by_cases hlt : start_byte < source_bytes.length
      · have hguard : start_byte < source_bytes.length ∧ end_byte ≤ source_bytes.length :=
          ⟨hlt, hend⟩
        simp only [capture_text, hguard, and_self, if_true, h232, hlen, read_buffer]
        rw [if_pos (by omega)]
        rfl
      · have hzero : end_byte - start_byte = 0 := by omega
        simp [capture_text, hlt, hzero, hempty]
    · rw [if_neg hend]
      simp [capture_text, hend]
  · intro hguard
    simp only [h232, hlen, read_buffer]
    rw [if_pos (by omega)]

/-- Witness for C22 (amended): the span `(3, 5)` of `"hello world"`. -/
theorem capture_text_of_ordered_span_witness :
    capture_text sample (utf8 "hello world") 3 5 =
      some (if 5 ≤ (utf8 "hello world").length then
        sample.from_utf8 (((utf8 "hello world").drop 3).take (5 - 3))
      else "") ∧
      (3 < (utf8 "hello world").length ∧ 5 ≤ (utf8 "hello world").length →
        read_buffer (utf8 "hello world") 3 ((5 + 2 ^ 32 - 3) % 2 ^ 32)
          = some (((utf8 "hello world").drop 3).take (5 - 3))) :=
  capture_text_of_ordered_span sample (utf8 "hello world") 3 5 (by decide) (by decide)
    (by decide)

/-- C23: in the tree of `a+b` the text `a+` is matched once, at the bytes `[0, 2)`; the node
located with the range `0 .. 2 - 1` is the identifier `a`, which ends at byte 1 and does not
contain the match, whereas the smallest node containing `[0, 2)` is the `binary_operator`;
the edit of `a+` with the expected kind `identifier` is accepted. -/
theorem covering_node_stops_short_of_match_end :
    occurrence_positions "a+b" "a+" = [0] ∧
      to_edit_info "a+b" ⟨0, 0, 2, "a+", "c*", "identifier"⟩ = ⟨0, 2, "c*"⟩ ∧
      ts_node_type (tree_sitter_queries.descendant_for_byte_range tree_a_plus_b 0 (2 - 1)).node
        = "identifier" ∧
      ts_node_end_byte (tree_sitter_queries.descendant_for_byte_range tree_a_plus_b 0
        (2 - 1)).node = 1 ∧
      ts_node_type (tree_sitter_queries.descendant_for_byte_range tree_a_plus_b 0 2).node
        = "binary_operator" ∧
      (apply_node_edits sample_gd tree_sitter_queries
          (open_file sample_gd empty_store "a.gd" "a+b").2 "a.gd"
          [⟨some "a+", some "c*", some "identifier"⟩] default_options).map
          (fun r => (r.1.success, r.1.new_source)) = some (true, "c*b") := by
  decide

/-- C24, as stated, fails when an edit with an empty range shares its start with another
edit: on `"hello world"` the two insertions at
offset 5 give `"helloab world"` in one order and `"helloba world"` in the other, and the
batch of `[5,5)` and `[5,8)` succeeds in this order and is rejected as overlapping in the
other, for the insertion sort of Godot as for the sample sort. -/
theorem apply_text_edits_depends_on_order_of_ties :
    (apply_text_edits sample_insertion sample_store "a.gd"
        [⟨some 5, some 5, some "a"⟩, ⟨some 5, some 5, some "b"⟩] false).1.new_source
        = "helloab world" ∧
      (apply_text_edits sample_insertion sample_store "a.gd"
        [⟨some 5, some 5, some "b"⟩, ⟨some 5, some 5, some "a"⟩] false).1.new_source
        = "helloba world" ∧
      (apply_text_edits sample_insertion sample_store "a.gd"
        [⟨some 5, some 5, some "a"⟩, ⟨some 5, some 8, some "b"⟩] false).1.success = true ∧
      (apply_text_edits sample_insertion sample_store "a.gd"
        [⟨some 5, some 8, some "b"⟩, ⟨some 5, some 5, some "a"⟩] false).1.success = false ∧
      (apply_text_edits sample sample_store "a.gd"
        [⟨some 5, some 5, some "a"⟩, ⟨some 5, some 5, some "b"⟩] false).1.new_source
        ≠ (apply_text_edits sample sample_store "a.gd"
            [⟨some 5, some 5, some "b"⟩, ⟨some 5, some 5, some "a"⟩] false).1.new_source ∧
      (apply_text_edits sample sample_store "a.gd"
        [⟨some 5, some 5, some "a"⟩, ⟨some 5, some 8, some "b"⟩] false).1.success
        ≠ (apply_text_edits sample sample_store "a.gd"
            [⟨some 5, some 8, some "b"⟩, ⟨some 5, some 5, some "a"⟩] false).1.success ∧
      [(⟨5, 5, "a"⟩ : EditInfo), ⟨5, 8, "b"⟩].Perm [⟨5, 8, "b"⟩, ⟨5, 5, "a"⟩] := by
  decide

/-- C24, amended: for two batches that are permutations of one another, whose offsets fit a
32-bit signed integer and in which no edit with an empty range shares its `start_byte` with
another edit, `apply_text_edits` returns the same `success` and the same `new_source` (also
the same `has_error`, `error_count` and `edits_applied`). -/
theorem apply_text_edits_order_independent (x : Externals) (open_files : Store)
    (file_path : String) (es1 es2 : List EditInfo) (dry_run : Bool)
    (hsort : SortsByStart x.sort_custom)
    (hperm : es1.Perm es2)
    (hfit : ∀ e ∈ es1, e.fits_int)
    (hties : es1.Pairwise (fun a b => a.start_byte = b.start_byte →
      a.start_byte ≠ a.end_byte ∧ b.start_byte ≠ b.end_byte)) :
    (apply_text_edits x open_files file_path (es1.map EditInfo.toDict) dry_run).1.success
        = (apply_text_edits x open_files file_path
            (es2.map EditInfo.toDict) dry_run).1.success ∧
      (apply_text_edits x open_files file_path (es1.map EditInfo.toDict) dry_run).1.new_source
        = (apply_text_edits x open_files file_path
            (es2.map EditInfo.toDict) dry_run).1.new_source ∧
      (apply_text_edits x open_files file_path (es1.map EditInfo.toDict) dry_run).1.has_error
        = (apply_text_edits x open_files file_path
            (es2.map EditInfo.toDict) dry_run).1.has_error ∧
      (apply_text_edits x open_files file_path (es1.map EditInfo.toDict) dry_run).1.error_count
        = (apply_text_edits x open_files file_path
            (es2.map EditInfo.toDict) dry_run).1.error_count ∧
      (apply_text_edits x open_files file_path
          (es1.map EditInfo.toDict) dry_run).1.edits_applied
        = (apply_text_edits x open_files file_path
            (es2.map EditInfo.toDict) dry_run).1.edits_applied := by
  cases hs : open_files file_path with
  | none => simp [apply_text_edits, hs]
  | some state =>
    by_cases hall : ∀ e ∈ es1, e.in_range state.source_bytes.length
    · have hall2 : ∀ e ∈ es2, e.in_range state.source_bytes.length :=
        fun e he => hall e (hperm.mem_iff.mpr he)
      have hv1 := validate_edits_map_toDict state.source_bytes.length es1 hall 0
      have hv2 := validate_edits_map_toDict state.source_bytes.length es2 hall2 0
      have hlen : es1.length = es2.length := hperm.length_eq
      have hsymm : ∀ {a b : EditInfo},
          (a.start_byte = b.start_byte →
            a.start_byte ≠ a.end_byte ∧ b.start_byte ≠ b.end_byte) →
          (b.start_byte = a.start_byte →
            b.start_byte ≠ b.end_byte ∧ a.start_byte ≠ a.end_byte) :=
        fun h heq => (h heq.symm).symm
      have hties2 := (hperm.pairwise_iff hsymm).mp hties
      have hsymm2 : ∀ {a b : EditInfo}, a.start_byte ≠ b.start_byte →
          b.start_byte ≠ a.start_byte := fun h => h.symm
      by_cases hdistinct : es1.Pairwise (fun a b => a.start_byte ≠ b.start_byte)
      · have hsorted := sort_custom_eq_of_perm_of_distinct x.sort_custom hsort es1 es2 hperm
          hdistinct
        cases ho : find_overlap (x.sort_custom es1) with
        | some pr =>
          obtain ⟨e1, e2⟩ := pr
          have ho2 : find_overlap (x.sort_custom es2) = some (e1, e2) := by
            rw [← hsorted]; exact ho
          rw [apply_text_edits_of_overlap x _ _ _ _ _ _ _ _ hs hv1 ho,
            apply_text_edits_of_overlap x _ _ _ _ _ _ _ _ hs hv2 ho2]
          exact ⟨rfl, rfl, rfl, rfl, rfl⟩
        | none =>
          have ho2 : find_overlap (x.sort_custom es2) = none := by rw [← hsorted]; exact ho
          cases hp : x.parse (apply_edits_to_bytes state.source_bytes (x.sort_custom es1)) with
          | none =>
            have hp2 : x.parse (apply_edits_to_bytes state.source_bytes (x.sort_custom es2))
                = none := by rw [← hsorted]; exact hp
            rw [apply_text_edits_of_parse_failure x _ _ _ _ _ _ hs hv1 ho hp,
              apply_text_edits_of_parse_failure x _ _ _ _ _ _ hs hv2 ho2 hp2, hsorted]
            exact ⟨rfl, rfl, rfl, rfl, rfl⟩
          | some root =>
            have hp2 : x.parse (apply_edits_to_bytes state.source_bytes (x.sort_custom es2))
                = some root := by rw [← hsorted]; exact hp
            rw [apply_text_edits_of_parsed x _ _ _ _ _ _ _ hs hv1 ho hp,
              apply_text_edits_of_parsed x _ _ _ _ _ _ _ hs hv2 ho2 hp2, hsorted]
            simp [hlen]
      · cases ho : find_overlap (x.sort_custom es1) with
        | none =>
          exact absurd (distinct_starts_of_no_overlap x.sort_custom hsort es1
            (fun e he => (hall e he).2.1) hties ho) hdistinct
        | some pr =>
          obtain ⟨e1, e2⟩ := pr
          cases ho2 : find_overlap (x.sort_custom es2) with
          | none =>
            have hd2 := distinct_starts_of_no_overlap x.sort_custom hsort es2
              (fun e he => (hall2 e he).2.1) hties2 ho2
            exact absurd ((hperm.pairwise_iff hsymm2).mpr hd2) hdistinct
          | some pr2 =>
            obtain ⟨e3, e4⟩ := pr2
            rw [apply_text_edits_of_overlap x _ _ _ _ _ _ _ _ hs hv1 ho,
              apply_text_edits_of_overlap x _ _ _ _ _ _ _ _ hs hv2 ho2]
            exact ⟨rfl, rfl, rfl, rfl, rfl⟩
    · have hbad1 : ∃ e ∈ es1, ¬ e.in_range state.source_bytes.length := by
        by_contra hno
        exact hall (fun e he => by
          by_contra hne
          exact hno ⟨e, he, hne⟩)
      have hbad2 : ∃ e ∈ es2, ¬ e.in_range state.source_bytes.length := by
        obtain ⟨e, he, hne⟩ := hbad1
        exact ⟨e, hperm.mem_iff.mp he, hne⟩
      have hfit2 : ∀ e ∈ es2, e.fits_int := fun e he => hfit e (hperm.mem_iff.mpr he)
      obtain ⟨msg1, hv1⟩ :=
        validate_edits_map_toDict_of_invalid state.source_bytes.length es1 0 hfit hbad1
      obtain ⟨msg2, hv2⟩ :=
        validate_edits_map_toDict_of_invalid state.source_bytes.length es2 0 hfit2 hbad2
      rw [apply_text_edits_of_invalid x _ _ _ _ _ _ hs hv1,
        apply_text_edits_of_invalid x _ _ _ _ _ _ hs hv2]
      exact ⟨rfl, rfl, rfl, rfl, rfl⟩

/-- Witness for C24 (amended): four edits on `"hello world"` in two orders, two of them
non-empty edits that start at byte 5. -/
theorem apply_text_edits_order_independent_witness :
    (apply_text_edits sample sample_store "a.gd"
        ([⟨5, 8, "__"⟩, ⟨0, 5, "HELLO"⟩, ⟨5, 9, "--"⟩, ⟨11, 11, "?"⟩].map EditInfo.toDict)
        false).1.success
        = (apply_text_edits sample sample_store "a.gd"
            ([⟨11, 11, "?"⟩, ⟨5, 9, "--"⟩, ⟨5, 8, "__"⟩, ⟨0, 5, "HELLO"⟩].map EditInfo.toDict)
            false).1.success ∧
      (apply_text_edits sample sample_store "a.gd"
        ([⟨5, 8, "__"⟩, ⟨0, 5, "HELLO"⟩, ⟨5, 9, "--"⟩, ⟨11, 11, "?"⟩].map EditInfo.toDict)
        false).1.new_source
        = (apply_text_edits sample sample_store "a.gd"
            ([⟨11, 11, "?"⟩, ⟨5, 9, "--"⟩, ⟨5, 8, "__"⟩, ⟨0, 5, "HELLO"⟩].map EditInfo.toDict)
            false).1.new_source ∧
      (apply_text_edits sample sample_store "a.gd"
        ([⟨5, 8, "__"⟩, ⟨0, 5, "HELLO"⟩, ⟨5, 9, "--"⟩, ⟨11, 11, "?"⟩].map EditInfo.toDict)
        false).1.has_error
        = (apply_text_edits sample sample_store "a.gd"
            ([⟨11, 11, "?"⟩, ⟨5, 9, "--"⟩, ⟨5, 8, "__"⟩, ⟨0, 5, "HELLO"⟩].map EditInfo.toDict)
            false).1.has_error ∧
      (apply_text_edits sample sample_store "a.gd"
        ([⟨5, 8, "__"⟩, ⟨0, 5, "HELLO"⟩, ⟨5, 9, "--"⟩, ⟨11, 11, "?"⟩].map EditInfo.toDict)
        false).1.error_count
        = (apply_text_edits sample sample_store "a.gd"
            ([⟨11, 11, "?"⟩, ⟨5, 9, "--"⟩, ⟨5, 8, "__"⟩, ⟨0, 5, "HELLO"⟩].map EditInfo.toDict)
            false).1.error_count ∧
      (apply_text_edits sample sample_store "a.gd"
        ([⟨5, 8, "__"⟩, ⟨0, 5, "HELLO"⟩, ⟨5, 9, "--"⟩, ⟨11, 11, "?"⟩].map EditInfo.toDict)
        false).1.edits_applied
        = (apply_text_edits sample sample_store "a.gd"
            ([⟨11, 11, "?"⟩, ⟨5, 9, "--"⟩, ⟨5, 8, "__"⟩, ⟨0, 5, "HELLO"⟩].map EditInfo.toDict)
            false).1.edits_applied :=
  apply_text_edits_order_independent sample sample_store "a.gd"
    [⟨5, 8, "__"⟩, ⟨0, 5, "HELLO"⟩, ⟨5, 9, "--"⟩, ⟨11, 11, "?"⟩]
    [⟨11, 11, "?"⟩, ⟨5, 9, "--"⟩, ⟨5, 8, "__"⟩, ⟨0, 5, "HELLO"⟩] false sample_sort_sortsByStart
    (by decide) (by decide) (by decide)

/-- C25: for a session whose buffer is the UTF-8 encoding of its decoded source and is
shorter than `2^31` bytes (so that its offsets are values of the `int` in which the code
keeps them), and a batch of node edits that passes resolution, the node-kind checks and the
pairwise overlap check, `apply_node_edits` hands the applier the translated batch; every edit
of it satisfies `0 ≤ start_byte ≤ end_byte ≤ buffer length`, the edits are pairwise disjoint,
the range validation of `apply_text_edits` accepts the batch, its overlap check finds nothing
after sorting, and so `apply_text_edits` succeeds or fails only with the parse-failure
error. -/
theorem apply_node_edits_hands_over_valid_batch (x : Externals) (q : TreeQueries)
    (open_files : Store) (file_path : String) (state : FileState)
    (edits : List NodeEditDict) (options : NodeEditOptions) (ms : List MatchInfo)
    (hsort : SortsByStart x.sort_custom)
    (hopen : open_files file_path = some state)
    (hbuf : utf8 (x.from_utf8 state.source_bytes) = state.source_bytes)
    (hsize : state.source_bytes.length < 2147483648)
    (hres : resolve_edits q (x.from_utf8 state.source_bytes) state.tree 0 edits
      = some (.ok ms))
    (hno : find_match_overlap ms = none) :
    apply_node_edits x q open_files file_path edits options
        = some (apply_translated x open_files file_path
            ((translated_batch (x.from_utf8 state.source_bytes)
              (options.auto_indent.getD true) ms).map EditInfo.toDict)
            (options.dry_run.getD false) (options.fail_on_parse_error.getD false)) ∧
      (∀ e ∈ translated_batch (x.from_utf8 state.source_bytes)
          (options.auto_indent.getD true) ms,
        0 ≤ e.start_byte ∧ e.start_byte ≤ e.end_byte ∧
          e.end_byte ≤ (state.source_bytes.length : Int)) ∧
      (translated_batch (x.from_utf8 state.source_bytes)
        (options.auto_indent.getD true) ms).Pairwise
          (fun a b => a.end_byte ≤ b.start_byte ∨ b.end_byte ≤ a.start_byte) ∧
      validate_edits state.source_bytes.length 0
          ((translated_batch (x.from_utf8 state.source_bytes)
            (options.auto_indent.getD true) ms).map EditInfo.toDict)
        = .ok (translated_batch (x.from_utf8 state.source_bytes)
            (options.auto_indent.getD true) ms) ∧
      find_overlap (x.sort_custom (translated_batch (x.from_utf8 state.source_bytes)
        (options.auto_indent.getD true) ms)) = none ∧
      ∀ dry_run : Bool,
        (apply_text_edits x open_files file_path
            ((translated_batch (x.from_utf8 state.source_bytes)
              (options.auto_indent.getD true) ms).map EditInfo.toDict) dry_run).1.success
          = true ∨
        (apply_text_edits x open_files file_path
            ((translated_batch (x.from_utf8 state.source_bytes)
              (options.auto_indent.getD true) ms).map EditInfo.toDict) dry_run).1.error
          = "Failed to parse after edits" := by
  have hm := resolve_edits_ok_matched q _ state.tree 0 edits ms hres
  obtain ⟨hrange, hdis⟩ := translated_batch_valid (x.from_utf8 state.source_bytes)
    (options.auto_indent.getD true) ms hm hno (by rw [hbuf]; exact hsize)
  rw [hbuf] at hrange
  have htr := translate_matches_eq_translated_batch (x.from_utf8 state.source_bytes)
    (options.auto_indent.getD true) ms hno
  have hval := validate_edits_map_toDict state.source_bytes.length
    (translated_batch (x.from_utf8 state.source_bytes) (options.auto_indent.getD true) ms)
    (fun e he => (hrange e he).2) 0
  have hov := find_overlap_sorted_of_disjoint x.sort_custom hsort
    (translated_batch (x.from_utf8 state.source_bytes) (options.auto_indent.getD true) ms)
    (fun e he => (hrange e he).1) hdis
  refine ⟨apply_node_edits_of_translated x q open_files file_path state edits options ms _
    hopen hres htr, fun e he => ⟨(hrange e he).2.1, (hrange e he).2.2.1,
      (hrange e he).2.2.2.1⟩, hdis, hval, hov, ?_⟩
  intro dry_run
  cases hp : x.parse (apply_edits_to_bytes state.source_bytes
      (x.sort_custom (translated_batch (x.from_utf8 state.source_bytes)
        (options.auto_indent.getD true) ms))) with
  | none =>
    right
    rw [apply_text_edits_of_parse_failure x _ _ _ _ _ _ hopen hval hov hp]
  | some root =>
    left
    rw [apply_text_edits_of_parsed x _ _ _ _ _ _ _ hopen hval hov hp]

/-- Witness for C25: `"hello"` and `"world"` are replaced in the buffer `"hello world"`. -/
theorem apply_node_edits_hands_over_valid_batch_witness :
    apply_node_edits sample sample_queries sample_store "a.gd"
        [⟨some "world", some "moon", none⟩, ⟨some "hello", some "HELLO", none⟩]
        default_options
        = some (apply_translated sample sample_store "a.gd"
            ((translated_batch (sample.from_utf8 sample_state.source_bytes)
              (default_options.auto_indent.getD true)
              [⟨0, 6, 11, "world", "moon", ""⟩, ⟨1, 0, 5, "hello", "HELLO", ""⟩]).map
                EditInfo.toDict)
            (default_options.dry_run.getD false)
            (default_options.fail_on_parse_error.getD false)) ∧
      (∀ e ∈ translated_batch (sample.from_utf8 sample_state.source_bytes)
          (default_options.auto_indent.getD true)
          [⟨0, 6, 11, "world", "moon", ""⟩, ⟨1, 0, 5, "hello", "HELLO", ""⟩],
        0 ≤ e.start_byte ∧ e.start_byte ≤ e.end_byte ∧
          e.end_byte ≤ (sample_state.source_bytes.length : Int)) ∧
      (translated_batch (sample.from_utf8 sample_state.source_bytes)
        (default_options.auto_indent.getD true)
        [⟨0, 6, 11, "world", "moon", ""⟩, ⟨1, 0, 5, "hello", "HELLO", ""⟩]).Pairwise
          (fun a b => a.end_byte ≤ b.start_byte ∨ b.end_byte ≤ a.start_byte) ∧
      validate_edits sample_state.source_bytes.length 0
          ((translated_batch (sample.from_utf8 sample_state.source_bytes)
            (default_options.auto_indent.getD true)
            [⟨0, 6, 11, "world", "moon", ""⟩, ⟨1, 0, 5, "hello", "HELLO", ""⟩]).map
              EditInfo.toDict)
        = .ok (translated_batch (sample.from_utf8 sample_state.source_bytes)
            (default_options.auto_indent.getD true)
            [⟨0, 6, 11, "world", "moon", ""⟩, ⟨1, 0, 5, "hello", "HELLO", ""⟩]) ∧
      find_overlap (sample.sort_custom (translated_batch
        (sample.from_utf8 sample_state.source_bytes)
        (default_options.auto_indent.getD true)
        [⟨0, 6, 11, "world", "moon", ""⟩, ⟨1, 0, 5, "hello", "HELLO", ""⟩])) = none ∧
      ∀ dry_run : Bool,
        (apply_text_edits sample sample_store "a.gd"
            ((translated_batch (sample.from_utf8 sample_state.source_bytes)
              (default_options.auto_indent.getD true)
              [⟨0, 6, 11, "world", "moon", ""⟩, ⟨1, 0, 5, "hello", "HELLO", ""⟩]).map
                EditInfo.toDict) dry_run).1.success
          = true ∨
        (apply_text_edits sample sample_store "a.gd"
            ((translated_batch (sample.from_utf8 sample_state.source_bytes)
              (default_options.auto_indent.getD true)
              [⟨0, 6, 11, "world", "moon", ""⟩, ⟨1, 0, 5, "hello", "HELLO", ""⟩]).map
                EditInfo.toDict) dry_run).1.error
          = "Failed to parse after edits" :=
  apply_node_edits_hands_over_valid_batch sample sample_queries sample_store "a.gd"
    sample_state [⟨some "world", some "moon", none⟩, ⟨some "hello", some "HELLO", none⟩]
    default_options [⟨0, 6, 11, "world", "moon", ""⟩, ⟨1, 0, 5, "hello", "HELLO", ""⟩]
    sample_sort_sortsByStart sample_store_open (by decide) (by decide) rfl (by decide)

end ASTManager
